import Mathlib

/-!
# ARTK: a shallow embedding of the kernel (`kernel.cpp`, `kernel.h`, `ARTK.h`)

Pointers to tasks and semaphores are natural numbers, the heap of task
descriptors is a function from task pointers to descriptors, and the sleep
queue (a `NULL`-terminated chain of `DQNode`s starting at `pSleepHead`) is the
list of its nodes. The methods of `DNode` are modelled on the `pNext` and
`pPrev` fields in memory; in the kernel state a circular doubly-linked queue
(a `DNode` head with its members) is the list of its members from front to
back, and the section on doubly-linked lists shows that `insertBefore`,
`removeNext` and `remove` act on that list as appending at the back, taking
the front and taking a member out. A `NULL` dereference or the use of an
uninitialised pointer is `none`.
-/

namespace ARTK

/-! ## Machine words and constants -/

/-- One more than the largest `unsigned int` of the AVR targets the kernel
is written for (16 bits). -/
def UINT_MOD : Nat := 65536

/-- The statement `dcount--` on an `unsigned int`. -/
def uintDec (d : Nat) : Nat := if d = 0 then UINT_MOD - 1 else d - 1

/-- The statement `a += b` on `unsigned int`s. -/
def uintAdd (a b : Nat) : Nat := (a + b) % UINT_MOD

/-- The largest `int` of the AVR targets, where an `int` has 16 bits. -/
def INT_MAX : Int := 32767

/-- The least `int` of the AVR targets. -/
def INT_MIN : Int := -32768

/-- The `int` a value is stored as: the value modulo 2^16, in the range from
`INT_MIN` to `INT_MAX` (two's complement, as `avr-gcc` converts and wraps). -/
def intWrap (x : Int) : Int := (x + 32768) % 65536 - 32768

/-- The statement `c++` on an `int`: the largest `int` is followed by the
least one. -/
def intInc (c : Int) : Int := intWrap (c + 1)

/-- The statement `c--` on an `int`: the least `int` is followed by the
largest one. -/
def intDec (c : Int) : Int := intWrap (c - 1)

/-- The value `ARTK.h` documents for a timed wait that got the semaphore. -/
def ACQUIRED_SEMA : Int := 0

/-- The value `ARTK.h` documents for a timed wait that timed out. -/
def TIMED_OUT : Int := -1

/-- The floor `kernel.h` puts under every stack size. -/
def MIN_STACK : Nat := 256

abbrev TaskId := Nat

abbrev SemId := Nat

/-! ## Sleep queue (`kernel.cpp`, lines 93 to 225) -/

/-- A node of the delta queue; `pNext` is the tail of the list that holds
the node. -/
structure DQNode where
  pTask : TaskId
  dcount : Nat
  deriving DecidableEq

/-- The function `addSleeper`: the walk subtracts the delta of every node that
stays in front of the new one; the new node then goes in front of the node the
walk stopped at, whose delta is reduced by the new node's, or at the end of the
chain (which is also what happens on the empty queue). -/
def addSleeper (pTask : TaskId) : Nat → List DQNode → List DQNode
  | count, [] => [⟨pTask, count⟩]
  | count, pCurrent :: rest =>
    if pCurrent.dcount < count then
      pCurrent :: addSleeper pTask (count - pCurrent.dcount) rest
    else
      ⟨pTask, count⟩ :: { pCurrent with dcount := pCurrent.dcount - count } :: rest

/-- The function `removeWaker`: the first node is detached and its task
returned when its delta is 0. -/
def removeWaker : List DQNode → Option TaskId × List DQNode
  | [] => (none, [])
  | pTemp :: rest => if pTemp.dcount = 0 then (some pTemp.pTask, rest) else (none, pTemp :: rest)

/-- The function `sleepDecrement`: the delta of the first node goes down by
one, as an `unsigned int`. -/
def sleepDecrement : List DQNode → List DQNode
  | [] => []
  | head :: rest => { head with dcount := uintDec head.dcount } :: rest

/-- The function `removeSleeper`: the first node of the task is unlinked and
its delta added to the node behind it. -/
def removeSleeper (pTask : TaskId) : List DQNode → List DQNode
  | [] => []
  | pCurrent :: rest =>
    if pCurrent.pTask = pTask then
      match rest with
      | [] => []
      | pNext :: rest2 => { pNext with dcount := uintAdd pNext.dcount pCurrent.dcount } :: rest2
    else
      pCurrent :: removeSleeper pTask rest

/-- The tasks that the loop of `timerISR` takes off the queue: it calls
`removeWaker` until that returns `NULL`. -/
def wakers : List DQNode → List TaskId
  | [] => []
  | n :: rest => if n.dcount = 0 then n.pTask :: wakers rest else []

/-- The queue that the loop of `timerISR` leaves behind. -/
def afterWakers : List DQNode → List DQNode
  | [] => []
  | n :: rest => if n.dcount = 0 then afterWakers rest else n :: rest

/-- Sum of the deltas of nodes `0..k`: the ticks that remain for node `k`. -/
def prefixSum (q : List DQNode) (k : Nat) : Nat :=
  ((q.take (k + 1)).map DQNode.dcount).sum

/-- Sum of all deltas of a queue. -/
def totalTicks (q : List DQNode) : Nat := (q.map DQNode.dcount).sum

/-- Ticks that remain for the first node of a task, when it has one. -/
def remainingOf (t : TaskId) : List DQNode → Option Nat
  | [] => none
  | n :: rest =>
    if n.pTask = t then some n.dcount
    else (remainingOf t rest).map (fun r => n.dcount + r)

/-- The delta of the first node is not 0 (nothing is said of an empty queue). -/
def HeadNonzero : List DQNode → Prop
  | [] => True
  | n :: _ => n.dcount ≠ 0

instance (q : List DQNode) : Decidable (HeadNonzero q) := by
  cases q <;> unfold HeadNonzero <;> infer_instance

/-! ## Doubly-linked lists (`kernel.cpp`, lines 58 to 91) -/

/-- The `DNode` objects in memory: the fields `pNext` and `pPrev` of the node
at each address. -/
structure Links where
  pNext : Nat → Nat
  pPrev : Nat → Nat

/-- The method `DNode::isEmpty` of the node at `this`. -/
def DNode.isEmpty (this : Nat) (h : Links) : Bool := decide (h.pNext this = this)

/-- The method `DNode::insertBefore` (`addLast`), statement by statement. -/
def DNode.insertBefore (this pLink : Nat) (h : Links) : Links :=
  let h1 : Links := { h with pNext := Function.update h.pNext pLink this }
  let h2 : Links := { h1 with pPrev := Function.update h1.pPrev pLink (h1.pPrev this) }
  let h3 : Links := { h2 with pNext := Function.update h2.pNext (h2.pPrev this) pLink }
  { h3 with pPrev := Function.update h3.pPrev this pLink }

/-- The method `DNode::removeNext` (`removeFront`), statement by statement;
`none` is the `NULL` returned on an empty list. -/
def DNode.removeNext (this : Nat) (h : Links) : Option Nat × Links :=
  if DNode.isEmpty this h then (none, h)
  else
    let pLink := h.pNext this
    let h1 : Links := { h with pNext := Function.update h.pNext this (h.pNext pLink) }
    let h2 : Links := { h1 with pPrev := Function.update h1.pPrev (h1.pNext pLink) this }
    let h3 : Links := { h2 with pPrev := Function.update h2.pPrev pLink pLink }
    let h4 : Links := { h3 with pNext := Function.update h3.pNext pLink pLink }
    (some pLink, h4)

/-- The method `DNode::remove`, statement by statement. -/
def DNode.remove (this : Nat) (h : Links) : Links :=
  let h1 : Links := { h with pNext := Function.update h.pNext (h.pPrev this) (h.pNext this) }
  let h2 : Links := { h1 with pPrev := Function.update h1.pPrev (h1.pNext this) (h1.pPrev this) }
  let h3 : Links := { h2 with pPrev := Function.update h2.pPrev this this }
  { h3 with pNext := Function.update h3.pNext this this }

/-- The nodes `l` lie between `a` and `b`, in this order: each is the `pNext`
of the one before and the `pPrev` of the one after. -/
def Seg (h : Links) : Nat → List Nat → Nat → Prop
  | a, [], b => h.pNext a = b ∧ h.pPrev b = a
  | a, x :: l, b => h.pNext a = x ∧ h.pPrev x = a ∧ Seg h x l b

/-- The circular list with the head node `d` has the members `l`, front
first: this is the list that stands for the queue in the kernel state
below. -/
def Ring (h : Links) (d : Nat) (l : List Nat) : Prop := (d :: l).Nodup ∧ Seg h d l d

/-! ## Tasks, semaphores and the kernel state (`kernel.h`) -/

/-- The task states of `kernel.h`, and the state `SEM_TIMED_BLOCKED` that
`kernel.cpp` gives to a task in a timed wait. -/
inductive TaskState
  | TASK_READY
  | TASK_ACTIVE
  | TASK_BLOCKED
  | SLEEP_BLOCKED
  | SEM_TIMED_BLOCKED
  deriving DecidableEq

open TaskState

/-- The fields of `class Task` that the kernel reads and writes; `mylink` is
the task's place in the queue that holds it, and the bytes of the stack are
not part of this record. -/
structure Task where
  priority : Nat
  state : TaskState
  firstRun : Bool
  timedOut : Bool
  pStack : Nat
  deriving DecidableEq

/-- The fields of `class Semaphore`; `taskList` is the wait list, front
first. The field `count` is an `int` of 16 bits: the constructor stores the
argument as an `int`, and `count++` and `count--` wrap (`intInc`, `intDec`),
so that every count a kernel holds lies between `INT_MIN` and `INT_MAX`. -/
structure Semaphore where
  count : Int
  taskList : List TaskId
  deriving DecidableEq

/-- A call of `resched` into the context-switch routines: `ContextSwitch`
is handed the outgoing task (for its `pStack` field), the saved stack pointer
of the incoming task and the `firstRun` value; `FirstSwitch` only the stack
pointer of the incoming task. -/
inductive SwitchCall
  | ContextSwitch (oldTask : TaskId) (newStack : Nat) (firstRun : Bool)
  | FirstSwitch (newStack : Nat)
  deriving DecidableEq

/-- The kernel: the task descriptors, the scheduler (`readyList`, indexed by
priority as `resched` indexes it, `numTasks`, `activeTask`), the sleep queue,
the semaphores, the global interrupt flag moved by `cli()` and `sei()`, the
calls made into the context-switch routines (latest first; what those routines
write themselves, the saved stack pointer of the outgoing task, belongs to
`machine.h` and is left out), the global `glargeModel`, and whether
`ARTK_TerminateMultitasking` has ended the program. -/
structure Kernel where
  tasks : TaskId → Task
  readyList : Nat → List TaskId
  numTasks : Int
  activeTask : Option TaskId
  pSleepHead : List DQNode
  semas : SemId → Semaphore
  interrupts : Bool
  switches : List SwitchCall
  glargeModel : Bool
  terminated : Bool

/-- Change one task descriptor. -/
@[simp]
def Kernel.modifyTask (t : TaskId) (f : Task → Task) (s : Kernel) : Kernel :=
  { s with tasks := Function.update s.tasks t (f (s.tasks t)) }

/-- Change one semaphore. -/
@[simp]
def Kernel.modifySema (i : SemId) (f : Semaphore → Semaphore) (s : Kernel) : Kernel :=
  { s with semas := Function.update s.semas i (f (s.semas i)) }

@[simp]
def makeTaskReady (t : TaskId) : Kernel → Kernel :=
  Kernel.modifyTask t (fun d => { d with state := TASK_READY })

@[simp]
def makeTaskActive (t : TaskId) : Kernel → Kernel :=
  Kernel.modifyTask t (fun d => { d with state := TASK_ACTIVE })

@[simp]
def makeTaskBlocked (t : TaskId) : Kernel → Kernel :=
  Kernel.modifyTask t (fun d => { d with state := TASK_BLOCKED })

@[simp]
def makeTaskSleepBlocked (t : TaskId) : Kernel → Kernel :=
  Kernel.modifyTask t (fun d => { d with state := SLEEP_BLOCKED })

@[simp]
def makeTaskSemaphoreTimedBlocked (t : TaskId) : Kernel → Kernel :=
  Kernel.modifyTask t (fun d => { d with state := SEM_TIMED_BLOCKED })

/-- The assignment `t->timedOut = b`. -/
@[simp]
def setTimedOut (t : TaskId) (b : Bool) : Kernel → Kernel :=
  Kernel.modifyTask t (fun d => { d with timedOut := b })

/-- The assignment `t->firstRun = b`. -/
@[simp]
def setFirstRun (t : TaskId) (b : Bool) : Kernel → Kernel :=
  Kernel.modifyTask t (fun d => { d with firstRun := b })

/-- The statement `cli()`. -/
@[simp]
def cli (s : Kernel) : Kernel := { s with interrupts := false }

/-- The statement `sei()`. -/
@[simp]
def sei (s : Kernel) : Kernel := { s with interrupts := true }

/-! ## Queues of `DNode`s, as lists of their members -/

/-- The method `DNode::remove` on the link of a task: the task leaves the
queue that holds it (a ready queue or a wait list), and the link is left
pointing at itself, on no queue. -/
@[simp]
def unlink (t : TaskId) (s : Kernel) : Kernel :=
  { s with
    readyList := fun p => (s.readyList p).filter (fun x => decide (x ≠ t))
    semas := fun i => { s.semas i with taskList := ((s.semas i).taskList).filter (fun x => decide (x ≠ t)) } }

/-- Modelled from the spec: the queue `Scheduler::addready` appends to. The
method is `readyList.addLast(&t->mylink)` in `kernel.h`, where `readyList` has
lost its array bound, while `resched` in `kernel.cpp` indexes `readyList` by
priority; the spec (4.3) has the task enqueued on the ready queue of its own
priority, so the task goes to the back of `readyList[t->priority]`. -/
@[simp]
def addready (t : TaskId) (s : Kernel) : Kernel :=
  { s with readyList :=
      Function.update s.readyList (s.tasks t).priority (s.readyList (s.tasks t).priority ++ [t]) }

/-- The method `Scheduler::removeready`: `t->mylink.remove()`. -/
@[simp]
def removeready (t : TaskId) (s : Kernel) : Kernel := unlink t s

/-! ## Scheduler (`kernel.cpp`, lines 227 to 341) -/

/-- The loop of `resched` over `readyList[n-1]`, ..., `readyList[0]`: the
first queue that is not empty and its front member. -/
def pickReady (readyList : Nat → List TaskId) : Nat → Option (Nat × TaskId)
  | 0 => none
  | p + 1 =>
    match readyList p with
    | t :: _ => some (p, t)
    | [] => pickReady readyList p

/-- The method `Scheduler::resched`. The parameter `L` is `PRIORITY_LEVELS`,
whose definition is not in the sources: the loop runs from `HIGHEST_PRIORITY`,
which is `L - 1`, down to `LOWEST_PRIORITY`, which is 0. When every queue is
empty, `newTask` is used uninitialised. Interrupts are enabled again by the
routine that swaps the new task in. -/
def resched (L : Nat) (s : Kernel) : Option Kernel :=
  match pickReady s.readyList L with
  | none => none
  | some (p, newTask) =>
    let s1 := { s with readyList := Function.update s.readyList p (s.readyList p).tail }
    if s.activeTask = some newTask then
      some (makeTaskActive newTask s1)
    else
      let s2 := makeTaskActive newTask { s1 with activeTask := some newTask }
      let firstRun := (s2.tasks newTask).firstRun
      let s3 := setFirstRun newTask false (cli s2)
      let call :=
        match s.activeTask with
        | some oldTask => SwitchCall.ContextSwitch oldTask (s3.tasks newTask).pStack firstRun
        | none => SwitchCall.FirstSwitch (s3.tasks newTask).pStack
      some { s3 with switches := call :: s3.switches, interrupts := true }

/-- The method `Scheduler::addNewTask`. -/
def addNewTask (t : TaskId) (s : Kernel) : Kernel :=
  addready t (makeTaskReady t { s with numTasks := s.numTasks + 1 })

/-- The function `ARTK_TerminateMultitasking`: `exit(0)`. -/
@[simp]
def ARTK_TerminateMultitasking (s : Kernel) : Kernel := { s with terminated := true }

/-- The method `Scheduler::removeTask`. -/
def removeTask (L : Nat) (s : Kernel) : Option Kernel :=
  let s1 := { s with numTasks := s.numTasks - 1 }
  if s1.numTasks = 1 then some (ARTK_TerminateMultitasking s1) else resched L s1

/-- The method `Scheduler::relinquish`. -/
def relinquish (L : Nat) (s : Kernel) : Option Kernel :=
  match s.activeTask with
  | none => none
  | some a => resched L (addready a (makeTaskReady a s))

/-- The method `Scheduler::startMultiTasking`. -/
def startMultiTasking (L : Nat) (s : Kernel) : Option Kernel := resched L s

/-- The state the constructor of `Scheduler` sets up, with no task, no
semaphore in use and an empty sleep queue. -/
def Kernel.init : Kernel where
  tasks := fun _ => ⟨0, TASK_BLOCKED, false, false, 0⟩
  readyList := fun _ => []
  numTasks := 0
  activeTask := none
  pSleepHead := []
  semas := fun _ => ⟨0, []⟩
  interrupts := true
  switches := []
  glargeModel := false
  terminated := false

/-! ## Tasks (`kernel.cpp`, lines 343 to 460) -/

/-- The constructor `Task::Task` at the address `t`, with `stackOk` telling
whether `malloc` returned a stack: the saved stack pointer ends four bytes
(six in the large model) below the last byte of the stack, as an index into
the stack. -/
def Task.create (t : TaskId) (taskPriority stackSize : Nat) (stackOk : Bool) (s : Kernel) : Kernel :=
  if stackOk then
    let frame := if s.glargeModel then 6 else 4
    addNewTask t
      (s.modifyTask t (fun d =>
        { d with firstRun := true, pStack := stackSize - 1 - frame, priority := taskPriority }))
  else s

/-- The function `ARTK_CreateTask`; `isIdle` tells whether the root function
is `Idle`, and `L` is `PRIORITY_LEVELS`. -/
def ARTK_CreateTask (L : Nat) (t : TaskId) (isIdle : Bool) (priority stacksize : Nat)
    (stackOk : Bool) (s : Kernel) : Kernel :=
  let p1 := if priority < 1 then 1 else priority
  let p2 := if p1 ≥ L then L - 1 else p1
  let p3 := if isIdle then 0 else p2
  let sz := if stacksize < MIN_STACK then MIN_STACK else stacksize
  Task.create t p3 sz stackOk s

/-- The method `Task::taskDone`, run by the active task. -/
def taskDone (L : Nat) (s : Kernel) : Option Kernel :=
  match s.activeTask with
  | none => none
  | some a => removeTask L (removeready a s)

/-- The method `Task::task_sleep` of the task `this`. -/
def task_sleep (L : Nat) (this : TaskId) (cnt : Nat) (s : Kernel) : Option Kernel :=
  if cnt > 0 then
    let s1 := makeTaskSleepBlocked this s
    resched L { s1 with pSleepHead := addSleeper this cnt s1.pSleepHead }
  else some s

/-- The body of the loop of `timerISR` for one task taken off the sleep
queue. -/
def wakeTask (pWakeup : TaskId) (s : Kernel) : Kernel :=
  let s1 :=
    if (s.tasks pWakeup).state = SEM_TIMED_BLOCKED then unlink pWakeup (setTimedOut pWakeup true s)
    else s
  addready pWakeup (makeTaskReady pWakeup s1)

/-- The loop of `timerISR`, run on the sleep queue `q`: while `removeWaker`
returns a task, that task is woken; the flag is `contextSwitchNeeded`, and
`active` is the task that was active when the handler was entered. -/
def wakeLoop (active : TaskId) : List DQNode → Kernel → Bool → Kernel × Bool
  | [], s, need => ({ s with pSleepHead := [] }, need)
  | n :: rest, s, need =>
    if n.dcount = 0 then
      wakeLoop active rest (wakeTask n.pTask s)
        (need || decide ((s.tasks n.pTask).priority > (s.tasks active).priority))
    else ({ s with pSleepHead := n :: rest }, need)

/-- The handler `timerISR`: it is entered with interrupts disabled and they
are enabled again on the way out. With no active task yet, taking a task off
the sleep queue dereferences `NULL`. -/
def timerISR (L : Nat) (s : Kernel) : Option Kernel :=
  let q := sleepDecrement s.pSleepHead
  match s.activeTask with
  | none =>
    match wakers q with
    | [] => some (sei { cli s with pSleepHead := q })
    | _ :: _ => none
  | some active =>
    let r := wakeLoop active q (cli s) false
    if r.2 then
      (resched L (addready active (makeTaskReady active r.1))).map sei
    else some (sei r.1)

/-! ## Semaphores (`kernel.cpp`, lines 462 to 566) -/

/-- The constructor of `Semaphore`, at the address `i`; the parameter
`initialCount` is an `int`, and the argument arrives as one. -/
def Semaphore.create (i : SemId) (initialCount : Int) (s : Kernel) : Kernel :=
  { s with semas := Function.update s.semas i ⟨intWrap initialCount, []⟩ }

/-- The function `ARTK_CreateSema`. -/
def ARTK_CreateSema (i : SemId) (initial_count : Int) (s : Kernel) : Kernel :=
  Semaphore.create i initial_count s

/-- The method `Semaphore::wait()` of the semaphore `i`. -/
def Semaphore.wait (L : Nat) (i : SemId) (s : Kernel) : Option Kernel :=
  let s0 := cli s
  if (s0.semas i).count > 0 then
    some (sei (s0.modifySema i (fun m => { m with count := intDec m.count })))
  else
    match s0.activeTask with
    | none => none
    | some active =>
      let s1 := makeTaskBlocked active s0
      resched L (s1.modifySema i (fun m => { m with taskList := m.taskList ++ [active] }))

/-- What a call of `Semaphore::wait(unsigned int)` has done when control
leaves the kernel: it has returned a value, or the caller is suspended inside
`resched` and the value is decided when the caller runs again. -/
inductive WaitOutcome
  | returned (value : Int)
  | suspended
  deriving DecidableEq

/-- The method `Semaphore::wait(unsigned int)` of the semaphore `i`, up to
the return or to the call of `resched` that suspends the caller. -/
def Semaphore.waitTimed (L : Nat) (i : SemId) (timeout : Nat) (s : Kernel) :
    Option (Kernel × WaitOutcome) :=
  match s.activeTask with
  | none => none
  | some active =>
    let s0 := cli (setTimedOut active false s)
    if (s0.semas i).count > 0 then
      some (s0.modifySema i (fun m => { m with count := intDec m.count }), WaitOutcome.returned ACQUIRED_SEMA)
    else if timeout = 0 then
      some (sei s0, WaitOutcome.returned TIMED_OUT)
    else
      let s1 := { s0 with pSleepHead := addSleeper active timeout s0.pSleepHead }
      let s2 := makeTaskSemaphoreTimedBlocked active s1
      let s3 := s2.modifySema i (fun m => { m with taskList := m.taskList ++ [active] })
      (resched L s3).map (fun s4 => (s4, WaitOutcome.suspended))

/-- The end of `Semaphore::wait(unsigned int)`: the value the task `active`
returns when it has been swapped back in, in the state it finds. -/
def Semaphore.waitTimedResume (active : TaskId) (s : Kernel) : Int :=
  if (s.tasks active).timedOut then TIMED_OUT else ACQUIRED_SEMA

/-- The part of `Semaphore::signal` that hands the semaphore `i` to the
front waiter `t`, already taken off the wait list: up to `addready(t)`. -/
def Semaphore.signalWake (t : TaskId) (s : Kernel) : Kernel :=
  let s1 := setTimedOut t false s
  let s2 :=
    if (s1.tasks t).state = SEM_TIMED_BLOCKED then
      { s1 with pSleepHead := removeSleeper t s1.pSleepHead }
    else s1
  addready t (makeTaskReady t s2)

/-- The method `Semaphore::signal` of the semaphore `i`. -/
def Semaphore.signal (L : Nat) (i : SemId) (s : Kernel) : Option Kernel :=
  let s0 := (cli s).modifySema i (fun m => { m with count := intInc m.count })
  match (s0.semas i).taskList with
  | [] => some (sei s0)
  | t :: rest =>
    let s1 := s0.modifySema i (fun m => { m with count := intDec m.count, taskList := rest })
    let s2 := Semaphore.signalWake t s1
    match s2.activeTask with
    | none => none
    | some a =>
      if (s2.tasks t).priority > (s2.tasks a).priority then
        (resched L (addready a (makeTaskReady a s2))).map sei
      else some (sei s2)

/-! ## The calls of `ARTK.h` made by the running task -/

/-- Modelled from the spec: `ARTK_Sleep` (its body is in `inline.h`, which is
not in the sources) is `task_sleep` of the active task. -/
def ARTK_Sleep (L : Nat) (ticks : Nat) (s : Kernel) : Option Kernel :=
  match s.activeTask with
  | none => none
  | some a => task_sleep L a ticks s

/-- Modelled from the spec: `ARTK_Yield` (its body is in `inline.h`, which is
not in the sources) is `relinquish`. -/
def ARTK_Yield (L : Nat) (s : Kernel) : Option Kernel := relinquish L s

/-! ## Histories of the sleep queue -/

/-- One operation on the sleep queue. -/
inductive SleepOp
  | insert (t : TaskId) (count : Nat)
  | tick
  | cancel (t : TaskId)
  deriving DecidableEq

/-- The operation on the queue: `addSleeper`, `sleepDecrement` or
`removeSleeper`. -/
def SleepOp.apply : SleepOp → List DQNode → List DQNode
  | SleepOp.insert t count, q => addSleeper t count q
  | SleepOp.tick, q => sleepDecrement q
  | SleepOp.cancel t, q => removeSleeper t q

/-- The true remaining ticks of every task: the count of its insertion, minus
one for every tick since. -/
def SleepOp.track : SleepOp → (TaskId → Int) → (TaskId → Int)
  | SleepOp.insert t count, r => Function.update r t (count : Int)
  | SleepOp.tick, r => fun x => r x - 1
  | SleepOp.cancel _, r => r

/-- The queue and the true remaining ticks after a sequence of operations,
oldest first. -/
def runSleepOps : List SleepOp → List DQNode × (TaskId → Int) → List DQNode × (TaskId → Int)
  | [], qr => qr
  | op :: ops, qr => runSleepOps ops (op.apply qr.1, op.track qr.2)

/-- What one run of `timerISR` does to the sleep queue: `sleepDecrement`, then
`removeWaker` until it returns `NULL`. -/
def tickQueue (q : List DQNode) : List DQNode := afterWakers (sleepDecrement q)

/-- The sleep queues the kernel builds, each with the true remaining ticks of
its tasks: the empty queue; an insertion of a task that has no node, with a
count that is positive (as `task_sleep` and the timed wait see to) and an
`unsigned int`; a run of the tick handler; a cancellation. -/
inductive SleepReach : List DQNode → (TaskId → Int) → Prop
  | empty : SleepReach [] (fun _ => 0)
  | insert {q : List DQNode} {r : TaskId → Int} (t : TaskId) (count : Nat) :
      SleepReach q r → 0 < count → count < UINT_MOD → (∀ n ∈ q, n.pTask ≠ t) →
      SleepReach (addSleeper t count q) (Function.update r t (count : Int))
  | tick {q : List DQNode} {r : TaskId → Int} :
      SleepReach q r → SleepReach (tickQueue q) (fun x => r x - 1)
  | cancel {q : List DQNode} {r : TaskId → Int} (t : TaskId) :
      SleepReach q r → SleepReach (removeSleeper t q) r

/-- Every node's prefix sum, counted from `acc`, is the true remaining ticks
of its task. -/
def Tracks (r : TaskId → Int) : Nat → List DQNode → Prop
  | _, [] => True
  | acc, n :: rest => r n.pTask = ((acc + n.dcount : Nat) : Int) ∧ Tracks r (acc + n.dcount) rest

/-! ## Runs of the kernel -/

/-- The operations of a running kernel: the calls a task makes (the first
five and `exit`, the return of its root function into `taskDone`), a call of
`signal`, which an interrupt handler may make as well, and a tick of the
timer. -/
inductive KOp
  | sleep (ticks : Nat)
  | yield
  | wait (i : SemId)
  | waitTimed (i : SemId) (timeout : Nat)
  | signal (i : SemId)
  | tick
  | exit
  deriving DecidableEq

/-- The kernel after an operation, when it returns or suspends its caller. -/
def KOp.step (L : Nat) : KOp → Kernel → Option Kernel
  | KOp.sleep ticks, s => ARTK_Sleep L ticks s
  | KOp.yield, s => ARTK_Yield L s
  | KOp.wait i, s => Semaphore.wait L i s
  | KOp.waitTimed i timeout, s => (Semaphore.waitTimed L i timeout s).map Prod.fst
  | KOp.signal i, s => Semaphore.signal L i s
  | KOp.tick, s => timerISR L s
  | KOp.exit, s => taskDone L s

/-- A task pointer that `new` may return: the task is on no queue and is not
the active task. -/
def Fresh (t : TaskId) (s : Kernel) : Prop :=
  (∀ p, t ∉ s.readyList p) ∧ (∀ i, t ∉ (s.semas i).taskList) ∧
    (∀ n ∈ s.pSleepHead, n.pTask ≠ t) ∧ s.activeTask ≠ some t

/-- The states `setup` can be in before it starts multitasking: tasks and
semaphores have been created, nothing has run. -/
inductive Setup (L : Nat) : Kernel → Prop
  | init : Setup L Kernel.init
  | createTask {s : Kernel} (t : TaskId) (isIdle : Bool) (priority stacksize : Nat)
      (stackOk : Bool) :
      Setup L s → Fresh t s → Setup L (ARTK_CreateTask L t isIdle priority stacksize stackOk s)
  | createSema {s : Kernel} (i : SemId) (initial_count : Int) :
      Setup L s → Setup L (ARTK_CreateSema i initial_count s)

/-- The states of a running kernel in which no task is created once
multitasking has started. -/
inductive Running (L : Nat) : Kernel → Prop
  | start {s0 s : Kernel} : Setup L s0 → startMultiTasking L s0 = some s → Running L s
  | step {s s2 : Kernel} (op : KOp) : Running L s → op.step L s = some s2 → Running L s2

/-- There is an active task, and no task on a ready queue has a higher
priority. -/
def HighestRuns (s : Kernel) : Prop :=
  ∃ a, s.activeTask = some a ∧
    ∀ p x, x ∈ s.readyList p → (s.tasks x).priority ≤ (s.tasks a).priority

/-- Every priority is a level of the scheduler, and every task on a ready
queue is on the queue of its own priority. -/
def ReadyOk (L : Nat) (s : Kernel) : Prop :=
  (∀ x, (s.tasks x).priority < L) ∧ ∀ p x, x ∈ s.readyList p → (s.tasks x).priority = p

/-- A kernel in which `setup` has created the idle task (at address 0) and a
task of priority 3 (at address 1). -/
def twoTasks : Kernel :=
  ARTK_CreateTask 17 0 true 0 256 true (ARTK_CreateTask 17 1 false 3 256 true Kernel.init)

/-- The kernel `twoTasks` once `startMultiTasking` has run. -/
def twoTasksStarted : Kernel := (startMultiTasking 17 twoTasks).getD Kernel.init

/-- The kernel `twoTasksStarted` after the running task has created a task of
priority 5 (at address 2). -/
def thirdCreated : Kernel := ARTK_CreateTask 17 2 false 5 256 true twoTasksStarted

/-- The kernel after `n` runs of the tick handler, nothing else happening in
between. -/
def ticks (L : Nat) : Nat → Kernel → Option Kernel
  | 0, s => some s
  | n + 1, s => (timerISR L s).bind (ticks L n)

/-- How many nodes a task has on a sleep queue. -/
def nodeCount (t : TaskId) : List DQNode → Nat
  | [] => 0
  | m :: rest => (if m.pTask = t then 1 else 0) + nodeCount t rest

/-- The task is in the Ready state, on the ready queue of its priority. -/
def ReadyOn (x : TaskId) (s : Kernel) : Prop :=
  (s.tasks x).state = TASK_READY ∧ x ∈ s.readyList (s.tasks x).priority

/-- The task is the active task, in the Active state. -/
def Runs (x : TaskId) (s : Kernel) : Prop :=
  s.activeTask = some x ∧ (s.tasks x).state = TASK_ACTIVE

/-- The kernel `twoTasksStarted` after the running task (of priority 3) has
called `ARTK_Sleep(2)`. -/
def oneSleeping : Kernel := (ARTK_Sleep 17 2 twoTasksStarted).getD Kernel.init

/-- The kernel inside `signal` once `count++`, `count--` and `removeFront`
have run on a semaphore with a waiter: `rest` is the wait list without its
front. -/
def Semaphore.granted (i : SemId) (rest : List TaskId) (s : Kernel) : Kernel :=
  ((cli s).modifySema i (fun m => { m with count := intInc m.count })).modifySema i
    (fun m => { m with count := intDec m.count, taskList := rest })

/-- A kernel in which `setup` has created a task of priority 3 (at address
1), a task of priority 5 (at address 2), the idle task (at address 0) and a
semaphore with count 0 (at address 0). -/
def threeTasks : Kernel :=
  ARTK_CreateSema 0 0
    (ARTK_CreateTask 17 0 true 0 256 true
      (ARTK_CreateTask 17 2 false 5 256 true (ARTK_CreateTask 17 1 false 3 256 true Kernel.init)))

/-- The kernel `threeTasks` once `startMultiTasking` has run: the task of
priority 5 is active. -/
def threeStarted : Kernel := (startMultiTasking 17 threeTasks).getD Kernel.init

/-- The kernel `threeStarted` after the active task has called `wait()` on
the semaphore: the task of priority 3 is active. -/
def highWaits : Kernel := (Semaphore.wait 17 0 threeStarted).getD Kernel.init

/-- The kernel `highWaits` after the active task has called `wait()` on the
semaphore as well: the idle task is active. -/
def bothWait : Kernel := (Semaphore.wait 17 0 highWaits).getD Kernel.init

/-- The kernel inside `wait(timeout)` when the caller `active` has to block,
just before the call of `resched`: the caller has its node on the sleep
queue, is `SEM_TIMED_BLOCKED` and is at the back of the wait list. -/
def Semaphore.timedBlocked (i : SemId) (active : TaskId) (timeout : Nat) (s : Kernel) : Kernel :=
  (makeTaskSemaphoreTimedBlocked active
    { cli (setTimedOut active false s) with
      pSleepHead := addSleeper active timeout (cli (setTimedOut active false s)).pSleepHead }).modifySema
    i (fun m => { m with taskList := m.taskList ++ [active] })

/-- The task is not running and is on no ready queue. -/
def Parked (x : TaskId) (s : Kernel) : Prop :=
  s.activeTask ≠ some x ∧ ∀ p, x ∉ s.readyList p

/-- The timed wait of the task has expired: its `timedOut` flag is set and it
is on no wait list. -/
def Expired (x : TaskId) (s : Kernel) : Prop :=
  (s.tasks x).timedOut = true ∧ ∀ i, x ∉ (s.semas i).taskList

/-- The kernel `highWaits` (the task of priority 5 waits on the semaphore)
after the active task (of priority 3) has called `wait(5)` on the semaphore
as well: the idle task is active. -/
def lateWaiter : Kernel :=
  ((Semaphore.waitTimed 17 0 5 highWaits).map Prod.fst).getD Kernel.init

/-- The kernel `lateWaiter` after two ticks. -/
def lateWaiterTicked : Kernel := (ticks 17 2 lateWaiter).getD Kernel.init

/-- The kernel `lateWaiterTicked` after a call of `signal` on the semaphore
(by the idle task, or by an interrupt handler while it runs). -/
def lateWaiterPassedOver : Kernel :=
  (Semaphore.signal 17 0 lateWaiterTicked).getD Kernel.init

/-! ## The bookkeeping of the kernel -/

/-- The task is on no ready queue, on no wait list, and has no node on the
sleep queue. -/
def Detached (x : TaskId) (s : Kernel) : Prop :=
  (∀ p, x ∉ s.readyList p) ∧ (∀ i, x ∉ (s.semas i).taskList) ∧ nodeCount x s.pSleepHead = 0

/-- The queues agree with the task states: every priority is a level of the
scheduler; the tasks on the ready queue of a priority are the Ready tasks of
that priority, each once; a task on a wait list is blocked on a semaphore, and
is on one wait list once; a task with a node on the sleep queue is sleeping or
in a timed wait, and has one node. -/
structure QueuesOk (L : Nat) (s : Kernel) : Prop where
  prio : ∀ x, (s.tasks x).priority < L
  ready_mem : ∀ p x, x ∈ s.readyList p →
    (s.tasks x).priority = p ∧ (s.tasks x).state = TASK_READY
  ready_state : ∀ x, (s.tasks x).state = TASK_READY → x ∈ s.readyList (s.tasks x).priority
  ready_nodup : ∀ p, (s.readyList p).Nodup
  sema_mem : ∀ i x, x ∈ (s.semas i).taskList →
    (s.tasks x).state = TASK_BLOCKED ∨ (s.tasks x).state = SEM_TIMED_BLOCKED
  sema_nodup : ∀ i, (s.semas i).taskList.Nodup
  sema_disj : ∀ i j x, x ∈ (s.semas i).taskList → x ∈ (s.semas j).taskList → i = j
  sleep_mem : ∀ x, nodeCount x s.pSleepHead ≠ 0 →
    (s.tasks x).state = SLEEP_BLOCKED ∨ (s.tasks x).state = SEM_TIMED_BLOCKED
  sleep_nodup : ∀ x, nodeCount x s.pSleepHead ≤ 1

/-- The active task, when there is one, is in the Active state. -/
def ActiveOk (s : Kernel) : Prop :=
  ∀ a, s.activeTask = some a → (s.tasks a).state = TASK_ACTIVE

/-- There is an active task, and no task in the Ready state has a higher
priority. -/
def HighestReadyRuns (s : Kernel) : Prop :=
  ∃ a, s.activeTask = some a ∧
    ∀ x, (s.tasks x).state = TASK_READY → (s.tasks x).priority ≤ (s.tasks a).priority

/-! ## Runs of the kernel from `setup` on -/

/-- The calls a run of the kernel is made of: the creation of a task (at the
address `t`, with `stackOk` telling whether `malloc` returned a stack) or of a
semaphore (at the address `i`), the start of multitasking, and the operations
of a running kernel. -/
inductive KCall
  | createTask (t : TaskId) (isIdle : Bool) (priority stacksize : Nat) (stackOk : Bool)
  | createSema (i : SemId) (initial_count : Int)
  | start
  | op (o : KOp)
  deriving DecidableEq

/-- The kernel after a call, when it returns or suspends its caller. -/
def KCall.step (L : Nat) : KCall → Kernel → Option Kernel
  | KCall.createTask t isIdle priority stacksize stackOk, s =>
    some (ARTK_CreateTask L t isIdle priority stacksize stackOk s)
  | KCall.createSema i initial_count, s => some (ARTK_CreateSema i initial_count s)
  | KCall.start, s => startMultiTasking L s
  | KCall.op o, s => o.step L s

/-- The kernel after a sequence of calls, oldest first. -/
def runCalls (L : Nat) : List KCall → Kernel → Option Kernel
  | [], s => some s
  | c :: cs, s => (c.step L s).bind (runCalls L cs)

/-- The counts of all semaphores are `int`s. -/
def CountsOk (s : Kernel) : Prop :=
  ∀ i, INT_MIN ≤ (s.semas i).count ∧ (s.semas i).count ≤ INT_MAX

/-- What one call may do to a semaphore that it does not create, unless it is
a `signal` that finds no waiter: leave the count as it is and take waiters off
the list; take a permit; put a waiter at the back of the list when there is
no permit. -/
def SemaStep (m m2 : Semaphore) : Prop :=
  (m2.count = m.count ∧ m2.taskList.Sublist m.taskList) ∨
  (0 < m.count ∧ m2.count = m.count - 1 ∧ m2.taskList = m.taskList) ∨
  (m.count ≤ 0 ∧ m2.count = m.count ∧ ∃ a, m2.taskList = m.taskList ++ [a])

/-- What a `signal` that finds no waiter does to its semaphore: `count++`. -/
def SemaAdd (m m2 : Semaphore) : Prop :=
  m.taskList = [] ∧ m2.count = intInc m.count ∧ m2.taskList = []

/-- A run from the boot state: a task of priority 3 (at address 1), the idle
task (at address 0) and a semaphore with count 0 (at address 0) are created
and multitasking starts; the task calls `wait()` and blocks; `signal` is
called twice. -/
def semaCalls : List KCall :=
  [KCall.createTask 1 false 3 256 true, KCall.createTask 0 true 0 256 true,
    KCall.createSema 0 0, KCall.start, KCall.op (KOp.wait 0), KCall.op (KOp.signal 0),
    KCall.op (KOp.signal 0)]

/-- The kernel after the run `semaCalls`. -/
def semaRun : Kernel := (runCalls 17 semaCalls Kernel.init).getD Kernel.init

/-- The kernel `highWaits` (the task of priority 5 waits on the semaphore,
the task of priority 3 at address 1 is active) after the active task has
created a task of priority 7 (at address 3). -/
def newcomerCreated : Kernel := ARTK_CreateTask 17 3 false 7 256 true highWaits

/-- The kernel `newcomerCreated` after the active task has called `signal`
on the semaphore. -/
def newcomerRuns : Kernel := (Semaphore.signal 17 0 newcomerCreated).getD Kernel.init

/-- The active task `A` of `s` has not been preempted in `s2`: it is still
the active task, in the Active state, on no ready queue; no call has been made
into the context-switch routines; and every ready queue holds the tasks it
held, in their places, with the tasks that have joined behind them, so that
`resched`, which takes the front of a queue, has not run. -/
def NotPreempted (A : TaskId) (s s2 : Kernel) : Prop :=
  s2.activeTask = some A ∧ (s2.tasks A).state = TASK_ACTIVE ∧ (∀ p, A ∉ s2.readyList p) ∧
    s2.switches = s.switches ∧ ∀ p, ∃ l, s2.readyList p = s.readyList p ++ l

/-- The kernel `threeStarted` after the active task (of priority 5, at address
2) has called `ARTK_Sleep(1)`, the task of priority 3 (at address 1) has
called `wait(2)` on the semaphore, and one tick has woken the task of priority
5: that task is active, and the task of priority 3 is in its timed wait with
one tick to go. -/
def lowWaits : Kernel :=
  (runCalls 17 [KCall.op (KOp.sleep 1), KCall.op (KOp.waitTimed 0 2), KCall.op KOp.tick]
    threeStarted).getD Kernel.init

/-- The tasks in front of the task `T` on the ready queue of its priority,
front first (the whole queue when `T` is not on it). -/
def ahead (T : TaskId) (s : Kernel) : List TaskId :=
  (s.readyList (s.tasks T).priority).takeWhile (fun x => decide (x ≠ T))

/-- The ready queues of `m` are those of `s` with tasks added at the back,
and the priorities of the tasks are the same. -/
def ReadyGrown (s m : Kernel) : Prop :=
  (∀ x, (m.tasks x).priority = (s.tasks x).priority) ∧
    ∀ p, ∃ l, m.readyList p = s.readyList p ++ l

/-- A kernel in which `setup` has created two tasks of priority 3 (at the
addresses 1 and 2, in this order) and the idle task (at address 0). -/
def twins : Kernel :=
  ARTK_CreateTask 17 0 true 0 256 true
    (ARTK_CreateTask 17 2 false 3 256 true (ARTK_CreateTask 17 1 false 3 256 true Kernel.init))

/-- The kernel `twins` once `startMultiTasking` has run: the task at address
1 is active and the task at address 2 is Ready. -/
def twinsStarted : Kernel := (startMultiTasking 17 twins).getD Kernel.init

/-- The states of a kernel once multitasking has started: the state after
`startMultiTasking`, and from then on the states after an operation, after the
creation of a task by the running task (at an address `new` may return) and
after the creation of a semaphore. -/
inductive Live (L : Nat) : Kernel → Prop
  | start {s0 s : Kernel} : Setup L s0 → startMultiTasking L s0 = some s → Live L s
  | step {s s2 : Kernel} (op : KOp) : Live L s → op.step L s = some s2 → Live L s2
  | createTask {s : Kernel} (t : TaskId) (isIdle : Bool) (priority stacksize : Nat)
      (stackOk : Bool) :
      Live L s → Fresh t s → Live L (ARTK_CreateTask L t isIdle priority stacksize stackOk s)
  | createSema {s : Kernel} (i : SemId) (initial_count : Int) :
      Live L s → Live L (ARTK_CreateSema i initial_count s)

/-- Nodes that all point at themselves: every node is an empty list of its
own. -/
def Links.alone : Links := ⟨id, id⟩

/-- The nodes 1, 2 and 3 put, in this order, on the list with the head 0. -/
def Links.sample : Links :=
  DNode.insertBefore 0 3 (DNode.insertBefore 0 2 (DNode.insertBefore 0 1 Links.alone))

/-- The member `stack` of a task: the byte at each index. -/
abbrev Stack := Nat → Nat

/-- The statement `*pStack-- = (unsigned char) v`, on the stack and the index
`pStack` points at: the low byte of `v` is stored there and the index goes
down by one. -/
def pushByte (v : Nat) (st : Stack × Nat) : Stack × Nat :=
  (Function.update st.1 st.2 (v % 256), st.2 - 1)

/-- The lines of the constructor `Task::Task` that prepare the stack
(`kernel.cpp`, 362 to 376), on a stack of `stackSize` bytes: `taskDone` is the
address of `Task::taskDone` and `rootFnPtr` the address of the root function,
as the `long` values they are cast to; `x & 0x00ff` is `x % 256` and `x >> 8`
is `x / 256`. The result is the stack and the index `pStack` ends at. -/
def Task.bootstrap (glargeModel : Bool) (stackSize taskDone rootFnPtr : Nat) (stack : Stack) :
    Stack × Nat :=
  let st0 : Stack × Nat := (stack, stackSize - 1)
  let st1 := pushByte (taskDone % 256) st0
  let st2 := pushByte ((taskDone / 256) % 256) st1
  let st3 := if glargeModel then pushByte ((taskDone / 65536) % 256) st2 else st2
  let st4 := pushByte (rootFnPtr % 256) st3
  let st5 := pushByte ((rootFnPtr / 256) % 256) st4
  if glargeModel then pushByte ((rootFnPtr / 65536) % 256) st5 else st5

/-- The sleep queues that can be built, whatever the tasks: from the empty
queue by `addSleeper` with a count that is positive (and an `unsigned int`),
by `removeSleeper`, and by complete runs of the tick handler (`sleepDecrement`,
then `removeWaker` until it returns `NULL`). -/
inductive SleepBuilt : List DQNode → Prop
  | empty : SleepBuilt []
  | insert {q : List DQNode} (t : TaskId) (count : Nat) :
      SleepBuilt q → 0 < count → count < UINT_MOD → SleepBuilt (addSleeper t count q)
  | tick {q : List DQNode} : SleepBuilt q → SleepBuilt (tickQueue q)
  | cancel {q : List DQNode} (t : TaskId) : SleepBuilt q → SleepBuilt (removeSleeper t q)

/-- The operations that the idle task never makes: it never sleeps, never
waits on a semaphore and never exits. -/
def KOp.blocks : KOp → Bool
  | KOp.sleep _ => true
  | KOp.wait _ => true
  | KOp.waitTimed _ _ => true
  | KOp.exit => true
  | _ => false

/-- The states of a kernel that has been started with the task `I` (the idle
task) created, and in which `I` never sleeps, waits or exits: while `I` is the
active task, the operations are `yield`, `signal` (by `I` or by an interrupt
handler) and ticks. Tasks and semaphores may be created at any time. -/
inductive IdleRun (L : Nat) (I : TaskId) : Kernel → Prop
  | start {s0 s : Kernel} : Setup L s0 → (s0.tasks I).state = TASK_READY →
      startMultiTasking L s0 = some s → IdleRun L I s
  | step {s s2 : Kernel} (op : KOp) : IdleRun L I s →
      (s.activeTask = some I → op.blocks = false) → op.step L s = some s2 → IdleRun L I s2
  | createTask {s : Kernel} (t : TaskId) (isIdle : Bool) (priority stacksize : Nat)
      (stackOk : Bool) :
      IdleRun L I s → Fresh t s →
      IdleRun L I (ARTK_CreateTask L t isIdle priority stacksize stackOk s)
  | createSema {s : Kernel} (i : SemId) (initial_count : Int) :
      IdleRun L I s → IdleRun L I (ARTK_CreateSema i initial_count s)

/-- What holds in every state of such a run: the queues agree with the task
states, there is an active task, in the Active state, and the idle task is
Ready or is the active task. -/
structure IdleInv (L : Nat) (I : TaskId) (s : Kernel) : Prop where
  queues : QueuesOk L s
  active : ActiveOk s
  running : ∃ a, s.activeTask = some a
  idle : (s.tasks I).state = TASK_READY ∨ s.activeTask = some I

/-- A run from the boot state: a task of priority 3 (at address 1), the idle
task (at address 0) and a semaphore with the largest `int` as its count (at
address 0) are created and multitasking starts. -/
def brimCalls : List KCall :=
  [KCall.createTask 1 false 3 256 true, KCall.createTask 0 true 0 256 true,
    KCall.createSema 0 32767, KCall.start]

/-- The kernel after the run `brimCalls`: the task of priority 3 is active and
the semaphore has the count 32767 and no waiter. -/
def brim : Kernel := (runCalls 17 brimCalls Kernel.init).getD Kernel.init

/-- A kernel in which `setup` has created a task of priority 3 (at address
1), and `malloc` has returned no stack for the idle task (at address 0). -/
def loneTask : Kernel :=
  ARTK_CreateTask 17 0 true 0 256 false (ARTK_CreateTask 17 1 false 3 256 true Kernel.init)

/-- The kernel `loneTask` once `startMultiTasking` has run: the task of
priority 3 is active and every ready queue is empty. -/
def loneStarted : Kernel := (startMultiTasking 17 loneTask).getD Kernel.init

/-! # Theorems -/

/-! ## The 16-bit `int` -/

theorem intWrap_range (x : Int) : INT_MIN ≤ intWrap x ∧ intWrap x ≤ INT_MAX := by
  unfold intWrap INT_MIN INT_MAX
  omega

theorem intWrap_of_range {x : Int} (h1 : INT_MIN ≤ x) (h2 : x ≤ INT_MAX) : intWrap x = x := by
  unfold intWrap
  unfold INT_MIN at h1
  unfold INT_MAX at h2
  omega

theorem intInc_of_lt {c : Int} (h1 : INT_MIN ≤ c) (h2 : c < INT_MAX) : intInc c = c + 1 := by
  unfold intInc intWrap
  unfold INT_MIN at h1
  unfold INT_MAX at h2
  omega

theorem intInc_max : intInc INT_MAX = INT_MIN := by
  decide

theorem intDec_of_gt {c : Int} (h1 : INT_MIN < c) (h2 : c ≤ INT_MAX) : intDec c = c - 1 := by
  unfold intDec intWrap
  unfold INT_MIN at h1
  unfold INT_MAX at h2
  omega

theorem intDec_intInc {c : Int} (h1 : INT_MIN ≤ c) (h2 : c ≤ INT_MAX) :
    intDec (intInc c) = c := by
  unfold intDec intInc intWrap
  unfold INT_MIN at h1
  unfold INT_MAX at h2
  omega

theorem intInc_range (c : Int) : INT_MIN ≤ intInc c ∧ intInc c ≤ INT_MAX :=
  intWrap_range _

theorem intDec_range (c : Int) : INT_MIN ≤ intDec c ∧ intDec c ≤ INT_MAX :=
  intWrap_range _

/-! ## Doubly-linked lists: the list of members under the three methods -/

theorem seg_frame {h h2 : Links} :
    ∀ (l : List Nat) (a b : Nat), (∀ z ∈ a :: l, h2.pNext z = h.pNext z) →
      (∀ z ∈ l ++ [b], h2.pPrev z = h.pPrev z) → Seg h a l b → Seg h2 a l b
  | [], a, b, hn, hp, hs => by
    refine ⟨?_, ?_⟩
    · rw [hn a (List.mem_cons_self _ _)]
      exact hs.1
    · rw [hp b (by simp)]
      exact hs.2
  | x :: l, a, b, hn, hp, hs => by
    refine ⟨?_, ?_, ?_⟩
    · rw [hn a (List.mem_cons_self _ _)]
      exact hs.1
    · rw [hp x (by simp)]
      exact hs.2.1
    · exact seg_frame l x b (fun z hz => hn z (List.mem_cons_of_mem _ hz))
        (fun z hz => hp z (by simp at hz ⊢; tauto)) hs.2.2

theorem seg_split {h : Links} (x : Nat) (l2 : List Nat) (b : Nat) :
    ∀ (l1 : List Nat) (a : Nat),
      Seg h a (l1 ++ x :: l2) b ↔ Seg h a l1 x ∧ Seg h x l2 b
  | [], a => by
    show (h.pNext a = x ∧ h.pPrev x = a ∧ Seg h x l2 b) ↔ (h.pNext a = x ∧ h.pPrev x = a) ∧ _
    tauto
  | y :: l1, a => by
    show (h.pNext a = y ∧ h.pPrev y = a ∧ Seg h y (l1 ++ x :: l2) b) ↔
      (h.pNext a = y ∧ h.pPrev y = a ∧ Seg h y l1 x) ∧ _
    rw [seg_split x l2 b l1 y]
    tauto

theorem seg_snoc {h : Links} (l : List Nat) (a y b : Nat) :
    Seg h a (l ++ [y]) b ↔ Seg h a l y ∧ h.pNext y = b ∧ h.pPrev b = y := by
  rw [seg_split y [] b l a]
  rfl

theorem ring_frame {h h2 : Links} {d : Nat} {l : List Nat} (hr : Ring h d l)
    (hf : ∀ z ∈ d :: l, h2.pNext z = h.pNext z ∧ h2.pPrev z = h.pPrev z) : Ring h2 d l := by
  refine ⟨hr.1, seg_frame l d d (fun z hz => (hf z hz).1) (fun z hz => (hf z ?_).2) hr.2⟩
  simp at hz ⊢
  tauto

theorem ring_isEmpty {h : Links} {d : Nat} {l : List Nat} (hr : Ring h d l) :
    DNode.isEmpty d h = true ↔ l = [] := by
  obtain ⟨hnd, hs⟩ := hr
  cases l with
  | nil => simp [DNode.isEmpty, hs.1]
  | cons x l =>
    have hx : x ≠ d := by
      intro e
      subst e
      simp at hnd
    have h1 : h.pNext d = x := hs.1
    simp [DNode.isEmpty, h1, hx]

theorem insertBefore_eq {h : Links} {d x : Nat} (hx : d ≠ x) :
    DNode.insertBefore d x h =
      ⟨Function.update (Function.update h.pNext x d) (h.pPrev d) x,
        Function.update (Function.update h.pPrev x (h.pPrev d)) d x⟩ := by
  simp [DNode.insertBefore, Function.update_noteq hx]

/-- On a circular list, `insertBefore` called on the head with a node that
is not on the list puts that node behind all members. -/
theorem insertBefore_ring {h : Links} {d x : Nat} {l : List Nat} (hr : Ring h d l)
    (hx : x ∉ d :: l) : Ring (DNode.insertBefore d x h) d (l ++ [x]) := by
  obtain ⟨hnd, hs⟩ := hr
  have hxd : x ≠ d := fun e => hx (e ▸ List.mem_cons_self _ _)
  have hdx : d ≠ x := fun e => hxd e.symm
  have hxl : x ∉ l := fun e => hx (List.mem_cons_of_mem _ e)
  have hdl : d ∉ l := (List.nodup_cons.mp hnd).1
  have hndl : l.Nodup := (List.nodup_cons.mp hnd).2
  refine ⟨?_, ?_⟩
  · rw [List.nodup_cons]
    refine ⟨?_, ?_⟩
    · simp [hdl, hdx]
    · rw [List.nodup_append]
      refine ⟨hndl, List.nodup_singleton x, ?_⟩
      intro z hz1 hz2
      rw [List.mem_singleton] at hz2
      exact hxl (hz2 ▸ hz1)
  · rw [insertBefore_eq hdx]
    rcases List.eq_nil_or_concat l with rfl | ⟨l0, y, hl⟩
    · have h1 : h.pNext d = d := hs.1
      have h2 : h.pPrev d = d := hs.2
      show Seg _ d [x] d
      refine ⟨?_, ?_, ?_, ?_⟩
      · show Function.update (Function.update h.pNext x d) (h.pPrev d) x d = x
        rw [h2, Function.update_same]
      · show Function.update (Function.update h.pPrev x (h.pPrev d)) d x x = d
        rw [Function.update_noteq hxd, Function.update_same, h2]
      · show Function.update (Function.update h.pNext x d) (h.pPrev d) x x = d
        rw [h2, Function.update_noteq hxd, Function.update_same]
      · show Function.update (Function.update h.pPrev x (h.pPrev d)) d x d = x
        rw [Function.update_same]
    · rw [List.concat_eq_append] at hl
      subst hl
      obtain ⟨g1, g2, g3⟩ := (seg_snoc l0 d y d).mp hs
      have hyd : y ≠ d := fun e => hdl (by simp [e])
      have hyx : y ≠ x := fun e => hxl (by simp [e])
      have hyl0 : y ∉ l0 := by
        intro e
        have := List.nodup_append.mp hndl
        exact this.2.2 e (List.mem_singleton_self y)
      rw [seg_snoc, seg_snoc]
      refine ⟨⟨?_, ?_, ?_⟩, ?_, ?_⟩
      · refine seg_frame l0 d y (fun z hz => ?_) (fun z hz => ?_) g1
        · have hzy : z ≠ y := by
            intro e
            subst e
            rcases List.mem_cons.mp hz with e2 | e2
            · exact hyd e2
            · exact hyl0 e2
          have hzx : z ≠ x := by
            intro e
            subst e
            rcases List.mem_cons.mp hz with e2 | e2
            · exact hxd e2
            · exact hxl (by simp [e2])
          show Function.update (Function.update h.pNext x d) (h.pPrev d) x z = h.pNext z
          rw [g3, Function.update_noteq hzy, Function.update_noteq hzx]
        · have hzd : z ≠ d := by
            intro e
            subst e
            rcases List.mem_append.mp hz with e2 | e2
            · exact hdl (by simp [e2])
            · exact hyd (List.mem_singleton.mp e2).symm
          have hzx : z ≠ x := by
            intro e
            subst e
            rcases List.mem_append.mp hz with e2 | e2
            · exact hxl (by simp [e2])
            · exact hyx (List.mem_singleton.mp e2).symm
          show Function.update (Function.update h.pPrev x (h.pPrev d)) d x z = h.pPrev z
          rw [Function.update_noteq hzd, Function.update_noteq hzx]
      · show Function.update (Function.update h.pNext x d) (h.pPrev d) x y = x
        rw [g3, Function.update_same]
      · show Function.update (Function.update h.pPrev x (h.pPrev d)) d x x = y
        rw [Function.update_noteq hxd, Function.update_same, g3]
      · show Function.update (Function.update h.pNext x d) (h.pPrev d) x x = d
        rw [g3, Function.update_noteq (fun e => hyx e.symm), Function.update_same]
      · show Function.update (Function.update h.pPrev x (h.pPrev d)) d x d = x
        rw [Function.update_same]

theorem removeNext_eq {h : Links} {d : Nat} (hd : h.pNext d ≠ d) :
    DNode.removeNext d h =
      (some (h.pNext d),
        ⟨Function.update (Function.update h.pNext d (h.pNext (h.pNext d))) (h.pNext d) (h.pNext d),
          Function.update (Function.update h.pPrev (h.pNext (h.pNext d)) d) (h.pNext d)
            (h.pNext d)⟩) := by
  simp [DNode.removeNext, DNode.isEmpty, hd, Function.update_noteq hd]

/-- On a circular list with members, `removeNext` called on the head returns
the front member, leaves the other members in their order, and leaves the
returned node pointing at itself. -/
theorem removeNext_ring {h : Links} {d x : Nat} {l : List Nat} (hr : Ring h d (x :: l)) :
    (DNode.removeNext d h).1 = some x ∧ Ring (DNode.removeNext d h).2 d l ∧
      Ring (DNode.removeNext d h).2 x [] := by
  obtain ⟨hnd, h1, h2, hs⟩ := hr
  have hxd : x ≠ d := by
    intro e
    subst e
    simp at hnd
  have hdx : d ≠ x := fun e => hxd e.symm
  have hnd2 : (d :: l).Nodup := by
    rw [List.nodup_cons] at hnd ⊢
    exact ⟨fun e => hnd.1 (List.mem_cons_of_mem _ e), (List.nodup_cons.mp hnd.2).2⟩
  have hxl : x ∉ l := (List.nodup_cons.mp (List.nodup_cons.mp hnd).2).1
  have hdl : d ∉ l := (List.nodup_cons.mp hnd2).1
  rw [removeNext_eq (by rw [h1]; exact hxd), h1]
  refine ⟨rfl, ⟨hnd2, ?_⟩, ⟨List.nodup_singleton x, ?_⟩⟩
  · cases l with
    | nil =>
      have g1 : h.pNext x = d := hs.1
      refine ⟨?_, ?_⟩
      · show Function.update (Function.update h.pNext d (h.pNext x)) x x d = d
        rw [Function.update_noteq hdx, Function.update_same, g1]
      · show Function.update (Function.update h.pPrev (h.pNext x) d) x x d = d
        rw [Function.update_noteq hdx, g1, Function.update_same]
    | cons y l2 =>
      obtain ⟨g1, g2, g3⟩ := hs
      have hyx : y ≠ x := fun e => hxl (by simp [e])
      have hyd : y ≠ d := fun e => hdl (by simp [e])
      have hnd3 : (y :: l2).Nodup := (List.nodup_cons.mp hnd2).2
      have hyl2 : y ∉ l2 := (List.nodup_cons.mp hnd3).1
      refine ⟨?_, ?_, ?_⟩
      · show Function.update (Function.update h.pNext d (h.pNext x)) x x d = y
        rw [Function.update_noteq hdx, Function.update_same, g1]
      · show Function.update (Function.update h.pPrev (h.pNext x) d) x x y = d
        rw [Function.update_noteq hyx, g1, Function.update_same]
      · refine seg_frame l2 y d (fun z hz => ?_) (fun z hz => ?_) g3
        · have hzx : z ≠ x := fun e => hxl (e ▸ hz)
          have hzd : z ≠ d := fun e => hdl (e ▸ hz)
          show Function.update (Function.update h.pNext d (h.pNext x)) x x z = h.pNext z
          rw [Function.update_noteq hzx, Function.update_noteq hzd]
        · have hzx : z ≠ x := by
            intro e
            subst e
            rcases List.mem_append.mp hz with e2 | e2
            · exact hxl (List.mem_cons_of_mem _ e2)
            · exact hxd (List.mem_singleton.mp e2)
          have hzy : z ≠ y := by
            intro e
            subst e
            rcases List.mem_append.mp hz with e2 | e2
            · exact hyl2 e2
            · exact hyd (List.mem_singleton.mp e2)
          show Function.update (Function.update h.pPrev (h.pNext x) d) x x z = h.pPrev z
          rw [Function.update_noteq hzx, g1, Function.update_noteq hzy]
  · refine ⟨?_, ?_⟩
    · show Function.update (Function.update h.pNext d (h.pNext x)) x x x = x
      rw [Function.update_same]
    · show Function.update (Function.update h.pPrev (h.pNext x) d) x x x = x
      rw [Function.update_same]

theorem remove_eq (h : Links) (x : Nat) :
    DNode.remove x h =
      ⟨Function.update (Function.update h.pNext (h.pPrev x) (h.pNext x)) x x,
        Function.update (Function.update h.pPrev (h.pNext x) (h.pPrev x)) x x⟩ := by
  have h1 : Function.update h.pNext (h.pPrev x) (h.pNext x) x = h.pNext x := by
    by_cases e : x = h.pPrev x
    · rw [← e, Function.update_same]
    · rw [Function.update_noteq e]
  simp [DNode.remove, h1]

/-- A call of `remove` on a node that points at itself changes nothing. -/
theorem remove_self {h : Links} {x : Nat} (hr : Ring h x []) : DNode.remove x h = h := by
  have h1 : h.pNext x = x := hr.2.1
  have h2 : h.pPrev x = x := hr.2.2
  rw [remove_eq, h1, h2]
  cases h with
  | mk n p =>
    simp only at h1 h2
    simp only [Links.mk.injEq]
    refine ⟨?_, ?_⟩
    · rw [Function.update_idem]
      nth_rewrite 2 [← h1]
      exact Function.update_eq_self x n
    · rw [Function.update_idem]
      nth_rewrite 2 [← h2]
      exact Function.update_eq_self x p

theorem nodup_parts {d x : Nat} {l1 l2 : List Nat} (h : (d :: (l1 ++ x :: l2)).Nodup) :
    x ≠ d ∧ x ∉ l1 ∧ x ∉ l2 ∧ d ∉ l1 ∧ d ∉ l2 ∧ (∀ z ∈ l1, z ∉ l2) ∧ l1.Nodup ∧ l2.Nodup := by
  rw [List.nodup_cons, List.nodup_append, List.nodup_cons] at h
  obtain ⟨h1, h2, ⟨h3, h4⟩, h5⟩ := h
  simp only [List.mem_append, List.mem_cons, not_or] at h1
  refine ⟨fun e => h1.2.1 e.symm, fun e => h5 e (List.mem_cons_self _ _), h3, h1.1, h1.2.2,
    fun z hz hz2 => h5 hz (List.mem_cons_of_mem _ hz2), h2, h4⟩

/-- On a circular list, `remove` called on a member takes that member out,
leaves the other members in their order, and leaves the removed node pointing
at itself. -/
theorem remove_ring {h : Links} {d x : Nat} {l1 l2 : List Nat}
    (hr : Ring h d (l1 ++ x :: l2)) :
    Ring (DNode.remove x h) d (l1 ++ l2) ∧ Ring (DNode.remove x h) x [] := by
  obtain ⟨hnd, hs⟩ := hr
  obtain ⟨n1, n2, n3, n4, n5, n6, n7, n8⟩ := nodup_parts hnd
  obtain ⟨s1, s2⟩ := (seg_split x l2 d l1 d).mp hs
  have hdx : d ≠ x := fun e => n1 e.symm
  rw [remove_eq]
  refine ⟨⟨?_, ?_⟩, ⟨List.nodup_singleton x, ?_, ?_⟩⟩
  · rw [List.nodup_cons, List.nodup_append]
    refine ⟨?_, n7, n8, fun z hz hz2 => n6 z hz hz2⟩
    simp [n4, n5]
  · rcases List.eq_nil_or_concat l1 with rfl | ⟨l0, y, hl⟩
    · have a1 : h.pNext d = x := s1.1
      have a2 : h.pPrev x = d := s1.2
      cases l2 with
      | nil =>
        have b1 : h.pNext x = d := s2.1
        refine ⟨?_, ?_⟩
        · show Function.update (Function.update h.pNext (h.pPrev x) (h.pNext x)) x x d = d
          rw [Function.update_noteq hdx, a2, Function.update_same, b1]
        · show Function.update (Function.update h.pPrev (h.pNext x) (h.pPrev x)) x x d = d
          rw [Function.update_noteq hdx, b1, Function.update_same, a2]
      | cons w l3 =>
        obtain ⟨b1, b2, b3⟩ := s2
        have hwx : w ≠ x := fun e => n3 (by simp [e])
        have hwd : w ≠ d := fun e => n5 (by simp [e])
        have hwl3 : w ∉ l3 := (List.nodup_cons.mp n8).1
        refine ⟨?_, ?_, ?_⟩
        · show Function.update (Function.update h.pNext (h.pPrev x) (h.pNext x)) x x d = w
          rw [Function.update_noteq hdx, a2, Function.update_same, b1]
        · show Function.update (Function.update h.pPrev (h.pNext x) (h.pPrev x)) x x w = d
          rw [Function.update_noteq hwx, b1, Function.update_same, a2]
        · refine seg_frame l3 w d (fun z hz => ?_) (fun z hz => ?_) b3
          · have hzx : z ≠ x := fun e => n3 (e ▸ hz)
            have hzd : z ≠ d := fun e => n5 (e ▸ hz)
            show Function.update (Function.update h.pNext (h.pPrev x) (h.pNext x)) x x z = _
            rw [Function.update_noteq hzx, a2, Function.update_noteq hzd]
          · have hzx : z ≠ x := by
              rintro rfl
              rcases List.mem_append.mp hz with e2 | e2
              · exact n3 (List.mem_cons_of_mem _ e2)
              · exact n1 (List.mem_singleton.mp e2)
            have hzw : z ≠ w := by
              rintro rfl
              rcases List.mem_append.mp hz with e2 | e2
              · exact hwl3 e2
              · exact hwd (List.mem_singleton.mp e2)
            show Function.update (Function.update h.pPrev (h.pNext x) (h.pPrev x)) x x z = _
            rw [Function.update_noteq hzx, b1, Function.update_noteq hzw]
    · rw [List.concat_eq_append] at hl
      subst hl
      obtain ⟨a1, a2, a3⟩ := (seg_snoc l0 d y x).mp s1
      have hyx : y ≠ x := fun e => n2 (by simp [e])
      have hyd : y ≠ d := fun e => n4 (by simp [e])
      have hyl0 : y ∉ l0 := fun e =>
        (List.nodup_append.mp n7).2.2 e (List.mem_singleton_self y)
      have fr1 : ∀ z ∈ d :: l0,
          Function.update (Function.update h.pNext (h.pPrev x) (h.pNext x)) x x z = h.pNext z := by
        intro z hz
        have hzx : z ≠ x := by
          rintro rfl
          rcases List.mem_cons.mp hz with e2 | e2
          · exact n1 e2
          · exact n2 (by simp [e2])
        have hzy : z ≠ y := by
          rintro rfl
          rcases List.mem_cons.mp hz with e2 | e2
          · exact hyd e2
          · exact hyl0 e2
        rw [Function.update_noteq hzx, a3, Function.update_noteq hzy]
      cases l2 with
      | nil =>
        have b1 : h.pNext x = d := s2.1
        rw [List.append_nil, seg_snoc]
        refine ⟨?_, ?_, ?_⟩
        · refine seg_frame l0 d y fr1 (fun z hz => ?_) a1
          have hzx : z ≠ x := fun e => n2 (e ▸ hz)
          have hzd : z ≠ d := fun e => n4 (e ▸ hz)
          show Function.update (Function.update h.pPrev (h.pNext x) (h.pPrev x)) x x z = _
          rw [Function.update_noteq hzx, b1, Function.update_noteq hzd]
        · show Function.update (Function.update h.pNext (h.pPrev x) (h.pNext x)) x x y = d
          rw [Function.update_noteq hyx, a3, Function.update_same, b1]
        · show Function.update (Function.update h.pPrev (h.pNext x) (h.pPrev x)) x x d = y
          rw [Function.update_noteq hdx, b1, Function.update_same, a3]
      | cons w l3 =>
        obtain ⟨b1, b2, b3⟩ := s2
        have hwx : w ≠ x := fun e => n3 (by simp [e])
        have hwd : w ≠ d := fun e => n5 (by simp [e])
        have hwl3 : w ∉ l3 := (List.nodup_cons.mp n8).1
        have hwl1 : w ∉ l0 ++ [y] := fun e => n6 w e (List.mem_cons_self _ _)
        rw [List.append_assoc, List.singleton_append, seg_split]
        refine ⟨?_, ?_, ?_, ?_⟩
        · refine seg_frame l0 d y fr1 (fun z hz => ?_) a1
          have hzx : z ≠ x := fun e => n2 (e ▸ hz)
          have hzw : z ≠ w := fun e => hwl1 (e ▸ hz)
          show Function.update (Function.update h.pPrev (h.pNext x) (h.pPrev x)) x x z = _
          rw [Function.update_noteq hzx, b1, Function.update_noteq hzw]
        · show Function.update (Function.update h.pNext (h.pPrev x) (h.pNext x)) x x y = w
          rw [Function.update_noteq hyx, a3, Function.update_same, b1]
        · show Function.update (Function.update h.pPrev (h.pNext x) (h.pPrev x)) x x w = y
          rw [Function.update_noteq hwx, b1, Function.update_same, a3]
        · refine seg_frame l3 w d (fun z hz => ?_) (fun z hz => ?_) b3
          · have hzx : z ≠ x := fun e => n3 (e ▸ hz)
            have hzy : z ≠ y := by
              rintro rfl
              exact n6 z (by simp) hz
            show Function.update (Function.update h.pNext (h.pPrev x) (h.pNext x)) x x z = _
            rw [Function.update_noteq hzx, a3, Function.update_noteq hzy]
          · have hzx : z ≠ x := by
              rintro rfl
              rcases List.mem_append.mp hz with e2 | e2
              · exact n3 (List.mem_cons_of_mem _ e2)
              · exact n1 (List.mem_singleton.mp e2)
            have hzw : z ≠ w := by
              rintro rfl
              rcases List.mem_append.mp hz with e2 | e2
              · exact hwl3 e2
              · exact hwd (List.mem_singleton.mp e2)
            show Function.update (Function.update h.pPrev (h.pNext x) (h.pPrev x)) x x z = _
            rw [Function.update_noteq hzx, b1, Function.update_noteq hzw]
  · show Function.update (Function.update h.pNext (h.pPrev x) (h.pNext x)) x x x = x
    rw [Function.update_same]
  · show Function.update (Function.update h.pPrev (h.pNext x) (h.pPrev x)) x x x = x
    rw [Function.update_same]

theorem seg_prev_mem {h : Links} :
    ∀ (l : List Nat) (a b : Nat), Seg h a l b → h.pPrev b ∈ a :: l
  | [], a, b, hs => by
    rw [hs.2]
    exact List.mem_cons_self _ _
  | x :: l, a, b, hs => List.mem_cons_of_mem _ (seg_prev_mem l x b hs.2.2)

theorem seg_next_mem {h : Links} {l : List Nat} {a b : Nat} (hs : Seg h a l b) :
    h.pNext a ∈ l ++ [b] := by
  cases l with
  | nil =>
    rw [hs.1]
    simp
  | cons x l =>
    rw [hs.1]
    simp

/-- The call `insertBefore` on the head of a circular list writes to no node
outside the list but the new member. -/
theorem insertBefore_frame {h : Links} {d x : Nat} {l : List Nat} (hr : Ring h d l)
    (hx : x ∉ d :: l) (z : Nat) (hz : z ∉ d :: l) (hzx : z ≠ x) :
    (DNode.insertBefore d x h).pNext z = h.pNext z ∧
      (DNode.insertBefore d x h).pPrev z = h.pPrev z := by
  have hdx : d ≠ x := fun e => hx (e ▸ List.mem_cons_self _ _)
  have hzd : z ≠ d := fun e => hz (e ▸ List.mem_cons_self _ _)
  have hzp : z ≠ h.pPrev d := fun e => hz (e ▸ seg_prev_mem l d d hr.2)
  rw [insertBefore_eq hdx]
  refine ⟨?_, ?_⟩
  · show Function.update (Function.update h.pNext x d) (h.pPrev d) x z = h.pNext z
    rw [Function.update_noteq hzp, Function.update_noteq hzx]
  · show Function.update (Function.update h.pPrev x (h.pPrev d)) d x z = h.pPrev z
    rw [Function.update_noteq hzd, Function.update_noteq hzx]

/-- The call `removeNext` on the head of a circular list writes to no node
outside the list. -/
theorem removeNext_frame {h : Links} {d x : Nat} {l : List Nat} (hr : Ring h d (x :: l))
    (z : Nat) (hz : z ∉ d :: x :: l) :
    (DNode.removeNext d h).2.pNext z = h.pNext z ∧
      (DNode.removeNext d h).2.pPrev z = h.pPrev z := by
  obtain ⟨hnd, h1, h2, hs⟩ := hr
  have hxd : x ≠ d := by
    intro e
    subst e
    simp at hnd
  have hzd : z ≠ d := fun e => hz (e ▸ List.mem_cons_self _ _)
  have hzx : z ≠ x := fun e => hz (by simp [e])
  have hzn : z ≠ h.pNext x := by
    intro e
    have := seg_next_mem hs
    rw [← e] at this
    rcases List.mem_append.mp this with e2 | e2
    · exact hz (by simp [e2])
    · exact hzd (List.mem_singleton.mp e2)
  rw [removeNext_eq (by rw [h1]; exact hxd), h1]
  refine ⟨?_, ?_⟩
  · show Function.update (Function.update h.pNext d (h.pNext x)) x x z = h.pNext z
    rw [Function.update_noteq hzx, Function.update_noteq hzd]
  · show Function.update (Function.update h.pPrev (h.pNext x) d) x x z = h.pPrev z
    rw [Function.update_noteq hzx, Function.update_noteq hzn]

/-- The call `remove` on a member of a circular list writes to no node
outside the list. -/
theorem remove_frame {h : Links} {d x : Nat} {l1 l2 : List Nat}
    (hr : Ring h d (l1 ++ x :: l2)) (z : Nat) (hz : z ∉ d :: (l1 ++ x :: l2)) :
    (DNode.remove x h).pNext z = h.pNext z ∧ (DNode.remove x h).pPrev z = h.pPrev z := by
  obtain ⟨_, hs⟩ := hr
  obtain ⟨s1, s2⟩ := (seg_split x l2 d l1 d).mp hs
  have hzx : z ≠ x := fun e => hz (by simp [e])
  have hzp : z ≠ h.pPrev x := by
    intro e
    have := seg_prev_mem l1 d x s1
    rw [← e] at this
    rcases List.mem_cons.mp this with e2 | e2
    · exact hz (by simp [e2])
    · exact hz (by simp [e2])
  have hzn : z ≠ h.pNext x := by
    intro e
    have := seg_next_mem s2
    rw [← e] at this
    rcases List.mem_append.mp this with e2 | e2
    · exact hz (by simp [e2])
    · exact hz (by simp [List.mem_singleton.mp e2])
  rw [remove_eq]
  refine ⟨?_, ?_⟩
  · show Function.update (Function.update h.pNext (h.pPrev x) (h.pNext x)) x x z = h.pNext z
    rw [Function.update_noteq hzx, Function.update_noteq hzp]
  · show Function.update (Function.update h.pPrev (h.pNext x) (h.pPrev x)) x x z = h.pPrev z
    rw [Function.update_noteq hzx, Function.update_noteq hzn]

/-! ## Sleep queue -/

theorem uintDec_pos {d : Nat} (h : d ≠ 0) : uintDec d = d - 1 := by
  simp [uintDec, h]

theorem uintAdd_small {a b : Nat} (h : a + b < UINT_MOD) : uintAdd a b = a + b := by
  simp [uintAdd, Nat.mod_eq_of_lt h]

theorem tracks_congr {r r2 : TaskId → Int} :
    ∀ (q : List DQNode) (acc : Nat), (∀ n ∈ q, r2 n.pTask = r n.pTask) →
      Tracks r acc q → Tracks r2 acc q
  | [], _, _, _ => trivial
  | n :: rest, acc, h, ht => by
    refine ⟨?_, tracks_congr rest _ (fun m hm => h m (List.mem_cons_of_mem _ hm)) ht.2⟩
    rw [h n (List.mem_cons_self _ _)]
    exact ht.1

theorem tracks_shift {r : TaskId → Int} :
    ∀ (q : List DQNode) (acc : Nat), Tracks r (acc + 1) q → Tracks (fun x => r x - 1) acc q
  | [], _, _ => trivial
  | n :: rest, acc, ht => by
    refine ⟨?_, ?_⟩
    · have := ht.1
      simp only [this]
      push_cast
      ring
    · have h2 := ht.2
      rw [show acc + 1 + n.dcount = (acc + n.dcount) + 1 by ring] at h2
      exact tracks_shift rest _ h2

theorem tracks_addSleeper {r : TaskId → Int} (t : TaskId) :
    ∀ (q : List DQNode) (count acc : Nat), (∀ n ∈ q, n.pTask ≠ t) → Tracks r acc q →
      Tracks (Function.update r t ((acc + count : Nat) : Int)) acc (addSleeper t count q)
  | [], count, acc, _, _ => by
    simp [addSleeper, Tracks]
  | n :: rest, count, acc, hne, ht => by
    have hn : n.pTask ≠ t := hne n (List.mem_cons_self _ _)
    have hrest : ∀ m ∈ rest, m.pTask ≠ t := fun m hm => hne m (List.mem_cons_of_mem _ hm)
    unfold addSleeper
    split
    · rename_i hlt
      refine ⟨?_, ?_⟩
      · rw [Function.update_noteq hn]
        exact ht.1
      · have ih := tracks_addSleeper t rest (count - n.dcount) (acc + n.dcount) hrest ht.2
        rw [show acc + n.dcount + (count - n.dcount) = acc + count by omega] at ih
        exact ih
    · rename_i hge
      refine ⟨by simp, ?_, ?_⟩
      · show Function.update r t _ n.pTask = _
        rw [Function.update_noteq hn, ht.1]
        congr 1
        show acc + n.dcount = acc + count + (n.dcount - count)
        omega
      · show Tracks _ (acc + count + (n.dcount - count)) rest
        rw [show acc + count + (n.dcount - count) = acc + n.dcount by omega]
        exact tracks_congr rest _ (fun m hm => Function.update_noteq (hrest m hm) _ _) ht.2

theorem totalTicks_cons (n : DQNode) (q : List DQNode) :
    totalTicks (n :: q) = n.dcount + totalTicks q := by
  simp [totalTicks]

theorem totalTicks_addSleeper (t : TaskId) :
    ∀ (q : List DQNode) (count : Nat),
      totalTicks (addSleeper t count q) = max count (totalTicks q)
  | [], count => by simp [addSleeper, totalTicks]
  | n :: rest, count => by
    unfold addSleeper
    split
    · rename_i hlt
      rw [totalTicks_cons, totalTicks_cons, totalTicks_addSleeper t rest]
      omega
    · rename_i hge
      rw [totalTicks_cons, totalTicks_cons, totalTicks_cons]
      show count + (n.dcount - count + totalTicks rest) = _
      omega

theorem totalTicks_removeSleeper_le (t : TaskId) :
    ∀ (q : List DQNode), totalTicks q < UINT_MOD →
      totalTicks (removeSleeper t q) ≤ totalTicks q
  | [], _ => by simp [removeSleeper]
  | n :: rest, h => by
    unfold removeSleeper
    split
    · cases rest with
      | nil => simp [totalTicks]
      | cons m rest2 =>
        rw [totalTicks_cons, totalTicks_cons] at h
        simp only [totalTicks_cons]
        rw [uintAdd_small (by omega)]
        omega
    · rw [totalTicks_cons] at h
      have ih := totalTicks_removeSleeper_le t rest (by omega)
      rw [totalTicks_cons, totalTicks_cons]
      omega

theorem tracks_removeSleeper {r : TaskId → Int} (t : TaskId) :
    ∀ (q : List DQNode) (acc : Nat), totalTicks q < UINT_MOD → Tracks r acc q →
      Tracks r acc (removeSleeper t q)
  | [], _, _, _ => by simp [removeSleeper, Tracks]
  | n :: rest, acc, hb, ht => by
    unfold removeSleeper
    split
    · cases rest with
      | nil => trivial
      | cons m rest2 =>
        rw [totalTicks_cons, totalTicks_cons] at hb
        have h1 := ht.2.1
        have h2 := ht.2.2
        simp only
        rw [uintAdd_small (by omega)]
        refine ⟨?_, ?_⟩
        · rw [h1]
          congr 1
          show acc + n.dcount + m.dcount = acc + (m.dcount + n.dcount)
          omega
        · show Tracks r (acc + (m.dcount + n.dcount)) rest2
          rw [show acc + (m.dcount + n.dcount) = acc + n.dcount + m.dcount by omega]
          exact h2
    · rw [totalTicks_cons] at hb
      exact ⟨ht.1, tracks_removeSleeper t rest _ (by omega) ht.2⟩

theorem headNonzero_addSleeper (t : TaskId) :
    ∀ (q : List DQNode) (count : Nat), 0 < count → HeadNonzero q →
      HeadNonzero (addSleeper t count q)
  | [], count, hc, _ => by
    simp only [addSleeper, HeadNonzero]
    omega
  | n :: rest, count, hc, h => by
    unfold addSleeper
    split
    · exact h
    · show count ≠ 0
      omega

theorem headNonzero_removeSleeper (t : TaskId) :
    ∀ (q : List DQNode), totalTicks q < UINT_MOD → HeadNonzero q →
      HeadNonzero (removeSleeper t q)
  | [], _, _ => by simp [removeSleeper, HeadNonzero]
  | n :: rest, hb, h => by
    unfold removeSleeper
    split
    · cases rest with
      | nil => trivial
      | cons m rest2 =>
        rw [totalTicks_cons, totalTicks_cons] at hb
        show uintAdd m.dcount n.dcount ≠ 0
        rw [uintAdd_small (by omega)]
        have : n.dcount ≠ 0 := h
        omega
    · exact h

theorem headNonzero_afterWakers : ∀ (q : List DQNode), HeadNonzero (afterWakers q)
  | [] => trivial
  | n :: rest => by
    unfold afterWakers
    split
    · exact headNonzero_afterWakers rest
    · rename_i h
      exact h

theorem totalTicks_afterWakers : ∀ (q : List DQNode), totalTicks (afterWakers q) = totalTicks q
  | [] => rfl
  | n :: rest => by
    unfold afterWakers
    split
    · rename_i h
      rw [totalTicks_afterWakers rest, totalTicks_cons, h, Nat.zero_add]
    · rfl

theorem tracks_afterWakers {r : TaskId → Int} :
    ∀ (q : List DQNode) (acc : Nat), Tracks r acc q → Tracks r acc (afterWakers q)
  | [], _, _ => trivial
  | n :: rest, acc, ht => by
    unfold afterWakers
    split
    · rename_i h
      have h2 := ht.2
      rw [h, Nat.add_zero] at h2
      exact tracks_afterWakers rest acc h2
    · exact ht

theorem tracks_sleepDecrement {r : TaskId → Int} :
    ∀ (q : List DQNode), HeadNonzero q → Tracks r 0 q →
      Tracks (fun x => r x - 1) 0 (sleepDecrement q)
  | [], _, _ => trivial
  | n :: rest, h, ht => by
    have hn : n.dcount ≠ 0 := h
    unfold sleepDecrement
    refine ⟨?_, ?_⟩
    · show r n.pTask - 1 = ((0 + uintDec n.dcount : Nat) : Int)
      rw [ht.1, uintDec_pos hn]
      have : 1 ≤ n.dcount := Nat.one_le_iff_ne_zero.mpr hn
      push_cast [this]
      ring
    · show Tracks _ (0 + uintDec n.dcount) rest
      rw [uintDec_pos hn]
      apply tracks_shift
      have h2 := ht.2
      rw [show 0 + n.dcount = 0 + (n.dcount - 1) + 1 by omega] at h2
      exact h2

theorem totalTicks_sleepDecrement_le :
    ∀ (q : List DQNode), HeadNonzero q → totalTicks (sleepDecrement q) ≤ totalTicks q
  | [], _ => by simp [sleepDecrement]
  | n :: rest, h => by
    have hn : n.dcount ≠ 0 := h
    unfold sleepDecrement
    rw [totalTicks_cons, totalTicks_cons]
    show uintDec n.dcount + _ ≤ _
    rw [uintDec_pos hn]
    omega

/-- What holds of every queue the kernel builds. -/
theorem sleepReach_inv {q : List DQNode} {r : TaskId → Int} (h : SleepReach q r) :
    Tracks r 0 q ∧ HeadNonzero q ∧ totalTicks q < UINT_MOD := by
  induction h with
  | empty => exact ⟨trivial, trivial, by simp [totalTicks, UINT_MOD]⟩
  | insert t count _ hpos hlt hfresh ih =>
    obtain ⟨h1, h2, h3⟩ := ih
    refine ⟨?_, headNonzero_addSleeper t _ count hpos h2, ?_⟩
    · have := tracks_addSleeper t _ count 0 hfresh h1
      simpa using this
    · rw [totalTicks_addSleeper]
      exact max_lt hlt h3
  | tick _ ih =>
    obtain ⟨h1, h2, h3⟩ := ih
    refine ⟨tracks_afterWakers _ _ (tracks_sleepDecrement _ h2 h1), headNonzero_afterWakers _, ?_⟩
    unfold tickQueue
    rw [totalTicks_afterWakers]
    exact lt_of_le_of_lt (totalTicks_sleepDecrement_le _ h2) h3
  | cancel t _ ih =>
    obtain ⟨h1, h2, h3⟩ := ih
    exact ⟨tracks_removeSleeper t _ _ h3 h1, headNonzero_removeSleeper t _ h3 h2,
      lt_of_le_of_lt (totalTicks_removeSleeper_le t _ h3) h3⟩

theorem prefixSum_cons_zero (n : DQNode) (q : List DQNode) :
    prefixSum (n :: q) 0 = n.dcount := by
  simp [prefixSum]

theorem prefixSum_cons_succ (n : DQNode) (q : List DQNode) (k : Nat) :
    prefixSum (n :: q) (k + 1) = n.dcount + prefixSum q k := by
  simp [prefixSum]

theorem tracks_prefixSum {r : TaskId → Int} :
    ∀ (q : List DQNode) (acc : Nat), Tracks r acc q → ∀ (k : Nat) (hk : k < q.length),
      r (q.get ⟨k, hk⟩).pTask = ((acc + prefixSum q k : Nat) : Int)
  | [], _, _, k, hk => absurd hk (Nat.not_lt_zero k)
  | n :: rest, acc, ht, 0, _ => by
    rw [prefixSum_cons_zero]
    exact ht.1
  | n :: rest, acc, ht, k + 1, hk => by
    rw [prefixSum_cons_succ]
    have := tracks_prefixSum rest (acc + n.dcount) ht.2 k (Nat.lt_of_succ_lt_succ hk)
    rw [show acc + (n.dcount + prefixSum rest k) = acc + n.dcount + prefixSum rest k by omega]
    exact this

theorem removeSleeper_absent (t : TaskId) :
    ∀ (q : List DQNode), (∀ n ∈ q, n.pTask ≠ t) → removeSleeper t q = q
  | [], _ => rfl
  | n :: rest, h => by
    unfold removeSleeper
    rw [if_neg (h n (List.mem_cons_self _ _)),
      removeSleeper_absent t rest (fun m hm => h m (List.mem_cons_of_mem _ hm))]

theorem removeSleeper_append (t : TaskId) (n : DQNode) (post : List DQNode) (hn : n.pTask = t) :
    ∀ (pre : List DQNode), (∀ m ∈ pre, m.pTask ≠ t) →
      removeSleeper t (pre ++ n :: post) = pre ++ removeSleeper t (n :: post)
  | [], _ => rfl
  | m :: pre, h => by
    show removeSleeper t (m :: (pre ++ n :: post)) = _
    unfold removeSleeper
    rw [if_neg (h m (List.mem_cons_self _ _)),
      removeSleeper_append t n post hn pre (fun x hx => h x (List.mem_cons_of_mem _ hx))]
    simp [removeSleeper, hn]

theorem prefixSum_append_left (l : List DQNode) :
    ∀ (pre : List DQNode) (k : Nat), k < pre.length → prefixSum (pre ++ l) k = prefixSum pre k
  | [], k, h => absurd h (Nat.not_lt_zero k)
  | m :: pre, 0, _ => by
    show prefixSum (m :: (pre ++ l)) 0 = _
    rw [prefixSum_cons_zero, prefixSum_cons_zero]
  | m :: pre, k + 1, h => by
    show prefixSum (m :: (pre ++ l)) (k + 1) = _
    rw [prefixSum_cons_succ, prefixSum_cons_succ,
      prefixSum_append_left l pre k (Nat.lt_of_succ_lt_succ h)]

theorem prefixSum_append_right (l : List DQNode) (j : Nat) :
    ∀ (pre : List DQNode), prefixSum (pre ++ l) (pre.length + j) = totalTicks pre + prefixSum l j
  | [] => by simp [totalTicks]
  | m :: pre => by
    show prefixSum (m :: (pre ++ l)) ((pre.length + 1) + j) = _
    rw [show pre.length + 1 + j = (pre.length + j) + 1 by omega, prefixSum_cons_succ,
      prefixSum_append_right l j pre, totalTicks_cons]
    omega

theorem totalTicks_append (a b : List DQNode) :
    totalTicks (a ++ b) = totalTicks a + totalTicks b := by
  simp [totalTicks]

/-! ## Scheduler -/

theorem pickReady_spec (rl : Nat → List TaskId) :
    ∀ (n p : Nat) (t : TaskId), pickReady rl n = some (p, t) →
      p < n ∧ (∃ rest, rl p = t :: rest) ∧ ∀ q, p < q → q < n → rl q = []
  | 0, _, _, h => by simp [pickReady] at h
  | n + 1, p, t, h => by
    unfold pickReady at h
    split at h
    · rename_i x rest hx
      simp only [Option.some.injEq, Prod.mk.injEq] at h
      obtain ⟨rfl, rfl⟩ := h
      exact ⟨Nat.lt_succ_self _, ⟨rest, hx⟩, fun q h1 h2 => by omega⟩
    · rename_i hx
      obtain ⟨h1, h2, h3⟩ := pickReady_spec rl n p t h
      refine ⟨Nat.lt_succ_of_lt h1, h2, fun q hq1 hq2 => ?_⟩
      rcases Nat.lt_succ_iff_lt_or_eq.mp hq2 with h4 | h4
      · exact h3 q hq1 h4
      · rw [h4]
        exact hx

theorem pickReady_isSome (rl : Nat → List TaskId) :
    ∀ (n : Nat), (∃ p, p < n ∧ rl p ≠ []) → ∃ pt, pickReady rl n = some pt
  | 0, ⟨p, hp, _⟩ => absurd hp (Nat.not_lt_zero p)
  | n + 1, ⟨p, hp, hne⟩ => by
    unfold pickReady
    split
    · exact ⟨_, rfl⟩
    · rename_i hx
      apply pickReady_isSome rl n
      refine ⟨p, ?_, hne⟩
      rcases Nat.lt_succ_iff_lt_or_eq.mp hp with h4 | h4
      · exact h4
      · rw [h4] at hne
        exact absurd hx hne

/-- What a call of `resched` that returns has done. -/
theorem resched_spec {L : Nat} {s s2 : Kernel} (h : resched L s = some s2) :
    ∃ (p : Nat) (t : TaskId) (rest : List TaskId),
      pickReady s.readyList L = some (p, t) ∧ s.readyList p = t :: rest ∧
      s2.activeTask = some t ∧
      s2.readyList = Function.update s.readyList p rest ∧
      s2.tasks = Function.update s.tasks t
        { s.tasks t with
          state := TASK_ACTIVE
          firstRun := if s.activeTask = some t then (s.tasks t).firstRun else false } ∧
      s2.semas = s.semas ∧ s2.pSleepHead = s.pSleepHead ∧ s2.numTasks = s.numTasks ∧
      s2.terminated = s.terminated ∧ s2.glargeModel = s.glargeModel := by
  unfold resched at h
  split at h
  · cases h
  · rename_i p t hpick
    obtain ⟨_, ⟨rest, hrest⟩, _⟩ := pickReady_spec s.readyList L p t hpick
    refine ⟨p, t, rest, hpick, hrest, ?_⟩
    by_cases hact : s.activeTask = some t
    · simp only [hact, if_true, Option.some.injEq] at h
      subst h
      simp [makeTaskActive, Kernel.modifyTask, hact, hrest]
    · simp only [hact, if_false, Option.some.injEq] at h
      subst h
      simp [makeTaskActive, Kernel.modifyTask, setFirstRun, cli, hact, hrest]

theorem resched_priority {L : Nat} {s s2 : Kernel} (h : resched L s = some s2) (x : TaskId) :
    (s2.tasks x).priority = (s.tasks x).priority := by
  obtain ⟨p, t, rest, _, _, _, _, htasks, _⟩ := resched_spec h
  rw [htasks]
  by_cases hx : x = t
  · subst hx
    simp
  · rw [Function.update_noteq hx]

theorem resched_timedOut {L : Nat} {s s2 : Kernel} (h : resched L s = some s2) (x : TaskId) :
    (s2.tasks x).timedOut = (s.tasks x).timedOut := by
  obtain ⟨p, t, rest, _, _, _, _, htasks, _⟩ := resched_spec h
  rw [htasks]
  by_cases hx : x = t
  · subst hx
    simp
  · rw [Function.update_noteq hx]

theorem resched_tasks_other {L : Nat} {s s2 : Kernel} (h : resched L s = some s2) (x : TaskId)
    (hx : s2.activeTask ≠ some x) : s2.tasks x = s.tasks x := by
  obtain ⟨p, t, rest, _, _, hact, _, htasks, _⟩ := resched_spec h
  have : x ≠ t := fun e => hx (e ▸ hact)
  rw [htasks, Function.update_noteq this]

/-- A call of `resched` returns when a ready queue is not empty. -/
theorem resched_isSome (L : Nat) (s : Kernel) (h : ∃ p, p < L ∧ s.readyList p ≠ []) :
    ∃ s2, resched L s = some s2 := by
  obtain ⟨⟨p, t⟩, hpick⟩ := pickReady_isSome s.readyList L h
  unfold resched
  rw [hpick]
  simp only
  split
  · exact ⟨_, rfl⟩
  · exact ⟨_, rfl⟩

/-! ## Priorities and ready queues under the operations -/

@[simp]
theorem priority_update (f : TaskId → Task) (t x : TaskId) (d : Task)
    (h : d.priority = (f t).priority) :
    (Function.update f t d x).priority = (f x).priority := by
  by_cases hx : x = t
  · subst hx
    simp [h]
  · rw [Function.update_noteq hx]

theorem mem_update_append {rl : Nat → List TaskId} {q p : Nat} {t x : TaskId} :
    x ∈ Function.update rl q (rl q ++ [t]) p ↔ x ∈ rl p ∨ (p = q ∧ x = t) := by
  by_cases h : p = q
  · subst h
    simp
  · simp [Function.update_noteq h, h]

theorem mem_update_tail {rl : Nat → List TaskId} {q p : Nat} {x : TaskId}
    (h : x ∈ Function.update rl q (rl q).tail p) : x ∈ rl p := by
  by_cases hp : p = q
  · subst hp
    simp only [Function.update_same] at h
    exact List.mem_of_mem_tail h
  · rwa [Function.update_noteq hp] at h

theorem readyOk_addready {L : Nat} {s : Kernel} (t : TaskId) (h : ReadyOk L s) :
    ReadyOk L (addready t s) := by
  refine ⟨h.1, fun p x hx => ?_⟩
  rcases mem_update_append.mp hx with h1 | ⟨h1, h2⟩
  · exact h.2 p x h1
  · rw [h1, h2]
    rfl

theorem readyOk_unlink {L : Nat} {s : Kernel} (t : TaskId) (h : ReadyOk L s) :
    ReadyOk L (unlink t s) := by
  refine ⟨h.1, fun p x hx => ?_⟩
  simp only [unlink, List.mem_filter] at hx
  exact h.2 p x hx.1

theorem readyOk_same {L : Nat} {s s2 : Kernel} (h : ReadyOk L s)
    (hp : ∀ y, (s2.tasks y).priority = (s.tasks y).priority)
    (hm : ∀ p y, y ∈ s2.readyList p → y ∈ s.readyList p) : ReadyOk L s2 := by
  refine ⟨fun x => ?_, fun p x hx => ?_⟩
  · rw [hp]
    exact h.1 x
  · rw [hp]
    exact h.2 p x (hm p x hx)

theorem readyOk_resched {L : Nat} {s s2 : Kernel} (h : resched L s = some s2)
    (hok : ReadyOk L s) : ReadyOk L s2 ∧ HighestRuns s2 := by
  obtain ⟨p, t, rest, hpick, hrest, hact, hrl, htasks, _⟩ := resched_spec h
  obtain ⟨hp, _, hhigh⟩ := pickReady_spec s.readyList L p t hpick
  have hprio : ∀ x, (s2.tasks x).priority = (s.tasks x).priority := by
    intro x
    rw [htasks]
    exact priority_update _ _ _ _ rfl
  have hmem : ∀ q x, x ∈ s2.readyList q → x ∈ s.readyList q := by
    intro q x hx
    rw [hrl] at hx
    have : Function.update s.readyList p rest = Function.update s.readyList p (s.readyList p).tail := by
      rw [hrest]
      rfl
    rw [this] at hx
    exact mem_update_tail hx
  have ht : (s.tasks t).priority = p := hok.2 p t (by rw [hrest]; exact List.mem_cons_self _ _)
  refine ⟨⟨fun x => ?_, fun q x hx => ?_⟩, t, hact, fun q x hx => ?_⟩
  · rw [hprio]
    exact hok.1 x
  · rw [hprio]
    exact hok.2 q x (hmem q x hx)
  · rw [hprio, hprio, ht]
    have hx2 := hmem q x hx
    have hq : (s.tasks x).priority = q := hok.2 q x hx2
    rw [hq]
    by_contra hlt
    have hqL : q < L := hq ▸ hok.1 x
    have := hhigh q (by omega) hqL
    rw [this] at hx2
    exact List.not_mem_nil _ hx2

theorem readyOk_wakeTask {L : Nat} {s : Kernel} (x : TaskId) (h : ReadyOk L s) :
    ReadyOk L (wakeTask x s) := by
  unfold wakeTask
  have h1 : ReadyOk L
      (if (s.tasks x).state = SEM_TIMED_BLOCKED then unlink x (setTimedOut x true s) else s) := by
    split
    · exact readyOk_unlink _ (readyOk_same h (fun y => by simp) (fun p y hy => hy))
    · exact h
  exact readyOk_addready _ (readyOk_same h1 (fun y => by simp) (fun p y hy => hy))

theorem wakeTask_priority (x y : TaskId) (s : Kernel) :
    ((wakeTask x s).tasks y).priority = (s.tasks y).priority := by
  unfold wakeTask
  split <;> simp

theorem wakeTask_activeTask (x : TaskId) (s : Kernel) :
    (wakeTask x s).activeTask = s.activeTask := by
  unfold wakeTask
  split <;> simp

theorem wakeTask_mem_ready {x y : TaskId} {p : Nat} {s : Kernel}
    (h : y ∈ (wakeTask x s).readyList p) : y ∈ s.readyList p ∨ y = x := by
  unfold wakeTask at h
  split at h
  · simp only [addready, makeTaskReady, Kernel.modifyTask, unlink, setTimedOut] at h
    rcases mem_update_append.mp h with h1 | ⟨_, h2⟩
    · simp only [List.mem_filter] at h1
      exact Or.inl h1.1
    · exact Or.inr h2
  · simp only [addready, makeTaskReady, Kernel.modifyTask] at h
    rcases mem_update_append.mp h with h1 | ⟨_, h2⟩
    · exact Or.inl h1
    · exact Or.inr h2

theorem wakeLoop_inv {L : Nat} (a : TaskId) :
    ∀ (q : List DQNode) (s : Kernel) (need : Bool), ReadyOk L s → s.activeTask = some a →
      (need = false → ∀ p x, x ∈ s.readyList p → (s.tasks x).priority ≤ (s.tasks a).priority) →
      ReadyOk L (wakeLoop a q s need).1 ∧ (wakeLoop a q s need).1.activeTask = some a ∧
      ((wakeLoop a q s need).2 = false → ∀ p x, x ∈ (wakeLoop a q s need).1.readyList p →
        (((wakeLoop a q s need).1).tasks x).priority ≤ (((wakeLoop a q s need).1).tasks a).priority)
  | [], s, need, hok, hact, hle => ⟨hok, hact, hle⟩
  | n :: rest, s, need, hok, hact, hle => by
    unfold wakeLoop
    split
    · apply wakeLoop_inv a rest _ _ (readyOk_wakeTask _ hok)
      · rw [wakeTask_activeTask, hact]
      · intro hneed p x hx
        simp only [Bool.or_eq_false_iff, decide_eq_false_iff_not, not_lt] at hneed
        rw [wakeTask_priority, wakeTask_priority]
        rcases wakeTask_mem_ready hx with h1 | h1
        · exact hle hneed.1 p x h1
        · rw [h1]
          exact hneed.2
    · exact ⟨hok, hact, hle⟩

theorem highestRuns_same {s s2 : Kernel} (h : HighestRuns s)
    (ha : s2.activeTask = s.activeTask)
    (hp : ∀ y, (s2.tasks y).priority = (s.tasks y).priority)
    (hm : ∀ p y, y ∈ s2.readyList p → y ∈ s.readyList p) : HighestRuns s2 := by
  obtain ⟨a, h1, h2⟩ := h
  refine ⟨a, ha.trans h1, fun p x hx => ?_⟩
  rw [hp, hp]
  exact h2 p x (hm p x hx)

theorem sleep_inv {L : Nat} {s s2 : Kernel} (ticks : Nat) (hok : ReadyOk L s)
    (hr : HighestRuns s) (h : ARTK_Sleep L ticks s = some s2) : ReadyOk L s2 ∧ HighestRuns s2 := by
  unfold ARTK_Sleep at h
  split at h
  · cases h
  · rename_i a _
    unfold task_sleep at h
    split at h
    · exact readyOk_resched h (readyOk_same hok (fun y => by simp) (fun p y hy => hy))
    · cases h
      exact ⟨hok, hr⟩

theorem yield_inv {L : Nat} {s s2 : Kernel} (hok : ReadyOk L s)
    (h : ARTK_Yield L s = some s2) : ReadyOk L s2 ∧ HighestRuns s2 := by
  unfold ARTK_Yield relinquish at h
  split at h
  · cases h
  · rename_i a _
    exact readyOk_resched h
      (readyOk_addready _ (readyOk_same hok (fun y => by simp) (fun p y hy => hy)))

theorem wait_inv {L : Nat} {s s2 : Kernel} (i : SemId) (hok : ReadyOk L s)
    (hr : HighestRuns s) (h : Semaphore.wait L i s = some s2) : ReadyOk L s2 ∧ HighestRuns s2 := by
  unfold Semaphore.wait at h
  simp only at h
  split at h
  · cases h
    exact ⟨readyOk_same hok (fun y => by simp) (fun p y hy => hy),
      highestRuns_same hr rfl (fun y => by simp) (fun p y hy => hy)⟩
  · split at h
    · cases h
    · exact readyOk_resched h (readyOk_same hok (fun y => by simp) (fun p y hy => hy))

theorem waitTimed_inv {L : Nat} {s : Kernel} {r : Kernel × WaitOutcome} (i : SemId)
    (timeout : Nat) (hok : ReadyOk L s) (hr : HighestRuns s)
    (h : Semaphore.waitTimed L i timeout s = some r) : ReadyOk L r.1 ∧ HighestRuns r.1 := by
  unfold Semaphore.waitTimed at h
  split at h
  · cases h
  · rename_i a ha
    simp only at h
    split at h
    · cases h
      exact ⟨readyOk_same hok (fun y => by simp) (fun p y hy => hy),
        highestRuns_same hr rfl (fun y => by simp) (fun p y hy => hy)⟩
    · split at h
      · cases h
        exact ⟨readyOk_same hok (fun y => by simp) (fun p y hy => hy),
          highestRuns_same hr rfl (fun y => by simp) (fun p y hy => hy)⟩
      · simp only [Option.map_eq_some'] at h
        obtain ⟨s4, h4, rfl⟩ := h
        exact readyOk_resched h4 (readyOk_same hok (fun y => by simp) (fun p y hy => hy))

theorem readyOk_signalWake {L : Nat} {s : Kernel} (t : TaskId) (hok : ReadyOk L s) :
    ReadyOk L (Semaphore.signalWake t s) := by
  unfold Semaphore.signalWake
  simp only
  apply readyOk_addready
  refine readyOk_same hok (fun y => ?_) (fun p y hy => ?_)
  · split <;> simp
  · split at hy <;> exact hy

theorem signalWake_priority (t y : TaskId) (s : Kernel) :
    ((Semaphore.signalWake t s).tasks y).priority = (s.tasks y).priority := by
  unfold Semaphore.signalWake
  simp only
  split <;> simp

theorem signalWake_activeTask (t : TaskId) (s : Kernel) :
    (Semaphore.signalWake t s).activeTask = s.activeTask := by
  unfold Semaphore.signalWake
  simp only
  split <;> simp

theorem signalWake_mem_ready {t y : TaskId} {p : Nat} {s : Kernel}
    (h : y ∈ (Semaphore.signalWake t s).readyList p) : y ∈ s.readyList p ∨ y = t := by
  unfold Semaphore.signalWake at h
  simp only at h
  split at h
  · simp only [addready, makeTaskReady, Kernel.modifyTask, setTimedOut] at h
    rcases mem_update_append.mp h with h1 | ⟨_, h2⟩
    · exact Or.inl h1
    · exact Or.inr h2
  · simp only [addready, makeTaskReady, Kernel.modifyTask, setTimedOut] at h
    rcases mem_update_append.mp h with h1 | ⟨_, h2⟩
    · exact Or.inl h1
    · exact Or.inr h2

theorem signal_inv {L : Nat} {s s2 : Kernel} (i : SemId) (hok : ReadyOk L s)
    (hr : HighestRuns s) (h : Semaphore.signal L i s = some s2) :
    ReadyOk L s2 ∧ HighestRuns s2 := by
  unfold Semaphore.signal at h
  simp only at h
  split at h
  · cases h
    exact ⟨readyOk_same hok (fun y => by simp) (fun p y hy => hy),
      highestRuns_same hr rfl (fun y => by simp) (fun p y hy => hy)⟩
  · rename_i t rest hl
    have hok1 : ReadyOk L (Semaphore.signalWake t
        (((cli s).modifySema i (fun m => { m with count := intInc m.count })).modifySema i
          (fun m => { m with count := intDec m.count, taskList := rest }))) :=
      readyOk_signalWake t (readyOk_same hok (fun y => by simp) (fun p y hy => hy))
    split at h
    · cases h
    · rename_i a ha
      split at h
      · simp only [Option.map_eq_some'] at h
        obtain ⟨s4, h4, rfl⟩ := h
        have := readyOk_resched h4
          (readyOk_addready a (readyOk_same hok1 (fun y => by simp) (fun p y hy => hy)))
        exact ⟨readyOk_same this.1 (fun y => by simp) (fun p y hy => hy),
          highestRuns_same this.2 rfl (fun y => by simp) (fun p y hy => hy)⟩
      · rename_i hle
        cases h
        refine ⟨readyOk_same hok1 (fun y => by simp) (fun p y hy => hy), ?_⟩
        obtain ⟨a0, h1, h2⟩ := hr
        rw [signalWake_activeTask] at ha
        have haa : a0 = a := by
          have : some a0 = some a := h1.symm.trans ha
          exact Option.some.inj this
        subst haa
        refine ⟨a0, ?_, fun p x hx => ?_⟩
        · show (Semaphore.signalWake t _).activeTask = some a0
          rw [signalWake_activeTask]
          exact ha
        · have hx2 : x ∈ (Semaphore.signalWake t _).readyList p := hx
          show ((Semaphore.signalWake t _).tasks x).priority ≤
            ((Semaphore.signalWake t _).tasks a0).priority
          rcases signalWake_mem_ready hx2 with h3 | h3
          · rw [signalWake_priority, signalWake_priority]
            exact h2 p x h3
          · rw [h3]
            exact Nat.le_of_not_lt hle

theorem tick_inv {L : Nat} {s s2 : Kernel} (hok : ReadyOk L s)
    (hr : HighestRuns s) (h : timerISR L s = some s2) : ReadyOk L s2 ∧ HighestRuns s2 := by
  obtain ⟨a, h1, h2⟩ := hr
  unfold timerISR at h
  simp only [h1] at h
  have hinv := wakeLoop_inv (L := L) a (sleepDecrement s.pSleepHead) (cli s) false
    (readyOk_same hok (fun y => by simp) (fun p y hy => hy)) h1 (fun _ => h2)
  obtain ⟨i1, i2, i3⟩ := hinv
  split at h
  · simp only [Option.map_eq_some'] at h
    obtain ⟨s4, h4, rfl⟩ := h
    have := readyOk_resched h4
      (readyOk_addready a (readyOk_same i1 (fun y => by simp) (fun p y hy => hy)))
    exact ⟨readyOk_same this.1 (fun y => by simp) (fun p y hy => hy),
      highestRuns_same this.2 rfl (fun y => by simp) (fun p y hy => hy)⟩
  · rename_i hneed
    cases h
    refine ⟨readyOk_same i1 (fun y => by simp) (fun p y hy => hy), a, i2, ?_⟩
    exact i3 (by simpa using hneed)

theorem exit_inv {L : Nat} {s s2 : Kernel} (hok : ReadyOk L s)
    (hr : HighestRuns s) (h : taskDone L s = some s2) : ReadyOk L s2 ∧ HighestRuns s2 := by
  unfold taskDone at h
  split at h
  · cases h
  · rename_i a ha
    unfold removeTask at h
    simp only at h
    split at h
    · cases h
      exact ⟨readyOk_same (readyOk_unlink a hok) (fun y => by simp) (fun p y hy => hy),
        highestRuns_same hr rfl (fun y => by simp)
          (fun p y hy => by
            simp only [ARTK_TerminateMultitasking, removeready, unlink, List.mem_filter] at hy
            exact hy.1)⟩
    · exact readyOk_resched h
        (readyOk_same (readyOk_unlink a hok) (fun y => by simp) (fun p y hy => hy))

theorem step_inv {L : Nat} {s s2 : Kernel} (op : KOp) (hok : ReadyOk L s)
    (hr : HighestRuns s) (h : op.step L s = some s2) : ReadyOk L s2 ∧ HighestRuns s2 := by
  cases op with
  | sleep ticks => exact sleep_inv ticks hok hr h
  | yield => exact yield_inv hok h
  | wait i => exact wait_inv i hok hr h
  | waitTimed i timeout =>
    simp only [KOp.step, Option.map_eq_some'] at h
    obtain ⟨r, hr2, rfl⟩ := h
    exact waitTimed_inv i timeout hok hr hr2
  | signal i => exact signal_inv i hok hr h
  | tick => exact tick_inv hok hr h
  | exit => exact exit_inv hok hr h

theorem createTask_priority_lt {L : Nat} (hL : 0 < L) (isIdle : Bool) (priority : Nat) :
    (if isIdle then 0 else
      if (if priority < 1 then 1 else priority) ≥ L then L - 1
      else (if priority < 1 then 1 else priority)) < L := by
  split_ifs <;> omega

theorem readyOk_Task_create {L : Nat} {s : Kernel} (t : TaskId) (taskPriority stackSize : Nat)
    (stackOk : Bool) (hp : taskPriority < L) (hf : Fresh t s) (hok : ReadyOk L s) :
    ReadyOk L (Task.create t taskPriority stackSize stackOk s) := by
  unfold Task.create addNewTask
  simp only
  split
  · apply readyOk_addready
    refine ⟨fun x => ?_, fun p x hx => ?_⟩
    · by_cases hx : x = t
      · subst hx
        simpa using hp
      · simpa [Function.update_noteq hx] using hok.1 x
    · have hx2 : x ∈ s.readyList p := hx
      have hne : x ≠ t := fun e => hf.1 p (e ▸ hx2)
      simpa [Function.update_noteq hne] using hok.2 p x hx2
  · exact hok

theorem readyOk_createTask {L : Nat} (hL : 0 < L) {s : Kernel} (t : TaskId) (isIdle : Bool)
    (priority stacksize : Nat) (stackOk : Bool) (hf : Fresh t s) (hok : ReadyOk L s) :
    ReadyOk L (ARTK_CreateTask L t isIdle priority stacksize stackOk s) := by
  unfold ARTK_CreateTask
  exact readyOk_Task_create t _ _ stackOk (createTask_priority_lt hL isIdle priority) hf hok

theorem readyOk_setup {L : Nat} (hL : 0 < L) {s : Kernel} (h : Setup L s) : ReadyOk L s := by
  induction h with
  | init => exact ⟨fun _ => hL, fun p x hx => absurd hx (List.not_mem_nil _)⟩
  | createTask t isIdle priority stacksize stackOk _ hf ih =>
    exact readyOk_createTask hL t isIdle priority stacksize stackOk hf ih
  | createSema i c _ ih => exact readyOk_same ih (fun y => rfl) (fun p y hy => hy)

theorem running_inv {L : Nat} (hL : 0 < L) {s : Kernel} (h : Running L s) :
    ReadyOk L s ∧ HighestRuns s := by
  induction h with
  | start h0 hs => exact readyOk_resched hs (readyOk_setup hL h0)
  | step op _ hs ih => exact step_inv op ih.1 ih.2 hs

/-! ## Expiry on the sleep queue -/

theorem nodeCount_eq_zero {t : TaskId} :
    ∀ {q : List DQNode}, nodeCount t q = 0 ↔ ∀ m ∈ q, m.pTask ≠ t
  | [] => by simp [nodeCount]
  | m :: rest => by
    have ih := nodeCount_eq_zero (t := t) (q := rest)
    by_cases h : m.pTask = t
    · simp [nodeCount, h]
    · simp [nodeCount, h, ih]

theorem nodeCount_addSleeper (t x : TaskId) :
    ∀ (q : List DQNode) (count : Nat),
      nodeCount x (addSleeper t count q) = (if t = x then 1 else 0) + nodeCount x q
  | [], count => by simp [addSleeper, nodeCount]
  | m :: rest, count => by
    unfold addSleeper
    split
    · simp only [nodeCount, nodeCount_addSleeper t x rest]
      omega
    · simp only [nodeCount]

theorem nodeCount_sleepDecrement (x : TaskId) :
    ∀ (q : List DQNode), nodeCount x (sleepDecrement q) = nodeCount x q
  | [] => rfl
  | m :: rest => by simp [sleepDecrement, nodeCount]

theorem nodeCount_wakers (x : TaskId) :
    ∀ (q : List DQNode), (wakers q).count x + nodeCount x (afterWakers q) = nodeCount x q
  | [] => by simp [wakers, afterWakers, nodeCount]
  | m :: rest => by
    unfold wakers afterWakers
    split
    · have ih := nodeCount_wakers x rest
      by_cases h : m.pTask = x
      · simp only [nodeCount, h, if_true, List.count_cons_self]
        omega
      · simp only [nodeCount, h, if_false, List.count_cons_of_ne (Ne.symm h)]
        omega
    · simp

theorem remainingOf_addSleeper_self (t : TaskId) :
    ∀ (q : List DQNode) (count : Nat), (∀ m ∈ q, m.pTask ≠ t) →
      remainingOf t (addSleeper t count q) = some count
  | [], count, _ => by simp [addSleeper, remainingOf]
  | m :: rest, count, h => by
    have hm : m.pTask ≠ t := h m (List.mem_cons_self _ _)
    unfold addSleeper
    split
    · rename_i hlt
      simp only [remainingOf, hm, if_false,
        remainingOf_addSleeper_self t rest _ (fun x hx => h x (List.mem_cons_of_mem _ hx)),
        Option.map_some']
      congr 1
      omega
    · simp [remainingOf]

theorem remainingOf_sleepDecrement (t : TaskId) :
    ∀ (q : List DQNode) (r : Nat), HeadNonzero q → remainingOf t q = some (r + 1) →
      remainingOf t (sleepDecrement q) = some r
  | [], _, _, h => by simp [remainingOf] at h
  | m :: rest, r, hh, h => by
    have hm : m.dcount ≠ 0 := hh
    unfold sleepDecrement
    by_cases ht : m.pTask = t
    · simp only [remainingOf, ht, if_true, Option.some.injEq] at h ⊢
      rw [uintDec_pos hm, h]
      rfl
    · simp only [remainingOf, ht, if_false] at h ⊢
      cases hr : remainingOf t rest with
      | none => simp [hr] at h
      | some r2 =>
        simp only [hr, Option.map_some', Option.some.injEq] at h ⊢
        rw [uintDec_pos hm]
        omega

theorem wakers_of_remaining (t : TaskId) :
    ∀ (q : List DQNode) (r : Nat), remainingOf t q = some r →
      (r = 0 → t ∈ wakers q) ∧
      (0 < r → t ∉ wakers q ∧ remainingOf t (afterWakers q) = some r)
  | [], _, h => by simp [remainingOf] at h
  | m :: rest, r, h => by
    by_cases ht : m.pTask = t
    · simp only [remainingOf, ht, if_true, Option.some.injEq] at h
      refine ⟨fun h0 => ?_, fun hpos => ?_⟩
      · simp [wakers, h, h0, ht]
      · subst h
        have hm : m.dcount ≠ 0 := by omega
        simp [wakers, afterWakers, hm, remainingOf, ht]
    · simp only [remainingOf, ht, if_false] at h
      cases hr : remainingOf t rest with
      | none => simp [hr] at h
      | some r2 =>
        simp only [hr, Option.map_some', Option.some.injEq] at h
        have ih := wakers_of_remaining t rest r2 hr
        by_cases hm : m.dcount = 0
        · have hr2 : r2 = r := by omega
          subst hr2
          refine ⟨fun h0 => ?_, fun hpos => ?_⟩
          · simp only [wakers, hm, if_true]
            exact List.mem_cons_of_mem _ (ih.1 h0)
          · simp only [wakers, afterWakers, hm, if_true, List.mem_cons, not_or]
            exact ⟨⟨fun e => ht e.symm, (ih.2 hpos).1⟩, (ih.2 hpos).2⟩
        · refine ⟨fun h0 => by omega, fun _ => ?_⟩
          simp [wakers, afterWakers, hm, remainingOf, ht, hr, h]

/-- One run of the tick handler on a queue whose head delta is not 0: a task
with one tick left is taken off, a task with more stays and has one less. -/
theorem tickQueue_remaining (t : TaskId) (q : List DQNode) (r : Nat) (hh : HeadNonzero q)
    (h : remainingOf t q = some (r + 1)) :
    (r = 0 → t ∈ wakers (sleepDecrement q)) ∧
    (0 < r → t ∉ wakers (sleepDecrement q) ∧ remainingOf t (tickQueue q) = some r) :=
  wakers_of_remaining t (sleepDecrement q) r (remainingOf_sleepDecrement t q r hh h)

theorem tickQueue_nodeCount_of_not_waker (t : TaskId) (q : List DQNode)
    (h : t ∉ wakers (sleepDecrement q)) : nodeCount t (tickQueue q) = nodeCount t q := by
  have := nodeCount_wakers t (sleepDecrement q)
  rw [List.count_eq_zero_of_not_mem h, nodeCount_sleepDecrement] at this
  unfold tickQueue
  omega

theorem tickQueue_no_node_of_waker (t : TaskId) (q : List DQNode)
    (h : t ∈ wakers (sleepDecrement q)) (h1 : nodeCount t q = 1) :
    ∀ m ∈ tickQueue q, m.pTask ≠ t := by
  have := nodeCount_wakers t (sleepDecrement q)
  rw [nodeCount_sleepDecrement] at this
  have hc : 0 < (wakers (sleepDecrement q)).count t := List.count_pos_iff.mpr h
  apply nodeCount_eq_zero.mp
  unfold tickQueue
  omega

/-! ## The tick handler -/

theorem wakeTask_readyOn_self (x : TaskId) (s : Kernel) : ReadyOn x (wakeTask x s) := by
  unfold wakeTask ReadyOn
  split <;> simp

theorem wakeTask_readyOn_other {x : TaskId} {s : Kernel} (y : TaskId) (h : ReadyOn x s) :
    ReadyOn x (wakeTask y s) := by
  by_cases hxy : y = x
  · subst hxy
    exact wakeTask_readyOn_self _ s
  · have hne : x ≠ y := fun e => hxy e.symm
    obtain ⟨h1, h2⟩ := h
    unfold wakeTask ReadyOn
    split
    · refine ⟨by simp [Function.update_noteq hne, h1], ?_⟩
      simp only [addready, makeTaskReady, Kernel.modifyTask, unlink, setTimedOut]
      apply mem_update_append.mpr
      left
      simp [Function.update_noteq hne, h2, hne]
    · refine ⟨by simp [Function.update_noteq hne, h1], ?_⟩
      simp only [addready, makeTaskReady, Kernel.modifyTask]
      apply mem_update_append.mpr
      left
      simp [Function.update_noteq hne, h2]

theorem wakeTask_semaCount (x : TaskId) (i : SemId) (s : Kernel) :
    ((wakeTask x s).semas i).count = (s.semas i).count := by
  unfold wakeTask
  split <;> simp

theorem wakeLoop_pSleepHead (a : TaskId) :
    ∀ (q : List DQNode) (s : Kernel) (need : Bool),
      (wakeLoop a q s need).1.pSleepHead = afterWakers q
  | [], _, _ => rfl
  | n :: rest, s, need => by
    unfold wakeLoop afterWakers
    split
    · exact wakeLoop_pSleepHead a rest _ _
    · rfl

theorem wakeLoop_activeTask (a : TaskId) :
    ∀ (q : List DQNode) (s : Kernel) (need : Bool),
      (wakeLoop a q s need).1.activeTask = s.activeTask
  | [], _, _ => rfl
  | n :: rest, s, need => by
    unfold wakeLoop
    split
    · rw [wakeLoop_activeTask a rest, wakeTask_activeTask]
    · rfl

theorem wakeLoop_priority (a x : TaskId) :
    ∀ (q : List DQNode) (s : Kernel) (need : Bool),
      ((wakeLoop a q s need).1.tasks x).priority = (s.tasks x).priority
  | [], _, _ => rfl
  | n :: rest, s, need => by
    unfold wakeLoop
    split
    · rw [wakeLoop_priority a x rest, wakeTask_priority]
    · rfl

theorem wakeLoop_semaCount (a : TaskId) (i : SemId) :
    ∀ (q : List DQNode) (s : Kernel) (need : Bool),
      ((wakeLoop a q s need).1.semas i).count = (s.semas i).count
  | [], _, _ => rfl
  | n :: rest, s, need => by
    unfold wakeLoop
    split
    · rw [wakeLoop_semaCount a i rest, wakeTask_semaCount]
    · rfl

theorem wakeLoop_readyOn (a x : TaskId) :
    ∀ (q : List DQNode) (s : Kernel) (need : Bool), x ∈ wakers q ∨ ReadyOn x s →
      ReadyOn x (wakeLoop a q s need).1
  | [], s, _, h => by
    rcases h with h | h
    · simp [wakers] at h
    · exact h
  | n :: rest, s, need, h => by
    unfold wakeLoop
    split
    · rename_i h0
      apply wakeLoop_readyOn a x rest
      rcases h with h | h
      · simp only [wakers, h0, if_true, List.mem_cons] at h
        rcases h with h | h
        · right
          rw [h]
          exact wakeTask_readyOn_self _ s
        · exact Or.inl h
      · exact Or.inr (wakeTask_readyOn_other _ h)
    · rename_i h0
      rcases h with h | h
      · simp [wakers, h0] at h
      · exact h

theorem readyOn_demote {x : TaskId} {s : Kernel} (a : TaskId) (h : ReadyOn x s) :
    ReadyOn x (addready a (makeTaskReady a s)) := by
  by_cases hxa : x = a
  · subst hxa
    exact ⟨by simp, by simp⟩
  · obtain ⟨h3, h4⟩ := h
    refine ⟨?_, ?_⟩
    · simpa [Function.update_noteq hxa] using h3
    · simp only [addready, makeTaskReady, Kernel.modifyTask]
      apply mem_update_append.mpr
      left
      simpa [Function.update_noteq hxa] using h4

theorem resched_readyOn {L : Nat} {s s2 : Kernel} {x : TaskId} (h : resched L s = some s2)
    (hx : ReadyOn x s) : ReadyOn x s2 ∨ Runs x s2 := by
  obtain ⟨p, t, rest, _, hrest, hact, hrl, htasks, _⟩ := resched_spec h
  by_cases hxt : x = t
  · right
    subst hxt
    exact ⟨hact, by rw [htasks]; simp⟩
  · left
    obtain ⟨h1, h2⟩ := hx
    have hst : s2.tasks x = s.tasks x := by rw [htasks, Function.update_noteq hxt]
    refine ⟨by rw [hst]; exact h1, ?_⟩
    rw [hst, hrl]
    by_cases hp : (s.tasks x).priority = p
    · rw [hp, Function.update_same]
      rw [hp, hrest] at h2
      rcases List.mem_cons.mp h2 with h3 | h3
      · exact absurd h3 hxt
      · exact h3
    · rw [Function.update_noteq hp]
      exact h2

/-- A run of the tick handler with an active task, all priorities being
levels of the scheduler: it returns, it leaves the sleep queue that
`sleepDecrement` and the calls of `removeWaker` produce, it changes no
priority and no semaphore count, and every task taken off the sleep queue is
Ready on its ready queue, or already running. -/
theorem timerISR_spec {L : Nat} {s : Kernel} {a : TaskId} (ha : s.activeTask = some a)
    (hp : ∀ x, (s.tasks x).priority < L) :
    ∃ s2, timerISR L s = some s2 ∧ s2.pSleepHead = tickQueue s.pSleepHead ∧
      (∃ a2, s2.activeTask = some a2) ∧
      (∀ x, (s2.tasks x).priority = (s.tasks x).priority) ∧
      (∀ i, (s2.semas i).count = (s.semas i).count) ∧
      (∀ x, x ∈ wakers (sleepDecrement s.pSleepHead) → ReadyOn x s2 ∨ Runs x s2) := by
  unfold timerISR
  simp only [ha]
  split
  · have hne : ∃ p, p < L ∧
        (addready a (makeTaskReady a
          (wakeLoop a (sleepDecrement s.pSleepHead) (cli s) false).1)).readyList p ≠ [] := by
      refine ⟨(s.tasks a).priority, hp a, ?_⟩
      simp [wakeLoop_priority]
    obtain ⟨s4, h4⟩ := resched_isSome L _ hne
    obtain ⟨p, t, rest, _, hrest, hact, hrl, htasks, hsem, hq, _⟩ := resched_spec h4
    refine ⟨sei s4, by rw [h4]; rfl, ?_, ⟨t, hact⟩, fun x => ?_, fun i => ?_, fun x hx => ?_⟩
    · show s4.pSleepHead = _
      rw [hq]
      exact wakeLoop_pSleepHead a _ _ _
    · show (s4.tasks x).priority = _
      rw [resched_priority h4]
      simp [wakeLoop_priority]
    · show (s4.semas i).count = _
      rw [hsem]
      simp [wakeLoop_semaCount]
    · have h1 : ReadyOn x (wakeLoop a (sleepDecrement s.pSleepHead) (cli s) false).1 :=
        wakeLoop_readyOn a x _ _ _ (Or.inl hx)
      have h2 := readyOn_demote a h1
      rcases resched_readyOn h4 h2 with h5 | h5
      · exact Or.inl h5
      · exact Or.inr h5
  · refine ⟨_, rfl, ?_, ⟨a, ?_⟩, fun x => ?_, fun i => ?_, fun x hx => ?_⟩
    · exact wakeLoop_pSleepHead a _ _ _
    · show (wakeLoop a _ _ _).1.activeTask = _
      rw [wakeLoop_activeTask]
      exact ha
    · show ((wakeLoop a _ _ _).1.tasks x).priority = _
      rw [wakeLoop_priority]
      rfl
    · show ((wakeLoop a _ _ _).1.semas i).count = _
      rw [wakeLoop_semaCount]
      rfl
    · exact Or.inl (wakeLoop_readyOn a x _ _ _ (Or.inl hx))

theorem ticks_succ (L : Nat) :
    ∀ (j : Nat) (s : Kernel), ticks L (j + 1) s = (ticks L j s).bind (timerISR L)
  | 0, s => by
    show (timerISR L s).bind (ticks L 0) = timerISR L s
    cases timerISR L s <;> rfl
  | j + 1, s => by
    show (timerISR L s).bind (ticks L (j + 1)) = ((timerISR L s).bind (ticks L j)).bind (timerISR L)
    cases h : timerISR L s with
    | none => rfl
    | some s1 => exact ticks_succ L j s1

/-! ## Semaphores -/

theorem signalWake_readyOn_self (t : TaskId) (s : Kernel) :
    ReadyOn t (Semaphore.signalWake t s) := by
  unfold Semaphore.signalWake ReadyOn
  simp only
  split <;> simp

theorem signalWake_semas (t : TaskId) (s : Kernel) :
    (Semaphore.signalWake t s).semas = s.semas := by
  unfold Semaphore.signalWake
  simp only
  split <;> rfl

theorem signalWake_pSleepHead (t : TaskId) (s : Kernel) :
    (Semaphore.signalWake t s).pSleepHead =
      if (s.tasks t).state = SEM_TIMED_BLOCKED then removeSleeper t s.pSleepHead
      else s.pSleepHead := by
  unfold Semaphore.signalWake
  simp only [setTimedOut, Kernel.modifyTask, Function.update_same]
  split <;> rfl

theorem signalWake_timedOut_self (t : TaskId) (s : Kernel) :
    ((Semaphore.signalWake t s).tasks t).timedOut = false := by
  unfold Semaphore.signalWake
  simp only
  split <;> simp

theorem granted_semas (i j : SemId) (rest : List TaskId) (s : Kernel) :
    (Semaphore.granted i rest s).semas j =
      if j = i then ⟨intDec (intInc (s.semas i).count), rest⟩ else s.semas j := by
  by_cases hj : j = i
  · subst hj
    simp [Semaphore.granted]
  · simp [Semaphore.granted, Function.update_noteq hj, hj]

theorem signal_nil {L : Nat} {s : Kernel} {i : SemId} (hl : (s.semas i).taskList = []) :
    Semaphore.signal L i s =
      some (sei ((cli s).modifySema i (fun m => { m with count := intInc m.count }))) := by
  unfold Semaphore.signal
  simp only
  split
  · rfl
  · rename_i t2 rest2 heq
    simp [hl] at heq

theorem signal_cons {L : Nat} {s : Kernel} {i : SemId} {a t : TaskId} {rest : List TaskId}
    (ha : s.activeTask = some a) (hl : (s.semas i).taskList = t :: rest) :
    Semaphore.signal L i s =
      if ((Semaphore.signalWake t (Semaphore.granted i rest s)).tasks t).priority >
          ((Semaphore.signalWake t (Semaphore.granted i rest s)).tasks a).priority then
        (resched L (addready a (makeTaskReady a
          (Semaphore.signalWake t (Semaphore.granted i rest s))))).map sei
      else some (sei (Semaphore.signalWake t (Semaphore.granted i rest s))) := by
  unfold Semaphore.signal
  simp only
  split
  · rename_i heq
    simp [hl] at heq
  · rename_i t2 rest2 heq
    simp only [Kernel.modifySema, cli, Function.update_same, hl, List.cons.injEq] at heq
    obtain ⟨rfl, rfl⟩ := heq
    split
    · rename_i hnone
      rw [signalWake_activeTask] at hnone
      simp [ha] at hnone
    · rename_i a2 hsome
      rw [signalWake_activeTask] at hsome
      have : a2 = a := by
        have h2 : some a2 = some a := hsome.symm.trans ha
        exact Option.some.inj h2
      subst this
      rfl

/-- A call of `signal` on a semaphore with a waiter, an active task and all
priorities being levels of the scheduler: it returns, and the state it leaves
is the state after `signalWake`, up to the demotion of the active task and
the call of `resched` when the woken task has the higher priority. -/
theorem signal_spec {L : Nat} {s : Kernel} {i : SemId} {a t : TaskId} {rest : List TaskId}
    (ha : s.activeTask = some a) (hp : ∀ x, (s.tasks x).priority < L)
    (hl : (s.semas i).taskList = t :: rest) :
    ∃ s2, Semaphore.signal L i s = some s2 ∧
      (s2.semas i).count = intDec (intInc (s.semas i).count) ∧
      (s2.semas i).taskList = rest ∧ (∀ j, j ≠ i → s2.semas j = s.semas j) ∧
      (ReadyOn t s2 ∨ Runs t s2) ∧ (s2.tasks t).timedOut = false ∧
      (∃ b, s2.activeTask = some b) ∧ (∀ x, (s2.tasks x).priority = (s.tasks x).priority) ∧
      s2.pSleepHead =
        (if (s.tasks t).state = SEM_TIMED_BLOCKED then removeSleeper t s.pSleepHead
         else s.pSleepHead) := by
  have hq : (Semaphore.signalWake t (Semaphore.granted i rest s)).pSleepHead =
      (if (s.tasks t).state = SEM_TIMED_BLOCKED then removeSleeper t s.pSleepHead
       else s.pSleepHead) := by
    rw [signalWake_pSleepHead]
    rfl
  have hsem : ∀ j, (Semaphore.signalWake t (Semaphore.granted i rest s)).semas j =
      if j = i then ⟨intDec (intInc (s.semas i).count), rest⟩ else s.semas j := by
    intro j
    rw [signalWake_semas, granted_semas]
  have hpr : ∀ x, ((Semaphore.signalWake t (Semaphore.granted i rest s)).tasks x).priority =
      (s.tasks x).priority := by
    intro x
    rw [signalWake_priority]
    rfl
  rw [signal_cons ha hl]
  split
  · have hne : ∃ p, p < L ∧ (addready a (makeTaskReady a
        (Semaphore.signalWake t (Semaphore.granted i rest s)))).readyList p ≠ [] := by
      refine ⟨(s.tasks a).priority, hp a, ?_⟩
      simp [hpr]
    obtain ⟨s4, h4⟩ := resched_isSome L _ hne
    obtain ⟨p, u, rest2, _, _, hact, _, _, hsem4, hq4, _⟩ := resched_spec h4
    have hsem5 : ∀ j, s4.semas j =
        if j = i then ⟨intDec (intInc (s.semas i).count), rest⟩ else s.semas j := by
      intro j
      rw [hsem4]
      exact hsem j
    refine ⟨sei s4, by rw [h4]; rfl, ?_, ?_, fun j hj => ?_, ?_, ?_, ⟨u, hact⟩, fun x => ?_, ?_⟩
    · show (s4.semas i).count = _
      rw [hsem5, if_pos rfl]
    · show (s4.semas i).taskList = _
      rw [hsem5, if_pos rfl]
    · show s4.semas j = _
      rw [hsem5, if_neg hj]
    · rcases resched_readyOn h4 (readyOn_demote a (signalWake_readyOn_self t _)) with h5 | h5
      · exact Or.inl h5
      · exact Or.inr h5
    · show (s4.tasks t).timedOut = false
      rw [resched_timedOut h4]
      by_cases hta : t = a
      · subst hta
        simp [signalWake_timedOut_self]
      · simp [Function.update_noteq hta, signalWake_timedOut_self]
    · show (s4.tasks x).priority = _
      rw [resched_priority h4]
      simpa using hpr x
    · show s4.pSleepHead = _
      rw [hq4]
      exact hq
  · refine ⟨_, rfl, ?_, ?_, fun j hj => ?_, Or.inl ?_, ?_, ⟨a, ?_⟩, fun x => ?_, ?_⟩
    · show ((Semaphore.signalWake t _).semas i).count = _
      rw [hsem, if_pos rfl]
    · show ((Semaphore.signalWake t _).semas i).taskList = _
      rw [hsem, if_pos rfl]
    · show (Semaphore.signalWake t _).semas j = _
      rw [hsem, if_neg hj]
    · exact signalWake_readyOn_self t _
    · exact signalWake_timedOut_self t _
    · show (Semaphore.signalWake t _).activeTask = _
      rw [signalWake_activeTask]
      exact ha
    · exact hpr x
    · exact hq

theorem waitTimed_unfold {L : Nat} {s : Kernel} {i : SemId} {b : TaskId} {timeout : Nat}
    (hb : s.activeTask = some b) (hc : (s.semas i).count ≤ 0) (ht : timeout ≠ 0) :
    Semaphore.waitTimed L i timeout s =
      (resched L (Semaphore.timedBlocked i b timeout s)).map
        (fun s4 => (s4, WaitOutcome.suspended)) := by
  unfold Semaphore.waitTimed
  simp only [hb]
  have hc2 : ¬ ((cli (setTimedOut b false s)).semas i).count > 0 := by
    show ¬ (s.semas i).count > 0
    omega
  rw [if_neg hc2, if_neg ht]
  rfl

theorem waitTimed_suspends {L : Nat} {s : Kernel} {i : SemId} {b : TaskId} {timeout : Nat}
    (hb : s.activeTask = some b) (hc : (s.semas i).count ≤ 0) (ht : timeout ≠ 0)
    (hr : ∃ p, p < L ∧ s.readyList p ≠ []) (hnr : ∀ p, b ∉ s.readyList p) :
    ∃ s1, Semaphore.waitTimed L i timeout s = some (s1, WaitOutcome.suspended) ∧
      s1.pSleepHead = addSleeper b timeout s.pSleepHead ∧
      (s1.semas i).taskList = (s.semas i).taskList ++ [b] ∧
      (s1.semas i).count = (s.semas i).count ∧
      (s1.tasks b).state = SEM_TIMED_BLOCKED ∧ (s1.tasks b).timedOut = false ∧
      (∃ u, s1.activeTask = some u) ∧ Parked b s1 ∧
      (∀ x, (s1.tasks x).priority = (s.tasks x).priority) := by
  rw [waitTimed_unfold hb hc ht]
  obtain ⟨s4, h4⟩ := resched_isSome L (Semaphore.timedBlocked i b timeout s) hr
  obtain ⟨p, u, rest, _, hrest, hact, hrl, _, hsem, hq, _⟩ := resched_spec h4
  have hub : u ≠ b := by
    intro e
    subst e
    exact hnr p (by
      have : u ∈ (Semaphore.timedBlocked i u timeout s).readyList p := by
        rw [hrest]
        exact List.mem_cons_self _ _
      exact this)
  have hne : s4.activeTask ≠ some b := by
    rw [hact]
    exact fun e => hub (Option.some.inj e)
  have htb : s4.tasks b = (Semaphore.timedBlocked i b timeout s).tasks b :=
    resched_tasks_other h4 b hne
  refine ⟨s4, by rw [h4]; rfl, ?_, ?_, ?_, ?_, ?_, ⟨u, hact⟩, ⟨hne, fun q hq2 => ?_⟩, fun x => ?_⟩
  · rw [hq]
    rfl
  · rw [hsem]
    simp [Semaphore.timedBlocked]
  · rw [hsem]
    simp [Semaphore.timedBlocked]
  · rw [htb]
    simp [Semaphore.timedBlocked]
  · rw [htb]
    simp [Semaphore.timedBlocked]
  · rw [hrl] at hq2
    have hq3 : b ∈ Function.update (Semaphore.timedBlocked i b timeout s).readyList p
        ((Semaphore.timedBlocked i b timeout s).readyList p).tail q := by
      rw [hrest]
      exact hq2
    exact hnr q (mem_update_tail hq3)
  · rw [resched_priority h4]
    simp [Semaphore.timedBlocked]

theorem wakeTask_tasks_other {x y : TaskId} (h : y ≠ x) (s : Kernel) :
    (wakeTask y s).tasks x = s.tasks x := by
  have hxy : x ≠ y := fun e => h e.symm
  unfold wakeTask
  split <;> simp [Function.update_noteq hxy]

theorem wakeTask_parked {x y : TaskId} {s : Kernel} (h : y ≠ x) (hp : Parked x s) :
    Parked x (wakeTask y s) := by
  refine ⟨by rw [wakeTask_activeTask]; exact hp.1, fun p hx => ?_⟩
  rcases wakeTask_mem_ready hx with h1 | h1
  · exact hp.2 p h1
  · exact h h1.symm

theorem wakeTask_semaList {y : TaskId} {s : Kernel} {i : SemId}
    (h : y ∉ (s.semas i).taskList) : ((wakeTask y s).semas i).taskList = (s.semas i).taskList := by
  unfold wakeTask
  split
  · simp only [addready, makeTaskReady, Kernel.modifyTask, unlink, setTimedOut]
    apply List.filter_eq_self.mpr
    intro z hz
    simp only [decide_eq_true_eq]
    exact fun e => h (e ▸ hz)
  · rfl

theorem wakeTask_mem_semaList {x y : TaskId} {s : Kernel} {i : SemId} (h : y ≠ x)
    (hx : x ∈ (s.semas i).taskList) : x ∈ ((wakeTask y s).semas i).taskList := by
  have hxy : x ≠ y := fun e => h e.symm
  unfold wakeTask
  split
  · simp only [addready, makeTaskReady, Kernel.modifyTask, unlink, setTimedOut]
    exact List.mem_filter.mpr ⟨hx, by simpa using hxy⟩
  · exact hx

theorem wakeTask_expired {x : TaskId} {s : Kernel} (y : TaskId) (h : Expired x s) :
    Expired x (wakeTask y s) := by
  obtain ⟨h1, h2⟩ := h
  by_cases hy : y = x
  · subst hy
    unfold wakeTask Expired
    split
    · refine ⟨by simp, fun i => ?_⟩
      simp only [addready, makeTaskReady, Kernel.modifyTask, unlink, setTimedOut]
      exact fun hm => h2 i (List.mem_of_mem_filter hm)
    · exact ⟨by simpa using h1, h2⟩
  · refine ⟨by rw [wakeTask_tasks_other hy]; exact h1, fun i hm => ?_⟩
    unfold wakeTask at hm
    split at hm
    · simp only [addready, makeTaskReady, Kernel.modifyTask, unlink, setTimedOut] at hm
      exact h2 i (List.mem_of_mem_filter hm)
    · exact h2 i hm

theorem wakeTask_expires (x : TaskId) (s : Kernel) (h : (s.tasks x).state = SEM_TIMED_BLOCKED) :
    Expired x (wakeTask x s) := by
  unfold wakeTask Expired
  rw [if_pos h]
  refine ⟨by simp, fun i => ?_⟩
  simp only [addready, makeTaskReady, Kernel.modifyTask, unlink, setTimedOut]
  intro hm
  have := (List.mem_filter.mp hm).2
  simp at this

theorem wakeLoop_parked (a x : TaskId) :
    ∀ (q : List DQNode) (s : Kernel) (need : Bool), x ∉ wakers q → Parked x s →
      Parked x (wakeLoop a q s need).1 ∧ (wakeLoop a q s need).1.tasks x = s.tasks x ∧
      (∀ i, x ∈ (s.semas i).taskList → x ∈ ((wakeLoop a q s need).1.semas i).taskList)
  | [], s, _, _, hp => ⟨hp, rfl, fun _ h => h⟩
  | n :: rest, s, need, hw, hp => by
    unfold wakeLoop
    split
    · rename_i h0
      simp only [wakers, h0, if_true, List.mem_cons, not_or] at hw
      have hne : n.pTask ≠ x := fun e => hw.1 e.symm
      obtain ⟨i1, i2, i3⟩ := wakeLoop_parked a x rest (wakeTask n.pTask s)
        (need || decide ((s.tasks n.pTask).priority > (s.tasks a).priority)) hw.2
        (wakeTask_parked hne hp)
      exact ⟨i1, by rw [i2, wakeTask_tasks_other hne],
        fun i hi => i3 i (wakeTask_mem_semaList hne hi)⟩
    · exact ⟨hp, rfl, fun _ h => h⟩

theorem wakeLoop_semaList (a : TaskId) (i : SemId) (l : List TaskId) :
    ∀ (q : List DQNode) (s : Kernel) (need : Bool), (∀ y ∈ wakers q, y ∉ l) →
      (s.semas i).taskList = l → ((wakeLoop a q s need).1.semas i).taskList = l
  | [], s, _, _, hl => hl
  | n :: rest, s, need, hw, hl => by
    unfold wakeLoop
    split
    · rename_i h0
      simp only [wakers, h0, if_true, List.mem_cons, forall_eq_or_imp] at hw
      apply wakeLoop_semaList a i l rest _ _ hw.2
      rw [wakeTask_semaList (by rw [hl]; exact hw.1)]
      exact hl
    · exact hl

theorem wakeLoop_expired (a x : TaskId) :
    ∀ (q : List DQNode) (s : Kernel) (need : Bool), Expired x s →
      Expired x (wakeLoop a q s need).1
  | [], s, _, h => h
  | n :: rest, s, need, h => by
    unfold wakeLoop
    split
    · exact wakeLoop_expired a x rest _ _ (wakeTask_expired _ h)
    · exact h

theorem wakeLoop_expires (a x : TaskId) :
    ∀ (q : List DQNode) (s : Kernel) (need : Bool), x ∈ wakers q →
      (s.tasks x).state = SEM_TIMED_BLOCKED → Expired x (wakeLoop a q s need).1
  | [], s, _, hw, _ => by simp [wakers] at hw
  | n :: rest, s, need, hw, hs => by
    unfold wakeLoop
    split
    · rename_i h0
      simp only [wakers, h0, if_true, List.mem_cons] at hw
      by_cases hn : n.pTask = x
      · rw [hn]
        exact wakeLoop_expired a x rest _ _ (wakeTask_expires x s hs)
      · rcases hw with hw | hw
        · exact absurd hw.symm hn
        · apply wakeLoop_expires a x rest _ _ hw
          rw [wakeTask_tasks_other hn]
          exact hs
    · rename_i h0
      simp [wakers, h0] at hw

theorem wakeLoop_timedOut (a x : TaskId) :
    ∀ (q : List DQNode) (s : Kernel) (need : Bool), x ∉ wakers q →
      ((wakeLoop a q s need).1.tasks x).timedOut = (s.tasks x).timedOut
  | [], s, _, _ => rfl
  | n :: rest, s, need, hw => by
    unfold wakeLoop
    split
    · rename_i h0
      simp only [wakers, h0, if_true, List.mem_cons, not_or] at hw
      rw [wakeLoop_timedOut a x rest _ _ hw.2, wakeTask_tasks_other (fun e => hw.1 e.symm)]
    · rfl

theorem timerISR_unfold {L : Nat} {s : Kernel} {a : TaskId} (ha : s.activeTask = some a) :
    timerISR L s =
      if (wakeLoop a (sleepDecrement s.pSleepHead) (cli s) false).2 then
        (resched L (addready a (makeTaskReady a
          (wakeLoop a (sleepDecrement s.pSleepHead) (cli s) false).1))).map sei
      else some (sei (wakeLoop a (sleepDecrement s.pSleepHead) (cli s) false).1) := by
  unfold timerISR
  simp only [ha]

theorem resched_parked {L : Nat} {s s2 : Kernel} {x : TaskId} (h : resched L s = some s2)
    (hx : ∀ p, x ∉ s.readyList p) : Parked x s2 ∧ s2.tasks x = s.tasks x := by
  obtain ⟨p, u, rest, _, hrest, hact, hrl, _, _⟩ := resched_spec h
  have hux : u ≠ x := by
    intro e
    subst e
    exact hx p (by rw [hrest]; exact List.mem_cons_self _ _)
  have hne : s2.activeTask ≠ some x := by
    rw [hact]
    exact fun e => hux (Option.some.inj e)
  refine ⟨⟨hne, fun q hq => ?_⟩, resched_tasks_other h x hne⟩
  rw [hrl] at hq
  have hq3 : x ∈ Function.update s.readyList p (s.readyList p).tail q := by
    rw [hrest]
    exact hq
  exact hx q (mem_update_tail hq3)

theorem timerISR_parked {L : Nat} {s s2 : Kernel} {a x : TaskId} (ha : s.activeTask = some a)
    (hw : x ∉ wakers (sleepDecrement s.pSleepHead)) (hp : Parked x s)
    (h : timerISR L s = some s2) :
    Parked x s2 ∧ s2.tasks x = s.tasks x ∧
      (∀ i, x ∈ (s.semas i).taskList → x ∈ (s2.semas i).taskList) := by
  rw [timerISR_unfold ha] at h
  have hax : a ≠ x := fun e => hp.1 (e ▸ ha)
  have hxa : x ≠ a := fun e => hax e.symm
  obtain ⟨i1, i2, i3⟩ := wakeLoop_parked a x (sleepDecrement s.pSleepHead) (cli s) false hw hp
  split at h
  · simp only [Option.map_eq_some'] at h
    obtain ⟨s4, h4, rfl⟩ := h
    have hd : ∀ p, x ∉ (addready a (makeTaskReady a
        (wakeLoop a (sleepDecrement s.pSleepHead) (cli s) false).1)).readyList p := by
      intro p hm
      rcases mem_update_append.mp hm with h1 | ⟨_, h1⟩
      · exact i1.2 p h1
      · exact hxa h1
    obtain ⟨j1, j2⟩ := resched_parked h4 hd
    obtain ⟨_, _, _, _, _, _, _, _, hsem, _⟩ := resched_spec h4
    refine ⟨j1, ?_, fun i hi => ?_⟩
    · show s4.tasks x = _
      rw [j2]
      show Function.update _ a _ x = _
      rw [Function.update_noteq hxa]
      exact i2
    · show x ∈ (s4.semas i).taskList
      rw [hsem]
      exact i3 i hi
  · cases h
    exact ⟨i1, i2, i3⟩

theorem timerISR_semaList {L : Nat} {s s2 : Kernel} {a : TaskId} {i : SemId} {l : List TaskId}
    (ha : s.activeTask = some a) (hw : ∀ y ∈ wakers (sleepDecrement s.pSleepHead), y ∉ l)
    (hl : (s.semas i).taskList = l) (h : timerISR L s = some s2) :
    (s2.semas i).taskList = l := by
  rw [timerISR_unfold ha] at h
  have i1 := wakeLoop_semaList a i l (sleepDecrement s.pSleepHead) (cli s) false hw hl
  split at h
  · simp only [Option.map_eq_some'] at h
    obtain ⟨s4, h4, rfl⟩ := h
    obtain ⟨_, _, _, _, _, _, _, _, hsem, _⟩ := resched_spec h4
    show (s4.semas i).taskList = l
    rw [hsem]
    exact i1
  · cases h
    exact i1

theorem timerISR_expires {L : Nat} {s s2 : Kernel} {a x : TaskId} (ha : s.activeTask = some a)
    (hw : x ∈ wakers (sleepDecrement s.pSleepHead))
    (hs : (s.tasks x).state = SEM_TIMED_BLOCKED) (h : timerISR L s = some s2) :
    Expired x s2 := by
  rw [timerISR_unfold ha] at h
  obtain ⟨i1, i2⟩ := wakeLoop_expires a x (sleepDecrement s.pSleepHead) (cli s) false hw hs
  split at h
  · simp only [Option.map_eq_some'] at h
    obtain ⟨s4, h4, rfl⟩ := h
    obtain ⟨_, _, _, _, _, _, _, _, hsem, _⟩ := resched_spec h4
    refine ⟨?_, fun i => ?_⟩
    · show (s4.tasks x).timedOut = true
      rw [resched_timedOut h4]
      by_cases hxa : x = a
      · subst hxa
        simpa using i1
      · simpa [Function.update_noteq hxa] using i1
    · show x ∉ (s4.semas i).taskList
      rw [hsem]
      exact i2 i
  · cases h
    exact ⟨i1, i2⟩

theorem timerISR_timedOut {L : Nat} {s s2 : Kernel} {a x : TaskId} (ha : s.activeTask = some a)
    (hw : x ∉ wakers (sleepDecrement s.pSleepHead)) (h : timerISR L s = some s2) :
    (s2.tasks x).timedOut = (s.tasks x).timedOut := by
  rw [timerISR_unfold ha] at h
  have i1 := wakeLoop_timedOut a x (sleepDecrement s.pSleepHead) (cli s) false hw
  split at h
  · simp only [Option.map_eq_some'] at h
    obtain ⟨s4, h4, rfl⟩ := h
    show (s4.tasks x).timedOut = _
    rw [resched_timedOut h4]
    by_cases hxa : x = a
    · subst hxa
      simpa using i1
    · simpa [Function.update_noteq hxa] using i1
  · cases h
    exact i1

/-- While a blocked task has ticks left on the sleep queue, the ticks run,
count them down and leave the task as it is: blocked, off the ready queues,
and on the wait lists it is on. -/
theorem ticks_blocked {L : Nat} {s : Kernel} {t a : TaskId} {n : Nat}
    (ha : s.activeTask = some a) (hp : ∀ x, (s.tasks x).priority < L)
    (hh : HeadNonzero s.pSleepHead) (hr : remainingOf t s.pSleepHead = some n)
    (hc : nodeCount t s.pSleepHead = 1) (hpk : Parked t s) :
    ∀ j, j < n → ∃ sj, ticks L j s = some sj ∧ (∃ b, sj.activeTask = some b) ∧
      (∀ x, (sj.tasks x).priority = (s.tasks x).priority) ∧
      (∀ i, (sj.semas i).count = (s.semas i).count) ∧
      HeadNonzero sj.pSleepHead ∧ remainingOf t sj.pSleepHead = some (n - j) ∧
      nodeCount t sj.pSleepHead = 1 ∧ Parked t sj ∧ sj.tasks t = s.tasks t ∧
      (∀ i, t ∈ (s.semas i).taskList → t ∈ (sj.semas i).taskList) ∧
      (∀ i, (s.semas i).taskList = [t] → (sj.semas i).taskList = [t])
  | 0, _ => ⟨s, rfl, ⟨a, ha⟩, fun _ => rfl, fun _ => rfl, hh, hr, hc, hpk, rfl,
      fun _ h => h, fun _ h => h⟩
  | j + 1, hj => by
    obtain ⟨sj, h1, ⟨b, h2⟩, h3, h4, h5, h6, h7, h8, h9, h10, h11⟩ :=
      ticks_blocked ha hp hh hr hc hpk j (by omega)
    have hpj : ∀ x, (sj.tasks x).priority < L := fun x => by rw [h3]; exact hp x
    obtain ⟨s2, k1, k2, k3, k4, k5, _⟩ := timerISR_spec h2 hpj
    have hrem : remainingOf t sj.pSleepHead = some ((n - (j + 1)) + 1) := by
      rw [h6]
      congr 1
      omega
    have hq := (tickQueue_remaining t sj.pSleepHead (n - (j + 1)) h5 hrem).2 (by omega)
    obtain ⟨m1, m2, m3⟩ := timerISR_parked h2 hq.1 h8 k1
    refine ⟨s2, ?_, k3, fun x => ?_, fun i => ?_, ?_, ?_, ?_, m1, ?_, fun i hi => ?_,
      fun i hi => ?_⟩
    · rw [ticks_succ, h1]
      exact k1
    · rw [k4, h3]
    · rw [k5, h4]
    · rw [k2]
      exact headNonzero_afterWakers _
    · rw [k2]
      exact hq.2
    · rw [k2, tickQueue_nodeCount_of_not_waker t _ hq.1]
      exact h7
    · rw [m2, h9]
    · exact m3 i (h10 i hi)
    · refine timerISR_semaList h2 (fun y hy => ?_) (h11 i hi) k1
      intro hm
      rw [List.mem_singleton] at hm
      exact hq.1 (hm ▸ hy)

theorem nodeCount_removeSleeper_self (t : TaskId) :
    ∀ (q : List DQNode), nodeCount t (removeSleeper t q) = nodeCount t q - 1
  | [] => rfl
  | m :: rest => by
    unfold removeSleeper
    split
    · rename_i hm
      cases rest with
      | nil => simp [nodeCount, hm]
      | cons m2 rest2 =>
        simp only [nodeCount, hm, if_true]
        omega
    · rename_i hm
      simp only [nodeCount, hm, if_false, nodeCount_removeSleeper_self t rest]
      omega

/-- A task without a node on the sleep queue is never taken off it: the ticks
run, none of them wakes the task, and its `timedOut` flag stays as it is. -/
theorem ticks_without_node {L : Nat} {t : TaskId} :
    ∀ (m : Nat) (s : Kernel) (a : TaskId), s.activeTask = some a →
      (∀ x, (s.tasks x).priority < L) → nodeCount t s.pSleepHead = 0 →
      ∃ s4, ticks L m s = some s4 ∧ t ∉ wakers (sleepDecrement s4.pSleepHead) ∧
        (s4.tasks t).timedOut = (s.tasks t).timedOut
  | 0, s, a, _, _, hc => by
    refine ⟨s, rfl, ?_, rfl⟩
    have := nodeCount_wakers t (sleepDecrement s.pSleepHead)
    rw [nodeCount_sleepDecrement, hc] at this
    exact List.count_eq_zero.mp (by omega)
  | m + 1, s, a, ha, hp, hc => by
    have hw : t ∉ wakers (sleepDecrement s.pSleepHead) := by
      have := nodeCount_wakers t (sleepDecrement s.pSleepHead)
      rw [nodeCount_sleepDecrement, hc] at this
      exact List.count_eq_zero.mp (by omega)
    obtain ⟨s2, k1, k2, ⟨b, k3⟩, k4, _, _⟩ := timerISR_spec ha hp
    have hc2 : nodeCount t s2.pSleepHead = 0 := by
      rw [k2, tickQueue_nodeCount_of_not_waker t _ hw]
      exact hc
    obtain ⟨s4, j1, j2, j3⟩ := ticks_without_node m s2 b k3
      (fun x => by rw [k4]; exact hp x) hc2
    refine ⟨s4, ?_, j2, ?_⟩
    · show (timerISR L s).bind (ticks L m) = some s4
      rw [k1]
      exact j1
    · rw [j3, timerISR_timedOut ha hw k1]

/-! ## The bookkeeping of the kernel under the operations -/

theorem detached_of_state {L : Nat} {s : Kernel} {x : TaskId} (h : QueuesOk L s)
    (hx : (s.tasks x).state = TASK_ACTIVE) : Detached x s := by
  refine ⟨fun p hm => ?_, fun i hm => ?_, ?_⟩
  · have := (h.ready_mem p x hm).2
    rw [hx] at this
    cases this
  · rcases h.sema_mem i x hm with h1 | h1 <;> rw [hx] at h1 <;> cases h1
  · by_contra hc
    rcases h.sleep_mem x hc with h1 | h1 <;> rw [hx] at h1 <;> cases h1

/-- A task on no queue may change to any state but Ready, and to any
priority that is a level of the scheduler. -/
theorem queuesOk_setState {L : Nat} {s s2 : Kernel} {x : TaskId} (h : QueuesOk L s)
    (hd : Detached x s) (hr : s2.readyList = s.readyList)
    (hs : ∀ i, (s2.semas i).taskList = (s.semas i).taskList)
    (hq : s2.pSleepHead = s.pSleepHead)
    (hp : ∀ y, y ≠ x → (s2.tasks y).priority = (s.tasks y).priority)
    (hpx : (s2.tasks x).priority < L)
    (ho : ∀ y, y ≠ x → (s2.tasks y).state = (s.tasks y).state)
    (hx : (s2.tasks x).state ≠ TASK_READY) : QueuesOk L s2 := by
  have hne : ∀ {y : TaskId}, (∃ p, y ∈ s.readyList p) ∨ (∃ i, y ∈ (s.semas i).taskList) ∨
      nodeCount y s.pSleepHead ≠ 0 → y ≠ x := by
    rintro y (⟨p, hy⟩ | ⟨i, hy⟩ | hy) rfl
    · exact hd.1 p hy
    · exact hd.2.1 i hy
    · exact hy hd.2.2
  refine ⟨fun y => ?_, fun p y hy => ?_, fun y hy => ?_, fun p => ?_, fun i y hy => ?_,
    fun i => ?_, fun i j y h1 h2 => ?_, fun y hy => ?_, fun y => ?_⟩
  · by_cases hyx : y = x
    · rw [hyx]
      exact hpx
    · rw [hp y hyx]
      exact h.prio y
  · rw [hr] at hy
    rw [hp y (hne (Or.inl ⟨p, hy⟩)), ho y (hne (Or.inl ⟨p, hy⟩))]
    exact h.ready_mem p y hy
  · have hyx : y ≠ x := fun e => hx (e ▸ hy)
    rw [ho y hyx] at hy
    rw [hr, hp y hyx]
    exact h.ready_state y hy
  · rw [hr]
    exact h.ready_nodup p
  · rw [hs] at hy
    rw [ho y (hne (Or.inr (Or.inl ⟨i, hy⟩)))]
    exact h.sema_mem i y hy
  · rw [hs]
    exact h.sema_nodup i
  · rw [hs] at h1
    rw [hs] at h2
    exact h.sema_disj i j y h1 h2
  · rw [hq] at hy
    rw [ho y (hne (Or.inr (Or.inr hy)))]
    exact h.sleep_mem y hy
  · rw [hq]
    exact h.sleep_nodup y

/-- Nothing the bookkeeping speaks of has changed. -/
theorem queuesOk_frame {L : Nat} {s s2 : Kernel} (h : QueuesOk L s)
    (hr : s2.readyList = s.readyList)
    (hs : ∀ i, (s2.semas i).taskList = (s.semas i).taskList)
    (hq : s2.pSleepHead = s.pSleepHead)
    (hp : ∀ y, (s2.tasks y).priority = (s.tasks y).priority)
    (ho : ∀ y, (s2.tasks y).state = (s.tasks y).state) : QueuesOk L s2 := by
  refine ⟨fun y => ?_, fun p y hy => ?_, fun y hy => ?_, fun p => ?_, fun i y hy => ?_,
    fun i => ?_, fun i j y h1 h2 => ?_, fun y hy => ?_, fun y => ?_⟩
  · rw [hp]
    exact h.prio y
  · rw [hr] at hy
    rw [hp, ho]
    exact h.ready_mem p y hy
  · rw [ho] at hy
    rw [hr, hp]
    exact h.ready_state y hy
  · rw [hr]
    exact h.ready_nodup p
  · rw [hs] at hy
    rw [ho]
    exact h.sema_mem i y hy
  · rw [hs]
    exact h.sema_nodup i
  · rw [hs] at h1
    rw [hs] at h2
    exact h.sema_disj i j y h1 h2
  · rw [hq] at hy
    rw [ho]
    exact h.sleep_mem y hy
  · rw [hq]
    exact h.sleep_nodup y

/-- Wait lists and the sleep queue may lose members. -/
theorem queuesOk_shrink {L : Nat} {s s2 : Kernel} (h : QueuesOk L s)
    (ht : s2.tasks = s.tasks) (hr : s2.readyList = s.readyList)
    (hs : ∀ i, ((s2.semas i).taskList).Sublist (s.semas i).taskList)
    (hq : ∀ x, nodeCount x s2.pSleepHead ≤ nodeCount x s.pSleepHead) : QueuesOk L s2 := by
  refine ⟨fun y => ?_, fun p y hy => ?_, fun y hy => ?_, fun p => ?_, fun i y hy => ?_,
    fun i => ?_, fun i j y h1 h2 => ?_, fun y hy => ?_, fun y => ?_⟩
  · rw [ht]
    exact h.prio y
  · rw [hr] at hy
    rw [ht]
    exact h.ready_mem p y hy
  · rw [ht] at hy
    rw [hr, ht]
    exact h.ready_state y hy
  · rw [hr]
    exact h.ready_nodup p
  · rw [ht]
    exact h.sema_mem i y ((hs i).subset hy)
  · exact (h.sema_nodup i).sublist (hs i)
  · exact h.sema_disj i j y ((hs i).subset h1) ((hs j).subset h2)
  · rw [ht]
    apply h.sleep_mem y
    have := hq y
    omega
  · exact le_trans (hq y) (h.sleep_nodup y)

/-- A task on no queue is made Ready and put on the ready queue of its
priority. -/
theorem queuesOk_addready {L : Nat} {s : Kernel} {x : TaskId} (h : QueuesOk L s)
    (hd : Detached x s) : QueuesOk L (addready x (makeTaskReady x s)) := by
  have hpx : ∀ y, ((addready x (makeTaskReady x s)).tasks y).priority = (s.tasks y).priority :=
    fun y => by simp
  have hsx : ((addready x (makeTaskReady x s)).tasks x).state = TASK_READY := by simp
  have hso : ∀ y, y ≠ x →
      ((addready x (makeTaskReady x s)).tasks y).state = (s.tasks y).state :=
    fun y hy => by simp [Function.update_noteq hy]
  have hrl : ∀ p y, y ∈ (addready x (makeTaskReady x s)).readyList p ↔
      y ∈ s.readyList p ∨ (p = (s.tasks x).priority ∧ y = x) := by
    intro p y
    have : (addready x (makeTaskReady x s)).readyList =
        Function.update s.readyList (s.tasks x).priority
          (s.readyList (s.tasks x).priority ++ [x]) := by
      simp
    rw [this]
    exact mem_update_append
  refine ⟨fun y => ?_, fun p y hy => ?_, fun y hy => ?_, fun p => ?_, fun i y hy => ?_,
    fun i => h.sema_nodup i, fun i j y h1 h2 => h.sema_disj i j y h1 h2, fun y hy => ?_,
    fun y => h.sleep_nodup y⟩
  · rw [hpx]
    exact h.prio y
  · rcases (hrl p y).mp hy with h1 | ⟨h1, h2⟩
    · have hyx : y ≠ x := fun e => hd.1 p (e ▸ h1)
      rw [hpx, hso y hyx]
      exact h.ready_mem p y h1
    · subst h2
      rw [hpx, hsx]
      exact ⟨h1.symm, rfl⟩
  · rw [hpx]
    by_cases hyx : y = x
    · subst hyx
      exact (hrl _ _).mpr (Or.inr ⟨rfl, rfl⟩)
    · rw [hso y hyx] at hy
      exact (hrl _ _).mpr (Or.inl (h.ready_state y hy))
  · have : (addready x (makeTaskReady x s)).readyList =
        Function.update s.readyList (s.tasks x).priority
          (s.readyList (s.tasks x).priority ++ [x]) := by
      simp
    rw [this]
    by_cases hp : p = (s.tasks x).priority
    · subst hp
      rw [Function.update_same]
      refine List.Nodup.append (h.ready_nodup _) (List.nodup_singleton x) ?_
      intro z hz1 hz2
      rw [List.mem_singleton] at hz2
      exact hd.1 _ (hz2 ▸ hz1)
    · rw [Function.update_noteq hp]
      exact h.ready_nodup p
  · have hy2 : y ∈ (s.semas i).taskList := hy
    have hyx : y ≠ x := fun e => hd.2.1 i (e ▸ hy2)
    rw [hso y hyx]
    exact h.sema_mem i y hy2
  · have hy2 : nodeCount y s.pSleepHead ≠ 0 := hy
    have hyx : y ≠ x := fun e => hy2 (e ▸ hd.2.2)
    rw [hso y hyx]
    exact h.sleep_mem y hy2

/-- A task on no wait list, blocked on a semaphore, goes to the back of a
wait list. -/
theorem queuesOk_semaAppend {L : Nat} {s : Kernel} {x : TaskId} (i : SemId)
    (h : QueuesOk L s) (hd : ∀ j, x ∉ (s.semas j).taskList)
    (hx : (s.tasks x).state = TASK_BLOCKED ∨ (s.tasks x).state = SEM_TIMED_BLOCKED) :
    QueuesOk L (s.modifySema i (fun m => { m with taskList := m.taskList ++ [x] })) := by
  have hl : ∀ j, ((s.modifySema i (fun m => { m with taskList := m.taskList ++ [x] })).semas
      j).taskList = if j = i then (s.semas i).taskList ++ [x] else (s.semas j).taskList := by
    intro j
    by_cases hj : j = i
    · subst hj
      simp
    · simp [Function.update_noteq hj, hj]
  have hm : ∀ j y, y ∈ ((s.modifySema i
      (fun m => { m with taskList := m.taskList ++ [x] })).semas j).taskList →
      y ∈ (s.semas j).taskList ∨ (j = i ∧ y = x) := by
    intro j y hy
    rw [hl] at hy
    by_cases hj : j = i
    · subst hj
      rw [if_pos rfl, List.mem_append, List.mem_singleton] at hy
      rcases hy with h1 | h1
      · exact Or.inl h1
      · exact Or.inr ⟨rfl, h1⟩
    · rw [if_neg hj] at hy
      exact Or.inl hy
  refine ⟨h.prio, h.ready_mem, h.ready_state, h.ready_nodup, fun j y hy => ?_, fun j => ?_,
    fun j k y h1 h2 => ?_, h.sleep_mem, h.sleep_nodup⟩
  · rcases hm j y hy with h1 | ⟨_, h1⟩
    · exact h.sema_mem j y h1
    · rw [h1]
      exact hx
  · rw [hl]
    by_cases hj : j = i
    · subst hj
      rw [if_pos rfl]
      refine List.Nodup.append (h.sema_nodup _) (List.nodup_singleton x) ?_
      intro z hz1 hz2
      rw [List.mem_singleton] at hz2
      exact hd _ (hz2 ▸ hz1)
    · rw [if_neg hj]
      exact h.sema_nodup j
  · rcases hm j y h1 with a1 | ⟨a1, a2⟩
    · rcases hm k y h2 with b1 | ⟨b1, b2⟩
      · exact h.sema_disj j k y a1 b1
      · exact absurd (b2 ▸ a1) (hd j)
    · rcases hm k y h2 with b1 | ⟨b1, b2⟩
      · exact absurd (a2 ▸ b1) (hd k)
      · rw [a1, b1]

/-- A task without a node on the sleep queue, sleeping or in a timed wait,
gets a node. -/
theorem queuesOk_addSleeper {L : Nat} {s : Kernel} {x : TaskId} (count : Nat)
    (h : QueuesOk L s) (hd : nodeCount x s.pSleepHead = 0)
    (hx : (s.tasks x).state = SLEEP_BLOCKED ∨ (s.tasks x).state = SEM_TIMED_BLOCKED) :
    QueuesOk L { s with pSleepHead := addSleeper x count s.pSleepHead } := by
  refine ⟨h.prio, h.ready_mem, h.ready_state, h.ready_nodup, h.sema_mem, h.sema_nodup,
    h.sema_disj, fun y hy => ?_, fun y => ?_⟩
  · have hy2 : nodeCount y (addSleeper x count s.pSleepHead) ≠ 0 := hy
    rw [nodeCount_addSleeper] at hy2
    by_cases hxy : x = y
    · subst hxy
      exact hx
    · rw [if_neg hxy, Nat.zero_add] at hy2
      exact h.sleep_mem y hy2
  · show nodeCount y (addSleeper x count s.pSleepHead) ≤ 1
    rw [nodeCount_addSleeper]
    by_cases hxy : x = y
    · subst hxy
      rw [if_pos rfl, hd]
    · rw [if_neg hxy, Nat.zero_add]
      exact h.sleep_nodup y

/-- The call of `resched` dispatches a Ready task and keeps the books. -/
theorem queuesOk_resched {L : Nat} {s s2 : Kernel} (h : QueuesOk L s)
    (hr : resched L s = some s2) : QueuesOk L s2 ∧ ActiveOk s2 := by
  obtain ⟨p, u, rest, _, hrest, hact, hrl, htasks, hsem, hq, _⟩ := resched_spec hr
  have hu := h.ready_mem p u (by rw [hrest]; exact List.mem_cons_self _ _)
  have hnd : (u :: rest).Nodup := hrest ▸ h.ready_nodup p
  have hurest : u ∉ rest := (List.nodup_cons.mp hnd).1
  have hpr : ∀ y, (s2.tasks y).priority = (s.tasks y).priority := resched_priority hr
  have hsu : (s2.tasks u).state = TASK_ACTIVE := by
    rw [htasks]
    simp
  have hso : ∀ y, y ≠ u → s2.tasks y = s.tasks y := fun y hy => by
    rw [htasks, Function.update_noteq hy]
  have hmem : ∀ q y, y ∈ s2.readyList q → y ∈ s.readyList q ∧ y ≠ u := by
    intro q y hy
    rw [hrl] at hy
    by_cases hqp : q = p
    · subst hqp
      rw [Function.update_same] at hy
      refine ⟨by rw [hrest]; exact List.mem_cons_of_mem _ hy, fun e => hurest (e ▸ hy)⟩
    · rw [Function.update_noteq hqp] at hy
      refine ⟨hy, fun e => ?_⟩
      subst e
      exact hqp ((h.ready_mem q y hy).1.symm.trans hu.1)
  have hnotU : ∀ y, (s.tasks y).state ≠ TASK_READY → y ≠ u := fun y hy e => hy (e ▸ hu.2)
  refine ⟨⟨fun y => ?_, fun q y hy => ?_, fun y hy => ?_, fun q => ?_, fun i y hy => ?_,
    fun i => ?_, fun i j y h1 h2 => ?_, fun y hy => ?_, fun y => ?_⟩, fun a ha => ?_⟩
  · rw [hpr]
    exact h.prio y
  · obtain ⟨h1, h2⟩ := hmem q y hy
    rw [hso y h2]
    exact h.ready_mem q y h1
  · have hyu : y ≠ u := by
      intro e
      rw [e, hsu] at hy
      cases hy
    rw [hso y hyu] at hy ⊢
    have := h.ready_state y hy
    rw [hrl]
    by_cases hqp : (s.tasks y).priority = p
    · rw [hqp, Function.update_same]
      rw [hqp, hrest] at this
      rcases List.mem_cons.mp this with e | e
      · exact absurd e hyu
      · exact e
    · rw [Function.update_noteq hqp]
      exact this
  · rw [hrl]
    by_cases hqp : q = p
    · subst hqp
      rw [Function.update_same]
      exact (List.nodup_cons.mp hnd).2
    · rw [Function.update_noteq hqp]
      exact h.ready_nodup q
  · rw [hsem] at hy
    have hst := h.sema_mem i y hy
    have hyu : y ≠ u := hnotU y (by rcases hst with e | e <;> rw [e] <;> decide)
    rw [hso y hyu]
    exact hst
  · rw [hsem]
    exact h.sema_nodup i
  · rw [hsem] at h1 h2
    exact h.sema_disj i j y h1 h2
  · rw [hq] at hy
    have hst := h.sleep_mem y hy
    have hyu : y ≠ u := hnotU y (by rcases hst with e | e <;> rw [e] <;> decide)
    rw [hso y hyu]
    exact hst
  · rw [hq]
    exact h.sleep_nodup y
  · rw [hact] at ha
    cases ha
    exact hsu

theorem nodeCount_removeSleeper_le (t y : TaskId) :
    ∀ (q : List DQNode), nodeCount y (removeSleeper t q) ≤ nodeCount y q
  | [] => Nat.le_refl _
  | m :: rest => by
    unfold removeSleeper
    split
    · cases rest with
      | nil => simp [nodeCount]
      | cons m2 rest2 =>
        simp only [nodeCount]
        omega
    · have := nodeCount_removeSleeper_le t y rest
      simp only [nodeCount]
      omega

theorem filter_ne_eq_self {l : List TaskId} {x : TaskId} (h : x ∉ l) :
    l.filter (fun z => decide (z ≠ x)) = l := by
  apply List.filter_eq_self.mpr
  intro z hz
  simp only [decide_eq_true_eq]
  exact fun e => h (e ▸ hz)

/-- The call `t->mylink.remove()` keeps the books; afterwards the task is on
no wait list. -/
theorem queuesOk_unlink {L : Nat} {s : Kernel} {x : TaskId} (h : QueuesOk L s)
    (hx : ∀ p, x ∉ s.readyList p) :
    QueuesOk L (unlink x s) ∧ ∀ i, x ∉ ((unlink x s).semas i).taskList := by
  refine ⟨queuesOk_shrink h rfl ?_ (fun i => ?_) (fun y => Nat.le_refl _), fun i hm => ?_⟩
  · funext p
    exact filter_ne_eq_self (hx p)
  · exact List.filter_sublist _
  · have := (List.mem_filter.mp hm).2
    simp at this

theorem sleep_ok {L : Nat} {s s2 : Kernel} (ticks : Nat) (h : QueuesOk L s) (ha : ActiveOk s)
    (hs : ARTK_Sleep L ticks s = some s2) : QueuesOk L s2 ∧ ActiveOk s2 := by
  unfold ARTK_Sleep at hs
  split at hs
  · cases hs
  · rename_i a hact
    have hst := ha a hact
    have hd := detached_of_state h hst
    unfold task_sleep at hs
    split at hs
    · have h1 : QueuesOk L (makeTaskSleepBlocked a s) :=
        queuesOk_setState h hd rfl (fun _ => rfl) rfl
          (fun y hy => by simp [Function.update_noteq hy]) (by simpa using h.prio a)
          (fun y hy => by simp [Function.update_noteq hy]) (by simp)
      have h2 := queuesOk_addSleeper (x := a) ticks h1 hd.2.2 (Or.inl (by simp))
      exact queuesOk_resched h2 hs
    · cases hs
      exact ⟨h, ha⟩

theorem yield_ok {L : Nat} {s s2 : Kernel} (h : QueuesOk L s) (ha : ActiveOk s)
    (hs : ARTK_Yield L s = some s2) : QueuesOk L s2 ∧ ActiveOk s2 := by
  unfold ARTK_Yield relinquish at hs
  split at hs
  · cases hs
  · rename_i a hact
    exact queuesOk_resched (queuesOk_addready h (detached_of_state h (ha a hact))) hs

theorem wait_ok {L : Nat} {s s2 : Kernel} (i : SemId) (h : QueuesOk L s) (ha : ActiveOk s)
    (hs : Semaphore.wait L i s = some s2) : QueuesOk L s2 ∧ ActiveOk s2 := by
  unfold Semaphore.wait at hs
  simp only at hs
  split at hs
  · cases hs
    refine ⟨queuesOk_frame h rfl (fun j => ?_) rfl (fun _ => rfl) (fun _ => rfl), ha⟩
    by_cases hj : j = i
    · subst hj
      simp
    · simp [Function.update_noteq hj]
  · split at hs
    · cases hs
    · rename_i a hact
      have hact2 : s.activeTask = some a := hact
      have hst := ha a hact2
      have hd := detached_of_state h hst
      have h1 : QueuesOk L (makeTaskBlocked a (cli s)) :=
        queuesOk_setState h hd rfl (fun _ => rfl) rfl
          (fun y hy => by simp [Function.update_noteq hy]) (by simpa using h.prio a)
          (fun y hy => by simp [Function.update_noteq hy]) (by simp)
      have h2 := queuesOk_semaAppend (x := a) i h1 hd.2.1 (Or.inl (by simp))
      exact queuesOk_resched h2 hs

theorem timedBlocked_ok {L : Nat} {s : Kernel} {a : TaskId} (i : SemId) (timeout : Nat)
    (h : QueuesOk L s) (hst : (s.tasks a).state = TASK_ACTIVE) :
    QueuesOk L (Semaphore.timedBlocked i a timeout s) := by
  have hd := detached_of_state h hst
  have h1 : QueuesOk L (makeTaskSemaphoreTimedBlocked a (cli (setTimedOut a false s))) :=
    queuesOk_setState h hd rfl (fun _ => rfl) rfl
      (fun y hy => by simp [Function.update_noteq hy]) (by simpa using h.prio a)
      (fun y hy => by simp [Function.update_noteq hy]) (by simp)
  have h2 := queuesOk_addSleeper (x := a) timeout h1 hd.2.2 (Or.inr (by simp))
  exact queuesOk_semaAppend (x := a) i h2 hd.2.1 (Or.inr (by simp))

theorem waitTimed_ok {L : Nat} {s : Kernel} {r : Kernel × WaitOutcome} (i : SemId)
    (timeout : Nat) (h : QueuesOk L s) (ha : ActiveOk s)
    (hs : Semaphore.waitTimed L i timeout s = some r) : QueuesOk L r.1 ∧ ActiveOk r.1 := by
  unfold Semaphore.waitTimed at hs
  split at hs
  · cases hs
  · rename_i a hact
    have hst := ha a hact
    have hfr : ∀ (k : Kernel), k.readyList = s.readyList →
        (∀ j, (k.semas j).taskList = (s.semas j).taskList) → k.pSleepHead = s.pSleepHead →
        k.tasks = (setTimedOut a false s).tasks → k.activeTask = s.activeTask →
        QueuesOk L k ∧ ActiveOk k := by
      intro k e1 e2 e3 e4 e5
      refine ⟨queuesOk_frame h e1 e2 e3 (fun y => ?_) (fun y => ?_), fun b hb => ?_⟩
      · rw [e4]
        simp
      · rw [e4]
        by_cases hy : y = a
        · subst hy
          simp
        · simp [Function.update_noteq hy]
      · rw [e5] at hb
        rw [e4]
        have := ha b hb
        by_cases hy : b = a
        · subst hy
          simpa using this
        · simpa [Function.update_noteq hy] using this
    simp only at hs
    split at hs
    · cases hs
      refine hfr _ rfl (fun j => ?_) rfl rfl rfl
      by_cases hj : j = i
      · subst hj
        simp
      · simp [Function.update_noteq hj]
    · split at hs
      · cases hs
        exact hfr _ rfl (fun j => rfl) rfl rfl rfl
      · simp only [Option.map_eq_some'] at hs
        obtain ⟨s4, h4, rfl⟩ := hs
        exact queuesOk_resched (timedBlocked_ok i timeout h hst) h4

theorem signalWake_tasks_other {x y : TaskId} (h : y ≠ x) (s : Kernel) :
    (Semaphore.signalWake x s).tasks y = s.tasks y := by
  unfold Semaphore.signalWake
  simp only
  split <;> simp [Function.update_noteq h]

theorem signalWake_ok {L : Nat} {s : Kernel} {x : TaskId} (h : QueuesOk L s)
    (hx : (s.tasks x).state = TASK_BLOCKED ∨ (s.tasks x).state = SEM_TIMED_BLOCKED)
    (hd : ∀ i, x ∉ (s.semas i).taskList) : QueuesOk L (Semaphore.signalWake x s) := by
  have hnr : ∀ p, x ∉ s.readyList p := by
    intro p hm
    have := (h.ready_mem p x hm).2
    rcases hx with e | e <;> rw [e] at this <;> cases this
  unfold Semaphore.signalWake
  simp only
  have h1 : QueuesOk L (setTimedOut x false s) :=
    queuesOk_frame h rfl (fun _ => rfl) rfl (fun y => by simp) (fun y => by
      by_cases hy : y = x
      · subst hy
        simp
      · simp [Function.update_noteq hy])
  split
  · rename_i hst
    have h2 : QueuesOk L { setTimedOut x false s with
        pSleepHead := removeSleeper x (setTimedOut x false s).pSleepHead } :=
      queuesOk_shrink h1 rfl rfl (fun _ => List.Sublist.refl _)
        (fun y => nodeCount_removeSleeper_le x y _)
    refine queuesOk_addready h2 ⟨hnr, hd, ?_⟩
    show nodeCount x (removeSleeper x s.pSleepHead) = 0
    rw [nodeCount_removeSleeper_self]
    have := h.sleep_nodup x
    omega
  · rename_i hst
    have hst2 : (s.tasks x).state ≠ SEM_TIMED_BLOCKED := by simpa using hst
    refine queuesOk_addready h1 ⟨hnr, hd, ?_⟩
    show nodeCount x s.pSleepHead = 0
    by_contra hc
    rcases h.sleep_mem x hc with e | e
    · rcases hx with e2 | e2 <;> rw [e] at e2 <;> cases e2
    · exact hst2 e

theorem signal_ok {L : Nat} {s s2 : Kernel} (i : SemId) (h : QueuesOk L s) (ha : ActiveOk s)
    (hs : Semaphore.signal L i s = some s2) : QueuesOk L s2 ∧ ActiveOk s2 := by
  cases hl : (s.semas i).taskList with
  | nil =>
    rw [signal_nil hl] at hs
    cases hs
    refine ⟨queuesOk_frame h rfl (fun j => ?_) rfl (fun _ => rfl) (fun _ => rfl), ha⟩
    by_cases hj : j = i
    · subst hj
      simp
    · simp [Function.update_noteq hj]
  | cons x rest =>
    cases hact : s.activeTask with
    | none =>
      unfold Semaphore.signal at hs
      simp only [Kernel.modifySema, cli, Function.update_same, hl] at hs
      rw [signalWake_activeTask] at hs
      simp [hact] at hs
    | some a =>
      rw [signal_cons hact hl] at hs
      have hx := h.sema_mem i x (by rw [hl]; exact List.mem_cons_self _ _)
      have hnd : (x :: rest).Nodup := hl ▸ h.sema_nodup i
      have hg : QueuesOk L (Semaphore.granted i rest s) := by
        refine queuesOk_shrink h rfl rfl (fun j => ?_) (fun y => Nat.le_refl _)
        rw [granted_semas]
        by_cases hj : j = i
        · subst hj
          rw [if_pos rfl, hl]
          exact List.sublist_cons_self x rest
        · rw [if_neg hj]
      have hdx : ∀ j, x ∉ ((Semaphore.granted i rest s).semas j).taskList := by
        intro j hm
        rw [granted_semas] at hm
        by_cases hj : j = i
        · subst hj
          rw [if_pos rfl] at hm
          exact (List.nodup_cons.mp hnd).1 hm
        · rw [if_neg hj] at hm
          exact hj (h.sema_disj j i x hm (by rw [hl]; exact List.mem_cons_self _ _))
      have hw : QueuesOk L (Semaphore.signalWake x (Semaphore.granted i rest s)) :=
        signalWake_ok hg hx hdx
      have hsa := ha a hact
      have hax : a ≠ x := by
        intro e
        subst e
        rcases hx with e2 | e2 <;> rw [hsa] at e2 <;> cases e2
      have hsa2 : ((Semaphore.signalWake x (Semaphore.granted i rest s)).tasks a).state =
          TASK_ACTIVE := by
        rw [signalWake_tasks_other hax]
        exact hsa
      split at hs
      · simp only [Option.map_eq_some'] at hs
        obtain ⟨s4, h4, rfl⟩ := hs
        have := queuesOk_resched (queuesOk_addready hw (detached_of_state hw hsa2)) h4
        exact ⟨queuesOk_frame this.1 rfl (fun _ => rfl) rfl (fun _ => rfl) (fun _ => rfl),
          this.2⟩
      · cases hs
        refine ⟨queuesOk_frame hw rfl (fun _ => rfl) rfl (fun _ => rfl) (fun _ => rfl), ?_⟩
        intro b hb
        have hb2 : (Semaphore.signalWake x (Semaphore.granted i rest s)).activeTask = some b := hb
        rw [signalWake_activeTask] at hb2
        have hb3 : s.activeTask = some b := hb2
        rw [hact] at hb3
        cases hb3
        exact hsa2

theorem wakeTask_sleepQueue (x : TaskId) (q : List DQNode) (s : Kernel) :
    { wakeTask x s with pSleepHead := q } = wakeTask x { s with pSleepHead := q } := by
  unfold wakeTask
  simp only
  split <;> rfl

theorem wakeTask_ok {L : Nat} {s : Kernel} {x : TaskId} (h : QueuesOk L s)
    (hx : (s.tasks x).state = SLEEP_BLOCKED ∨ (s.tasks x).state = SEM_TIMED_BLOCKED)
    (hd : nodeCount x s.pSleepHead = 0) : QueuesOk L (wakeTask x s) := by
  have hnr : ∀ p, x ∉ s.readyList p := by
    intro p hm
    have := (h.ready_mem p x hm).2
    rcases hx with e | e <;> rw [e] at this <;> cases this
  unfold wakeTask
  simp only
  split
  · have h1 : QueuesOk L (setTimedOut x true s) :=
      queuesOk_frame h rfl (fun _ => rfl) rfl (fun y => by simp) (fun y => by
        by_cases hy : y = x
        · subst hy
          simp
        · simp [Function.update_noteq hy])
    obtain ⟨h2, h3⟩ := queuesOk_unlink (x := x) h1 hnr
    refine queuesOk_addready h2 ⟨fun p hm => ?_, h3, hd⟩
    exact hnr p (List.mem_of_mem_filter hm)
  · rename_i hst
    refine queuesOk_addready h ⟨hnr, fun i hm => ?_, hd⟩
    rcases h.sema_mem i x hm with e | e
    · rcases hx with e2 | e2 <;> rw [e] at e2 <;> cases e2
    · exact hst e

theorem wakeLoop_ok {L : Nat} (a : TaskId) :
    ∀ (q : List DQNode) (s : Kernel) (need : Bool),
      QueuesOk L { s with pSleepHead := q } → (s.tasks a).state = TASK_ACTIVE →
      QueuesOk L (wakeLoop a q s need).1 ∧ ((wakeLoop a q s need).1.tasks a).state = TASK_ACTIVE
  | [], s, _, h, ha => ⟨h, ha⟩
  | n :: rest, s, need, h, ha => by
    unfold wakeLoop
    split
    · have hc1 : nodeCount n.pTask (n :: rest) = 1 + nodeCount n.pTask rest := by
        simp [nodeCount]
      have hle := h.sleep_nodup n.pTask
      have hle2 : nodeCount n.pTask (n :: rest) ≤ 1 := hle
      have hx := h.sleep_mem n.pTask (by
        show nodeCount n.pTask (n :: rest) ≠ 0
        omega)
      have hx2 : (s.tasks n.pTask).state = SLEEP_BLOCKED ∨
          (s.tasks n.pTask).state = SEM_TIMED_BLOCKED := hx
      have hna : n.pTask ≠ a := by
        intro e
        rw [e, ha] at hx2
        rcases hx2 with e2 | e2 <;> cases e2
      have hk : QueuesOk L { s with pSleepHead := rest } := by
        refine queuesOk_shrink h rfl rfl (fun _ => List.Sublist.refl _) (fun y => ?_)
        show nodeCount y rest ≤ nodeCount y (n :: rest)
        simp only [nodeCount]
        omega
      have hw := wakeTask_ok (x := n.pTask) hk hx2 (by
        show nodeCount n.pTask rest = 0
        omega)
      rw [← wakeTask_sleepQueue] at hw
      refine wakeLoop_ok a rest (wakeTask n.pTask s) _ hw ?_
      rw [wakeTask_tasks_other hna]
      exact ha
    · exact ⟨h, ha⟩

theorem nodeCount_sleepDecrement_le (q : List DQNode) (y : TaskId) :
    nodeCount y (sleepDecrement q) ≤ nodeCount y q := by
  rw [nodeCount_sleepDecrement]

theorem tick_ok {L : Nat} {s s2 : Kernel} (h : QueuesOk L s) (ha : ActiveOk s)
    (hs : timerISR L s = some s2) : QueuesOk L s2 ∧ ActiveOk s2 := by
  have hdec : QueuesOk L { cli s with pSleepHead := sleepDecrement s.pSleepHead } :=
    queuesOk_shrink h rfl rfl (fun _ => List.Sublist.refl _)
      (fun y => nodeCount_sleepDecrement_le _ y)
  cases hact : s.activeTask with
  | none =>
    unfold timerISR at hs
    simp only [hact] at hs
    split at hs
    · cases hs
      refine ⟨queuesOk_frame hdec rfl (fun _ => rfl) rfl (fun _ => rfl) (fun _ => rfl), ?_⟩
      intro b hb
      have hb2 : s.activeTask = some b := hb
      rw [hact] at hb2
      cases hb2
    · cases hs
  | some a =>
    rw [timerISR_unfold hact] at hs
    have hsa := ha a hact
    obtain ⟨w1, w2⟩ := wakeLoop_ok (L := L) a (sleepDecrement s.pSleepHead) (cli s) false
      hdec hsa
    split at hs
    · simp only [Option.map_eq_some'] at hs
      obtain ⟨s4, h4, rfl⟩ := hs
      have := queuesOk_resched (queuesOk_addready w1 (detached_of_state w1 w2)) h4
      exact ⟨queuesOk_frame this.1 rfl (fun _ => rfl) rfl (fun _ => rfl) (fun _ => rfl),
        this.2⟩
    · cases hs
      refine ⟨queuesOk_frame w1 rfl (fun _ => rfl) rfl (fun _ => rfl) (fun _ => rfl), ?_⟩
      intro b hb
      have hb2 : (wakeLoop a (sleepDecrement s.pSleepHead) (cli s) false).1.activeTask =
          some b := hb
      rw [wakeLoop_activeTask] at hb2
      have hb3 : s.activeTask = some b := hb2
      rw [hact] at hb3
      cases hb3
      exact w2

theorem exit_ok {L : Nat} {s s2 : Kernel} (h : QueuesOk L s) (ha : ActiveOk s)
    (hs : taskDone L s = some s2) : QueuesOk L s2 ∧ ActiveOk s2 := by
  unfold taskDone at hs
  split at hs
  · cases hs
  · rename_i a hact
    have hsa := ha a hact
    have hd := detached_of_state h hsa
    obtain ⟨h1, _⟩ := queuesOk_unlink (x := a) h hd.1
    unfold removeTask at hs
    simp only at hs
    split at hs
    · cases hs
      exact ⟨queuesOk_frame h1 rfl (fun _ => rfl) rfl (fun _ => rfl) (fun _ => rfl), ha⟩
    · have hk : QueuesOk L
          { removeready a s with numTasks := (removeready a s).numTasks - 1 } :=
        queuesOk_frame h1 rfl (fun _ => rfl) rfl (fun _ => rfl) (fun _ => rfl)
      exact queuesOk_resched hk hs

theorem step_ok {L : Nat} {s s2 : Kernel} (op : KOp) (h : QueuesOk L s) (ha : ActiveOk s)
    (hs : op.step L s = some s2) : QueuesOk L s2 ∧ ActiveOk s2 := by
  cases op with
  | sleep ticks => exact sleep_ok ticks h ha hs
  | yield => exact yield_ok h ha hs
  | wait i => exact wait_ok i h ha hs
  | waitTimed i timeout =>
    simp only [KOp.step, Option.map_eq_some'] at hs
    obtain ⟨r, hr2, rfl⟩ := hs
    exact waitTimed_ok i timeout h ha hr2
  | signal i => exact signal_ok i h ha hs
  | tick => exact tick_ok h ha hs
  | exit => exact exit_ok h ha hs

theorem createTask_ok {L : Nat} (hL : 0 < L) {s : Kernel} (t : TaskId) (isIdle : Bool)
    (priority stacksize : Nat) (stackOk : Bool) (hf : Fresh t s) (h : QueuesOk L s) :
    QueuesOk L (ARTK_CreateTask L t isIdle priority stacksize stackOk s) := by
  have hd : Detached t s := ⟨hf.1, hf.2.1, nodeCount_eq_zero.mpr hf.2.2.1⟩
  have hnr : (s.tasks t).state ≠ TASK_READY := fun e => hd.1 _ (h.ready_state t e)
  unfold ARTK_CreateTask Task.create addNewTask
  simp only
  split
  · refine queuesOk_addready (queuesOk_setState h hd rfl (fun _ => rfl) rfl
      (fun y hy => ?_) ?_ (fun y hy => ?_) ?_) hd
    · simp [Function.update_noteq hy]
    · simpa using createTask_priority_lt hL isIdle priority
    · simp [Function.update_noteq hy]
    · simpa using hnr
  · exact h

theorem setup_ok {L : Nat} (hL : 0 < L) {s : Kernel} (h : Setup L s) :
    QueuesOk L s ∧ s.activeTask = none := by
  induction h with
  | init =>
    refine ⟨⟨fun _ => hL, fun p x hx => absurd hx (List.not_mem_nil _), fun x hx => ?_,
      fun _ => List.nodup_nil, fun i x hx => absurd hx (List.not_mem_nil _),
      fun _ => List.nodup_nil, fun i j x hx => absurd hx (List.not_mem_nil _),
      fun x hx => absurd rfl hx, fun x => Nat.zero_le _⟩, rfl⟩
    simp [Kernel.init] at hx
  | createTask t isIdle priority stacksize stackOk _ hf ih =>
    refine ⟨createTask_ok hL t isIdle priority stacksize stackOk hf ih.1, ?_⟩
    unfold ARTK_CreateTask Task.create addNewTask
    simp only
    split
    · exact ih.2
    · exact ih.2
  | createSema i c _ ih =>
    refine ⟨queuesOk_shrink ih.1 rfl rfl (fun j => ?_) (fun y => Nat.le_refl _), ih.2⟩
    by_cases hj : j = i
    · subst hj
      simp [ARTK_CreateSema, Semaphore.create]
    · simp [ARTK_CreateSema, Semaphore.create, Function.update_noteq hj]

/-- In a running kernel the queues agree with the task states and the active
task is in the Active state. -/
theorem running_ok {L : Nat} (hL : 0 < L) {s : Kernel} (h : Running L s) :
    QueuesOk L s ∧ ActiveOk s := by
  induction h with
  | start h0 hs => exact queuesOk_resched (setup_ok hL h0).1 hs
  | step op _ hs ih => exact step_ok op ih.1 ih.2 hs

/-- C3, as amended: in every sleep queue built from the empty queue by
insertions (of a task that has no node, with a positive `unsigned int` count),
runs of the tick handler (`sleepDecrement`, then `removeWaker` until it
returns no task) and cancellations, the deltas of nodes `0..k` add up to the
true remaining ticks of the task of node `k`: the count it was inserted with
minus the ticks since. -/
theorem sleepQueue_prefixSum_eq_remaining {q : List DQNode} {r : TaskId → Int}
    (h : SleepReach q r) (k : Nat) (hk : k < q.length) :
    ((prefixSum q k : Nat) : Int) = r (q.get ⟨k, hk⟩).pTask := by
  have := tracks_prefixSum q 0 (sleepReach_inv h).1 k hk
  rw [this, Nat.zero_add]

theorem sleepQueue_prefixSum_eq_remaining_witness :
    SleepReach (addSleeper 2 3 (tickQueue (addSleeper 1 5 [])))
        (Function.update (fun x => Function.update (fun _ => (0 : Int)) 1 ((5 : Nat) : Int) x - 1) 2
          ((3 : Nat) : Int)) ∧
      ((prefixSum (addSleeper 2 3 (tickQueue (addSleeper 1 5 []))) 1 : Nat) : Int) = 4 := by
  have hr : SleepReach (addSleeper 2 3 (tickQueue (addSleeper 1 5 [])))
      (Function.update (fun x => Function.update (fun _ => (0 : Int)) 1 ((5 : Nat) : Int) x - 1) 2
        ((3 : Nat) : Int)) :=
    SleepReach.insert 2 3
      (SleepReach.tick (SleepReach.insert 1 5 SleepReach.empty (by decide) (by decide) (by simp)))
      (by decide) (by decide) (by decide)
  exact ⟨hr, (sleepQueue_prefixSum_eq_remaining hr 1 (by decide)).trans (by decide)⟩

/-- C3 as stated fails: after `addSleeper(A, 1)`, `sleepDecrement`,
`addSleeper(B, 3)`, `sleepDecrement`, the head delta has wrapped to 65535 and
the prefix sum of the node of B is 65538, while B has 2 ticks left. -/
theorem sleepQueue_prefixSum_counterexample :
    ¬ ∀ (ops : List SleepOp) (k : Nat) (hk : k < (runSleepOps ops ([], fun _ => 0)).1.length),
        ((prefixSum (runSleepOps ops ([], fun _ => 0)).1 k : Nat) : Int) =
          (runSleepOps ops ([], fun _ => 0)).2
            ((runSleepOps ops ([], fun _ => 0)).1.get ⟨k, hk⟩).pTask := by
  intro h
  have h1 := h [SleepOp.insert 1 1, SleepOp.tick, SleepOp.insert 2 3, SleepOp.tick] 1 (by decide)
  revert h1
  decide

/-- C1: when some ready queue is not empty, `resched` returns with, as the
active task, the front of the non-empty ready queue of the highest priority:
every queue of a higher priority is empty, the chosen task is taken off the
front of its queue and the rest stays in order; and as `addready` puts a task
behind all tasks already in its queue, that front is the task of this priority
that was enqueued first. -/
theorem resched_picks_front_of_highest (L : Nat) (s : Kernel)
    (h : ∃ p, p < L ∧ s.readyList p ≠ []) :
    ∃ (p : Nat) (t : TaskId) (rest : List TaskId) (s2 : Kernel),
      p < L ∧ s.readyList p = t :: rest ∧ (∀ q, p < q → q < L → s.readyList q = []) ∧
      resched L s = some s2 ∧ s2.activeTask = some t ∧ (s2.tasks t).state = TASK_ACTIVE ∧
      s2.readyList p = rest ∧ (∀ q, q ≠ p → s2.readyList q = s.readyList q) ∧
      ∀ x : TaskId, (addready x s).readyList (s.tasks x).priority =
        s.readyList (s.tasks x).priority ++ [x] := by
  obtain ⟨s2, hs2⟩ := resched_isSome L s h
  obtain ⟨p, t, rest, hpick, hrest, hact, hrl, htasks, _⟩ := resched_spec hs2
  obtain ⟨hp, _, hhigh⟩ := pickReady_spec s.readyList L p t hpick
  refine ⟨p, t, rest, s2, hp, hrest, hhigh, hs2, hact, ?_, ?_, ?_, ?_⟩
  · rw [htasks]
    simp
  · rw [hrl]
    simp
  · intro q hq
    rw [hrl, Function.update_noteq hq]
  · intro x
    simp [addready]

theorem twoTasks_setup : Setup 17 twoTasks := by
  refine Setup.createTask 0 true 0 256 true (Setup.createTask 1 false 3 256 true Setup.init ?_) ?_
  · exact ⟨fun p => by simp [Kernel.init], fun i => by simp [Kernel.init],
      fun n hn => by simp [Kernel.init] at hn, by simp [Kernel.init]⟩
  · refine ⟨fun p => ?_, fun i => by simp [ARTK_CreateTask, Task.create, addNewTask, Kernel.init],
      fun n hn => by simp [ARTK_CreateTask, Task.create, addNewTask, Kernel.init] at hn,
      by simp [ARTK_CreateTask, Task.create, addNewTask, Kernel.init]⟩
    show 0 ∉ Function.update (fun _ => ([] : List TaskId)) 3 [1] p
    by_cases hp : p = 3
    · subst hp
      simp
    · simp [Function.update_noteq hp]

theorem twoTasksStarted_running : Running 17 twoTasksStarted :=
  Running.start twoTasks_setup rfl

/-- C2, as amended: in every state of a kernel that `setup` has started and
that has since gone through any sequence of sleep, yield, semaphore wait (both
forms), signal, tick and task exit, with no task created since the start,
there is an active task and no Ready task has a priority above the active
task's: neither a task in the Ready state nor a task on a ready queue. The
creation of a task does not call `resched`: it leaves the active task as it
is, and the new task waits on its ready queue, in the Ready state, whatever
its priority. -/
theorem highest_ready_runs (L : Nat) (hL : 0 < L) (s : Kernel) (h : Running L s) :
    HighestReadyRuns s ∧ HighestRuns s ∧
    ∀ (t : TaskId) (isIdle : Bool) (priority stacksize : Nat),
      (ARTK_CreateTask L t isIdle priority stacksize true s).activeTask = s.activeTask ∧
      ((ARTK_CreateTask L t isIdle priority stacksize true s).tasks t).state = TASK_READY ∧
      t ∈ (ARTK_CreateTask L t isIdle priority stacksize true s).readyList
        ((ARTK_CreateTask L t isIdle priority stacksize true s).tasks t).priority := by
  obtain ⟨a, h1, h2⟩ := (running_inv hL h).2
  refine ⟨⟨a, h1, fun x hx => h2 _ x ((running_ok hL h).1.ready_state x hx)⟩, ⟨a, h1, h2⟩,
    fun t isIdle priority stacksize => ?_⟩
  simp [ARTK_CreateTask, Task.create, addNewTask]

theorem highest_ready_runs_witness :
    0 < 17 ∧ Running 17 twoTasksStarted ∧ HighestReadyRuns twoTasksStarted :=
  ⟨by decide, twoTasksStarted_running,
    (highest_ready_runs 17 (by decide) twoTasksStarted twoTasksStarted_running).1⟩

/-- C2 as stated fails: with the idle task and a task of priority 3 created
and multitasking started, the task of priority 3 (at address 1) is active;
when it creates a task of priority 5 (at address 2), it is still the active
task, and the new task is in the Ready state on the queue of priority 5. -/
theorem create_does_not_preempt :
    startMultiTasking 17 twoTasks = some twoTasksStarted ∧
    twoTasksStarted.activeTask = some 1 ∧ (twoTasksStarted.tasks 1).priority = 3 ∧
    thirdCreated.activeTask = some 1 ∧ (thirdCreated.tasks 1).priority = 3 ∧
    (thirdCreated.tasks 2).state = TASK_READY ∧ (thirdCreated.tasks 2).priority = 5 ∧
    thirdCreated.readyList 5 = [2] ∧ ¬ HighestReadyRuns thirdCreated := by
  refine ⟨rfl, by decide, by decide, by decide, by decide, by decide, by decide, by decide, ?_⟩
  rintro ⟨a, ha, h⟩
  have ha1 : thirdCreated.activeTask = some 1 := by decide
  have : a = 1 := Option.some.inj (ha.symm.trans ha1)
  subst this
  have h5 := h 2 (by decide)
  revert h5
  decide

theorem resched_picks_front_of_highest_witness :
    (∃ p, p < 17 ∧ twoTasks.readyList p ≠ []) ∧
    ∃ (p : Nat) (t : TaskId) (rest : List TaskId) (s2 : Kernel),
      p < 17 ∧ twoTasks.readyList p = t :: rest ∧
      (∀ q, p < q → q < 17 → twoTasks.readyList q = []) ∧
      resched 17 twoTasks = some s2 ∧ s2.activeTask = some t ∧
      (s2.tasks t).state = TASK_ACTIVE ∧
      s2.readyList p = rest ∧ (∀ q, q ≠ p → s2.readyList q = twoTasks.readyList q) ∧
      ∀ x : TaskId, (addready x twoTasks).readyList (twoTasks.tasks x).priority =
        twoTasks.readyList (twoTasks.tasks x).priority ++ [x] :=
  ⟨⟨3, by decide, by decide⟩,
    resched_picks_front_of_highest 17 twoTasks ⟨3, by decide, by decide⟩⟩

theorem oneSleeping_running : Running 17 oneSleeping :=
  Running.step (KOp.sleep 2) twoTasksStarted_running rfl

theorem not_mem_update {rl : Nat → List TaskId} {q p : Nat} {l : List TaskId} {t : TaskId}
    (h1 : t ∉ l) (h2 : ∀ p, t ∉ rl p) : t ∉ Function.update rl q l p := by
  by_cases hp : p = q
  · subst hp
    rw [Function.update_same]
    exact h1
  · rw [Function.update_noteq hp]
    exact h2 p

theorem threeTasks_setup : Setup 17 threeTasks := by
  refine Setup.createSema 0 0 (Setup.createTask 0 true 0 256 true
    (Setup.createTask 2 false 5 256 true
      (Setup.createTask 1 false 3 256 true Setup.init ?_) ?_) ?_)
  · exact ⟨fun p => by simp [Kernel.init], fun i => by simp [Kernel.init],
      fun n hn => by simp [Kernel.init] at hn, by simp [Kernel.init]⟩
  · exact ⟨fun p => not_mem_update (by decide) (fun p => List.not_mem_nil _),
      fun i => List.not_mem_nil _, fun n hn => absurd hn (List.not_mem_nil _), by decide⟩
  · exact ⟨fun p => not_mem_update (by decide)
        (fun p => not_mem_update (by decide) (fun p => List.not_mem_nil _)),
      fun i => List.not_mem_nil _, fun n hn => absurd hn (List.not_mem_nil _), by decide⟩

theorem threeStarted_running : Running 17 threeStarted :=
  Running.start threeTasks_setup rfl

theorem highWaits_running : Running 17 highWaits :=
  Running.step (KOp.wait 0) threeStarted_running rfl

theorem bothWait_running : Running 17 bothWait :=
  Running.step (KOp.wait 0) highWaits_running rfl

/-- C10: `wait(0)` on a semaphore whose count is not positive, called by the
active task, returns `TIMED_OUT` at once: the count and the wait list of
every semaphore, the sleep queue, the ready queues, the active task and the
state of every task (the caller's in particular) are what they were. -/
theorem waitTimed_zero_returns (L : Nat) (s : Kernel) (i : SemId) (a : TaskId)
    (ha : s.activeTask = some a) (hc : (s.semas i).count ≤ 0) :
    ∃ s2, Semaphore.waitTimed L i 0 s = some (s2, WaitOutcome.returned TIMED_OUT) ∧
      s2.semas = s.semas ∧ s2.pSleepHead = s.pSleepHead ∧ s2.readyList = s.readyList ∧
      s2.activeTask = s.activeTask ∧ (∀ x, (s2.tasks x).state = (s.tasks x).state) ∧
      (s2.tasks a).state = (s.tasks a).state := by
  have hc2 : ¬ (s.semas i).count > 0 := by omega
  have hst : ∀ x, ((setTimedOut a false s).tasks x).state = (s.tasks x).state := by
    intro x
    by_cases hx : x = a
    · subst hx
      simp
    · simp [Function.update_noteq hx]
  refine ⟨sei (cli (setTimedOut a false s)), ?_, rfl, rfl, rfl, rfl, hst, hst a⟩
  unfold Semaphore.waitTimed
  simp only [ha]
  rw [if_neg (by simpa using hc2)]
  simp

theorem waitTimed_zero_returns_witness :
    threeStarted.activeTask = some 2 ∧ (threeStarted.semas 0).count ≤ 0 ∧
    ∃ s2, Semaphore.waitTimed 17 0 0 threeStarted = some (s2, WaitOutcome.returned TIMED_OUT) ∧
      s2.semas = threeStarted.semas ∧ s2.pSleepHead = threeStarted.pSleepHead ∧
      s2.readyList = threeStarted.readyList ∧
      s2.activeTask = threeStarted.activeTask ∧
      (∀ x, (s2.tasks x).state = (threeStarted.tasks x).state) ∧
      (s2.tasks 2).state = (threeStarted.tasks 2).state :=
  ⟨rfl, by decide, waitTimed_zero_returns 17 threeStarted 0 2 rfl (by decide)⟩

/-- C9: the active task `A` calls `wait(t)`, `t > 0`, on a semaphore whose
count is 0, in a kernel whose sleep queue has a head delta other than 0 and no
node of `A`, where `A` is on no ready queue and some other task is ready; then
`t` ticks pass and nothing else happens. The call suspends `A`; up to the
last tick `A` is still in its timed wait, on the wait list, with `timedOut`
clear; the `t`-th tick takes `A` off the sleep queue, sets its `timedOut`
flag, takes it off the wait list and makes it Ready (on the ready queue of its
priority, unless the handler's `resched` has dispatched it), so that the wait
of `A` returns `TIMED_OUT`; the count of the semaphore is 0 throughout. -/
theorem timed_wait_times_out (L : Nat) (s : Kernel) (i : SemId) (A : TaskId) (t : Nat)
    (ht : 0 < t) (ha : s.activeTask = some A) (hc : (s.semas i).count = 0)
    (hh : HeadNonzero s.pSleepHead) (hfresh : ∀ m ∈ s.pSleepHead, m.pTask ≠ A)
    (hnr : ∀ p, A ∉ s.readyList p) (hr : ∃ p, p < L ∧ s.readyList p ≠ [])
    (hp : ∀ x, (s.tasks x).priority < L) :
    ∃ s1 s2 s3, Semaphore.waitTimed L i t s = some (s1, WaitOutcome.suspended) ∧
      ticks L (t - 1) s1 = some s2 ∧ timerISR L s2 = some s3 ∧ ticks L t s1 = some s3 ∧
      (s2.tasks A).state = SEM_TIMED_BLOCKED ∧ (s2.tasks A).timedOut = false ∧
      A ∈ (s2.semas i).taskList ∧ A ∈ wakers (sleepDecrement s2.pSleepHead) ∧
      (s3.tasks A).timedOut = true ∧ A ∉ (s3.semas i).taskList ∧
      (ReadyOn A s3 ∨ Runs A s3) ∧ Semaphore.waitTimedResume A s3 = TIMED_OUT ∧
      (s1.semas i).count = 0 ∧ (s2.semas i).count = 0 ∧ (s3.semas i).count = 0 := by
  obtain ⟨s1, w1, w2, w3, w4, w5, w6, ⟨u, w7⟩, w8, w9⟩ :=
    waitTimed_suspends (i := i) ha (le_of_eq hc) (Nat.pos_iff_ne_zero.mp ht) hr hnr
  have hp1 : ∀ x, (s1.tasks x).priority < L := fun x => by rw [w9]; exact hp x
  have hh1 : HeadNonzero s1.pSleepHead := by
    rw [w2]
    exact headNonzero_addSleeper A _ t ht hh
  have hr1 : remainingOf A s1.pSleepHead = some t := by
    rw [w2]
    exact remainingOf_addSleeper_self A _ t hfresh
  have hc1 : nodeCount A s1.pSleepHead = 1 := by
    rw [w2, nodeCount_addSleeper, nodeCount_eq_zero.mpr hfresh]
    simp
  obtain ⟨s2, h1, ⟨b, h2⟩, h3, h4, h5, h6, _, _, h9, h10, _⟩ :=
    ticks_blocked w7 hp1 hh1 hr1 hc1 w8 (t - 1) (by omega)
  have hp2 : ∀ x, (s2.tasks x).priority < L := fun x => by rw [h3]; exact hp1 x
  obtain ⟨s3, k1, _, _, _, k5, k6⟩ := timerISR_spec h2 hp2
  have hrem : remainingOf A s2.pSleepHead = some (0 + 1) := by
    rw [h6]
    congr 1
    omega
  have hw : A ∈ wakers (sleepDecrement s2.pSleepHead) :=
    (tickQueue_remaining A s2.pSleepHead 0 h5 hrem).1 rfl
  have hst : (s2.tasks A).state = SEM_TIMED_BLOCKED := by rw [h9]; exact w5
  obtain ⟨e1, e2⟩ := timerISR_expires h2 hw hst k1
  have hmem : A ∈ (s2.semas i).taskList := h10 i (by rw [w3]; simp)
  refine ⟨s1, s2, s3, w1, h1, k1, ?_, hst, by rw [h9]; exact w6, hmem, hw, e1, e2 i,
    k6 A hw, ?_, by rw [w4, hc], by rw [h4, w4, hc], by rw [k5, h4, w4, hc]⟩
  · have := ticks_succ L (t - 1) s1
    rw [show t - 1 + 1 = t by omega, h1] at this
    rw [this]
    exact k1
  · simp [Semaphore.waitTimedResume, e1]

/-- C8, as amended: the active task `A` calls `wait(t)` on a semaphore whose
count is 0 and whose wait list is empty, in a kernel whose sleep queue has a
head delta other than 0 and no node of `A`, where `A` is on no ready queue and
some other task is ready; then `k < t` ticks pass, and `signal` is called,
while another task is active. The call of `signal` makes `A` Ready (on the
ready queue of its priority, unless `resched` has dispatched it) with
`timedOut` clear, so that the wait of `A` returns `ACQUIRED_SEMA`; the count
of the semaphore is still 0; `A` has no node on the sleep queue any more; and
however many ticks follow, none takes `A` off the sleep queue and `timedOut`
stays clear. -/
theorem timed_wait_signalled (L : Nat) (s : Kernel) (i : SemId) (A : TaskId) (t k : Nat)
    (hk : k < t) (ha : s.activeTask = some A) (hc : (s.semas i).count = 0)
    (hl : (s.semas i).taskList = [])
    (hh : HeadNonzero s.pSleepHead) (hfresh : ∀ m ∈ s.pSleepHead, m.pTask ≠ A)
    (hnr : ∀ p, A ∉ s.readyList p) (hr : ∃ p, p < L ∧ s.readyList p ≠ [])
    (hp : ∀ x, (s.tasks x).priority < L) :
    ∃ s1 s2 s3, Semaphore.waitTimed L i t s = some (s1, WaitOutcome.suspended) ∧
      ticks L k s1 = some s2 ∧ s2.activeTask ≠ some A ∧
      Semaphore.signal L i s2 = some s3 ∧
      (ReadyOn A s3 ∨ Runs A s3) ∧ (s3.tasks A).timedOut = false ∧
      Semaphore.waitTimedResume A s3 = ACQUIRED_SEMA ∧ (s3.semas i).count = 0 ∧
      (∀ m ∈ s3.pSleepHead, m.pTask ≠ A) ∧
      ∀ m, ∃ s4, ticks L m s3 = some s4 ∧ A ∉ wakers (sleepDecrement s4.pSleepHead) ∧
        (s4.tasks A).timedOut = false := by
  have ht : 0 < t := by omega
  obtain ⟨s1, w1, w2, w3, w4, w5, w6, ⟨u, w7⟩, w8, w9⟩ :=
    waitTimed_suspends (i := i) ha (le_of_eq hc) (Nat.pos_iff_ne_zero.mp ht) hr hnr
  have hp1 : ∀ x, (s1.tasks x).priority < L := fun x => by rw [w9]; exact hp x
  have hh1 : HeadNonzero s1.pSleepHead := by
    rw [w2]
    exact headNonzero_addSleeper A _ t ht hh
  have hr1 : remainingOf A s1.pSleepHead = some t := by
    rw [w2]
    exact remainingOf_addSleeper_self A _ t hfresh
  have hc1 : nodeCount A s1.pSleepHead = 1 := by
    rw [w2, nodeCount_addSleeper, nodeCount_eq_zero.mpr hfresh]
    simp
  have hl1 : (s1.semas i).taskList = [A] := by
    rw [w3, hl]
    rfl
  obtain ⟨s2, h1, ⟨b, h2⟩, h3, h4, _, _, h7, h8, h9, _, h11⟩ :=
    ticks_blocked w7 hp1 hh1 hr1 hc1 w8 k hk
  have hp2 : ∀ x, (s2.tasks x).priority < L := fun x => by rw [h3]; exact hp1 x
  have hst : (s2.tasks A).state = SEM_TIMED_BLOCKED := by rw [h9]; exact w5
  obtain ⟨s3, g1, g2, _, _, g5, g6, ⟨c, g7⟩, g8, g9⟩ := signal_spec h2 hp2 (h11 i hl1)
  have hp3 : ∀ x, (s3.tasks x).priority < L := fun x => by rw [g8]; exact hp2 x
  have hc3 : nodeCount A s3.pSleepHead = 0 := by
    rw [g9, if_pos hst, nodeCount_removeSleeper_self, h7]
  refine ⟨s1, s2, s3, w1, h1, h8.1, g1, g5, g6, ?_, by rw [g2, h4, w4, hc]; decide,
    nodeCount_eq_zero.mp hc3, fun m => ?_⟩
  · simp [Semaphore.waitTimedResume, g6]
  · obtain ⟨s4, j1, j2, j3⟩ := ticks_without_node m s3 c g7 hp3 hc3
    exact ⟨s4, j1, j2, by rw [j3, g6]⟩

theorem threeStarted_not_ready : ∀ p, 2 ∉ threeStarted.readyList p := by
  intro p
  show 2 ∉ Function.update (Function.update (Function.update (Function.update
    (fun _ => ([] : List TaskId)) 3 [1]) 5 [2]) 0 [0]) 5 [] p
  simp only [Function.update_apply]
  split_ifs <;> decide

theorem timed_wait_times_out_witness :
    0 < 5 ∧ threeStarted.activeTask = some 2 ∧ (threeStarted.semas 0).count = 0 ∧
    HeadNonzero threeStarted.pSleepHead ∧ (∀ m ∈ threeStarted.pSleepHead, m.pTask ≠ 2) ∧
    (∀ p, 2 ∉ threeStarted.readyList p) ∧ (∃ p, p < 17 ∧ threeStarted.readyList p ≠ []) ∧
    (∀ x, (threeStarted.tasks x).priority < 17) ∧
    ∃ s1 s2 s3, Semaphore.waitTimed 17 0 5 threeStarted = some (s1, WaitOutcome.suspended) ∧
      ticks 17 (5 - 1) s1 = some s2 ∧ timerISR 17 s2 = some s3 ∧ ticks 17 5 s1 = some s3 ∧
      (s2.tasks 2).state = SEM_TIMED_BLOCKED ∧ (s2.tasks 2).timedOut = false ∧
      2 ∈ (s2.semas 0).taskList ∧ 2 ∈ wakers (sleepDecrement s2.pSleepHead) ∧
      (s3.tasks 2).timedOut = true ∧ 2 ∉ (s3.semas 0).taskList ∧
      (ReadyOn 2 s3 ∨ Runs 2 s3) ∧ Semaphore.waitTimedResume 2 s3 = TIMED_OUT ∧
      (s1.semas 0).count = 0 ∧ (s2.semas 0).count = 0 ∧ (s3.semas 0).count = 0 :=
  ⟨by decide, rfl, rfl, trivial, fun m hm => absurd hm (List.not_mem_nil m),
    threeStarted_not_ready, ⟨3, by decide, by decide⟩,
    (running_inv (by decide) threeStarted_running).1.1,
    timed_wait_times_out 17 threeStarted 0 2 5 (by decide) rfl rfl trivial
      (fun m hm => absurd hm (List.not_mem_nil m)) threeStarted_not_ready
      ⟨3, by decide, by decide⟩ (running_inv (by decide) threeStarted_running).1.1⟩

theorem timed_wait_signalled_witness :
    2 < 5 ∧ threeStarted.activeTask = some 2 ∧ (threeStarted.semas 0).count = 0 ∧
    (threeStarted.semas 0).taskList = [] ∧
    HeadNonzero threeStarted.pSleepHead ∧ (∀ m ∈ threeStarted.pSleepHead, m.pTask ≠ 2) ∧
    (∀ p, 2 ∉ threeStarted.readyList p) ∧ (∃ p, p < 17 ∧ threeStarted.readyList p ≠ []) ∧
    (∀ x, (threeStarted.tasks x).priority < 17) ∧
    ∃ s1 s2 s3, Semaphore.waitTimed 17 0 5 threeStarted = some (s1, WaitOutcome.suspended) ∧
      ticks 17 2 s1 = some s2 ∧ s2.activeTask ≠ some 2 ∧
      Semaphore.signal 17 0 s2 = some s3 ∧
      (ReadyOn 2 s3 ∨ Runs 2 s3) ∧ (s3.tasks 2).timedOut = false ∧
      Semaphore.waitTimedResume 2 s3 = ACQUIRED_SEMA ∧ (s3.semas 0).count = 0 ∧
      (∀ m ∈ s3.pSleepHead, m.pTask ≠ 2) ∧
      ∀ m, ∃ s4, ticks 17 m s3 = some s4 ∧ 2 ∉ wakers (sleepDecrement s4.pSleepHead) ∧
        (s4.tasks 2).timedOut = false :=
  ⟨by decide, rfl, rfl, rfl, trivial, fun m hm => absurd hm (List.not_mem_nil m),
    threeStarted_not_ready, ⟨3, by decide, by decide⟩,
    (running_inv (by decide) threeStarted_running).1.1,
    timed_wait_signalled 17 threeStarted 0 2 5 2 (by decide) rfl rfl rfl trivial
      (fun m hm => absurd hm (List.not_mem_nil m)) threeStarted_not_ready
      ⟨3, by decide, by decide⟩ (running_inv (by decide) threeStarted_running).1.1⟩

/-- C8 as stated fails when another task waits on the semaphore already. The
task of priority 5 (at address 2) is blocked in `wait()` on the semaphore,
whose count is 0; the task of priority 3 (at address 1) calls `wait(5)`; two
ticks pass; `signal` is called while the idle task runs. The signal goes to
the task that has waited longest: the task at address 1 is still in its timed
wait, on the wait list and on the sleep queue, with 3 ticks to go. -/
theorem timed_wait_passed_over :
    highWaits.activeTask = some 1 ∧ (highWaits.semas 0).count = 0 ∧
    (highWaits.semas 0).taskList = [2] ∧
    Semaphore.waitTimed 17 0 5 highWaits = some (lateWaiter, WaitOutcome.suspended) ∧
    ticks 17 2 lateWaiter = some lateWaiterTicked ∧ lateWaiterTicked.activeTask = some 0 ∧
    Semaphore.signal 17 0 lateWaiterTicked = some lateWaiterPassedOver ∧
    (lateWaiterPassedOver.tasks 1).state = SEM_TIMED_BLOCKED ∧
    (lateWaiterPassedOver.semas 0).taskList = [1] ∧
    lateWaiterPassedOver.pSleepHead = [⟨1, 3⟩] ∧
    ¬ (ReadyOn 1 lateWaiterPassedOver ∨ Runs 1 lateWaiterPassedOver) := by
  refine ⟨rfl, rfl, rfl, rfl, rfl, rfl, rfl, rfl, rfl, rfl, ?_⟩
  rintro (h | h)
  · have h1 : (lateWaiterPassedOver.tasks 1).state = TASK_READY := h.1
    revert h1
    decide
  · have h1 : (lateWaiterPassedOver.tasks 1).state = TASK_ACTIVE := h.2
    revert h1
    decide

/-! ## Semaphores under every call -/

theorem semaStep_same {s s2 : Kernel} (h : s2.semas = s.semas) (i : SemId) :
    SemaStep (s.semas i) (s2.semas i) := by
  rw [h]
  exact Or.inl ⟨rfl, List.Sublist.refl _⟩

theorem resched_semas {L : Nat} {s s2 : Kernel} (h : resched L s = some s2) :
    s2.semas = s.semas := by
  obtain ⟨_, _, _, _, _, _, _, _, h6, _⟩ := resched_spec h
  exact h6

theorem wakeTask_semaSublist (x : TaskId) (i : SemId) (s : Kernel) :
    ((wakeTask x s).semas i).taskList.Sublist (s.semas i).taskList := by
  unfold wakeTask
  split
  · simp only [addready, makeTaskReady, Kernel.modifyTask, unlink, setTimedOut]
    exact List.filter_sublist _
  · exact List.Sublist.refl _

theorem wakeLoop_semaSublist (a : TaskId) (i : SemId) :
    ∀ (q : List DQNode) (s : Kernel) (need : Bool),
      ((wakeLoop a q s need).1.semas i).taskList.Sublist (s.semas i).taskList
  | [], _, _ => List.Sublist.refl _
  | n :: rest, s, need => by
    unfold wakeLoop
    split
    · exact (wakeLoop_semaSublist a i rest _ _).trans (wakeTask_semaSublist _ i s)
    · exact List.Sublist.refl _

/-- What an operation of the running kernel does to a semaphore. -/
theorem step_sema {L : Nat} {s s2 : Kernel} (op : KOp) (h : op.step L s = some s2) (i : SemId)
    (hr1 : INT_MIN ≤ (s.semas i).count) (hr2 : (s.semas i).count ≤ INT_MAX) :
    SemaStep (s.semas i) (s2.semas i) ∨
      (op = KOp.signal i ∧ SemaAdd (s.semas i) (s2.semas i)) := by
  cases op with
  | sleep ticks =>
    refine Or.inl ?_
    simp only [KOp.step, ARTK_Sleep] at h
    split at h
    · cases h
    · unfold task_sleep at h
      split at h
      · exact semaStep_same (resched_semas h) i
      · cases h
        exact semaStep_same rfl i
  | yield =>
    refine Or.inl ?_
    simp only [KOp.step, ARTK_Yield, relinquish] at h
    split at h
    · cases h
    · exact semaStep_same (resched_semas h) i
  | wait j =>
    refine Or.inl ?_
    simp only [KOp.step, Semaphore.wait] at h
    split at h
    · rename_i hc
      cases h
      by_cases hij : i = j
      · subst hij
        have hc1 : 0 < (s.semas i).count := by simpa using hc
        refine Or.inr (Or.inl ⟨hc1, ?_, ?_⟩)
        · simp only [sei, cli, Kernel.modifySema, Function.update_same]
          exact intDec_of_gt (by unfold INT_MIN; omega) hr2
        · simp
      · refine Or.inl ⟨?_, ?_⟩ <;> simp [Function.update_noteq hij]
    · rename_i hc
      split at h
      · cases h
      · rename_i a ha
        rw [resched_semas h]
        by_cases hij : i = j
        · subst hij
          refine Or.inr (Or.inr ⟨by simpa using hc, ?_, a, ?_⟩) <;> simp
        · refine Or.inl ⟨?_, ?_⟩ <;> simp [Function.update_noteq hij]
  | waitTimed j timeout =>
    refine Or.inl ?_
    simp only [KOp.step, Option.map_eq_some'] at h
    obtain ⟨r, hr, rfl⟩ := h
    unfold Semaphore.waitTimed at hr
    split at hr
    · cases hr
    · rename_i a ha
      simp only at hr
      split at hr
      · rename_i hc
        cases hr
        by_cases hij : i = j
        · subst hij
          have hc1 : 0 < (s.semas i).count := by simpa using hc
          refine Or.inr (Or.inl ⟨hc1, ?_, ?_⟩)
          · simp only [cli, setTimedOut, Kernel.modifyTask, Kernel.modifySema,
              Function.update_same]
            exact intDec_of_gt (by unfold INT_MIN; omega) hr2
          · simp
        · refine Or.inl ⟨?_, ?_⟩ <;> simp [Function.update_noteq hij]
      · rename_i hc
        split at hr
        · cases hr
          exact semaStep_same rfl i
        · simp only [Option.map_eq_some'] at hr
          obtain ⟨s4, h4, rfl⟩ := hr
          show SemaStep (s.semas i) (s4.semas i)
          rw [resched_semas h4]
          by_cases hij : i = j
          · subst hij
            refine Or.inr (Or.inr ⟨by simpa using hc, ?_, a, ?_⟩) <;> simp
          · refine Or.inl ⟨?_, ?_⟩ <;> simp [Function.update_noteq hij]
  | signal j =>
    simp only [KOp.step] at h
    cases hl : (s.semas j).taskList with
    | nil =>
      rw [signal_nil hl] at h
      cases h
      by_cases hij : i = j
      · subst hij
        refine Or.inr ⟨rfl, hl, ?_, ?_⟩ <;> simp [hl]
      · refine Or.inl (Or.inl ⟨?_, ?_⟩) <;> simp [Function.update_noteq hij]
    | cons t rest =>
      refine Or.inl ?_
      cases ha : s.activeTask with
      | none =>
        unfold Semaphore.signal at h
        simp only [cli, Kernel.modifySema, Function.update_same, hl] at h
        rw [signalWake_activeTask] at h
        simp [ha] at h
      | some a =>
        rw [signal_cons ha hl] at h
        have key : SemaStep (s.semas i)
            ((Semaphore.signalWake t (Semaphore.granted j rest s)).semas i) := by
          rw [signalWake_semas]
          by_cases hij : i = j
          · subst hij
            refine Or.inl ⟨?_, ?_⟩
            · simp only [Semaphore.granted, cli, Kernel.modifySema, Function.update_same]
              exact intDec_intInc hr1 hr2
            · simp [Semaphore.granted, hl]
          · refine Or.inl ⟨?_, ?_⟩ <;> simp [Semaphore.granted, Function.update_noteq hij]
        split at h
        · simp only [Option.map_eq_some'] at h
          obtain ⟨s4, h4, rfl⟩ := h
          show SemaStep (s.semas i) (s4.semas i)
          rw [resched_semas h4]
          exact key
        · cases h
          exact key
  | tick =>
    refine Or.inl ?_
    simp only [KOp.step] at h
    cases ha : s.activeTask with
    | none =>
      unfold timerISR at h
      simp only [ha] at h
      split at h
      · cases h
        exact semaStep_same rfl i
      · cases h
    | some a =>
      rw [timerISR_unfold ha] at h
      have key : SemaStep (s.semas i)
          ((wakeLoop a (sleepDecrement s.pSleepHead) (cli s) false).1.semas i) :=
        Or.inl ⟨wakeLoop_semaCount a i _ _ _, wakeLoop_semaSublist a i _ _ _⟩
      split at h
      · simp only [Option.map_eq_some'] at h
        obtain ⟨s4, h4, rfl⟩ := h
        show SemaStep (s.semas i) (s4.semas i)
        rw [resched_semas h4]
        exact key
      · cases h
        exact key
  | exit =>
    refine Or.inl ?_
    simp only [KOp.step, taskDone] at h
    split at h
    · cases h
    · rename_i a ha
      have key : SemaStep (s.semas i) ((removeready a s).semas i) :=
        Or.inl ⟨rfl, List.filter_sublist _⟩
      unfold removeTask at h
      simp only at h
      split at h
      · cases h
        exact key
      · rw [resched_semas h]
        exact key

/-- What a call does to a semaphore: a step of the semaphore, unless the call
is a `signal` that finds no waiter or creates the semaphore. -/
theorem call_sema {L : Nat} {s s2 : Kernel} (c : KCall) (h : c.step L s = some s2) (i : SemId)
    (hr1 : INT_MIN ≤ (s.semas i).count) (hr2 : (s.semas i).count ≤ INT_MAX) :
    SemaStep (s.semas i) (s2.semas i) ∨
      (c = KCall.op (KOp.signal i) ∧ SemaAdd (s.semas i) (s2.semas i)) ∨
      ∃ c0, c = KCall.createSema i c0 ∧ s2.semas i = ⟨intWrap c0, []⟩ := by
  cases c with
  | createTask t isIdle priority stacksize stackOk =>
    simp only [KCall.step, Option.some.injEq] at h
    subst h
    refine Or.inl (semaStep_same ?_ i)
    unfold ARTK_CreateTask Task.create addNewTask
    simp only
    split <;> rfl
  | createSema j c0 =>
    simp only [KCall.step, Option.some.injEq] at h
    subst h
    by_cases hij : i = j
    · subst hij
      exact Or.inr (Or.inr ⟨c0, rfl, by simp [ARTK_CreateSema, Semaphore.create]⟩)
    · refine Or.inl (Or.inl ⟨?_, ?_⟩) <;>
        simp [ARTK_CreateSema, Semaphore.create, Function.update_noteq hij]
  | start => exact Or.inl (semaStep_same (resched_semas h) i)
  | op o =>
    rcases step_sema o h i hr1 hr2 with h1 | ⟨h1, h2⟩
    · exact Or.inl h1
    · exact Or.inr (Or.inl ⟨by rw [h1], h2⟩)

theorem semaStep_noWaiter {m m2 : Semaphore} (h : SemaStep m m2)
    (hm : 0 < m.count → m.taskList = []) : 0 < m2.count → m2.taskList = [] := by
  intro hc
  rcases h with ⟨h1, h2⟩ | ⟨h1, _, h3⟩ | ⟨h1, h2, _⟩
  · rw [h1] at hc
    rw [hm hc] at h2
    exact List.eq_nil_of_sublist_nil h2
  · rw [h3]
    exact hm h1
  · omega

theorem semaStep_nonneg {m m2 : Semaphore} (h : SemaStep m m2) (hm : 0 ≤ m.count) :
    0 ≤ m2.count := by
  rcases h with ⟨h1, _⟩ | ⟨_, h2, _⟩ | ⟨_, h2, _⟩ <;> omega

theorem semaStep_range {m m2 : Semaphore} (h : SemaStep m m2)
    (hr1 : INT_MIN ≤ m.count) (hr2 : m.count ≤ INT_MAX) :
    INT_MIN ≤ m2.count ∧ m2.count ≤ INT_MAX := by
  unfold INT_MIN at *
  unfold INT_MAX at *
  rcases h with ⟨h1, _⟩ | ⟨_, h2, _⟩ | ⟨_, h2, _⟩ <;> omega

/-- The counts of a kernel stay `int`s under every call. -/
theorem call_range {L : Nat} {s s2 : Kernel} (c : KCall) (h : c.step L s = some s2) (i : SemId)
    (hr1 : INT_MIN ≤ (s.semas i).count) (hr2 : (s.semas i).count ≤ INT_MAX) :
    INT_MIN ≤ (s2.semas i).count ∧ (s2.semas i).count ≤ INT_MAX := by
  rcases call_sema c h i hr1 hr2 with hs | ⟨_, _, hs, _⟩ | ⟨c0, _, hs⟩
  · exact semaStep_range hs hr1 hr2
  · rw [hs]
    exact intInc_range _
  · rw [hs]
    exact intWrap_range c0

theorem runCalls_range {L : Nat} (i : SemId) :
    ∀ (calls : List KCall) (s0 s : Kernel), runCalls L calls s0 = some s →
      INT_MIN ≤ (s0.semas i).count → (s0.semas i).count ≤ INT_MAX →
      INT_MIN ≤ (s.semas i).count ∧ (s.semas i).count ≤ INT_MAX
  | [], s0, s, h, h1, h2 => by
    cases h
    exact ⟨h1, h2⟩
  | c :: cs, s0, s, h, hr1, hr2 => by
    simp only [runCalls, Option.bind_eq_some] at h
    obtain ⟨s1, h1, h2⟩ := h
    obtain ⟨k1, k2⟩ := call_range c h1 i hr1 hr2
    exact runCalls_range i cs s1 s h2 k1 k2

theorem runCalls_noWaiter {L : Nat} (i : SemId) :
    ∀ (calls : List KCall) (s0 s : Kernel), runCalls L calls s0 = some s →
      INT_MIN ≤ (s0.semas i).count → (s0.semas i).count ≤ INT_MAX →
      (0 < (s0.semas i).count → (s0.semas i).taskList = []) →
      0 < (s.semas i).count → (s.semas i).taskList = []
  | [], s0, s, h, _, _, h0 => by
    cases h
    exact h0
  | c :: cs, s0, s, h, hr1, hr2, h0 => by
    simp only [runCalls, Option.bind_eq_some] at h
    obtain ⟨s1, h1, h2⟩ := h
    obtain ⟨k1, k2⟩ := call_range c h1 i hr1 hr2
    apply runCalls_noWaiter i cs s1 s h2 k1 k2
    rcases call_sema c h1 i hr1 hr2 with hs | ⟨_, _, _, hs⟩ | ⟨c0, _, hs⟩
    · exact semaStep_noWaiter hs h0
    · exact fun _ => hs
    · rw [hs]
      exact fun _ => rfl

/-- C11: `task_sleep(0)` returns at once and changes nothing: the kernel after
the call is the kernel before it, so that the state of the caller, the active
task, every ready queue, the sleep queue (no node is inserted) and the record
of context switches are what they were; `resched`, which takes a task off a
ready queue, has not run, and the call returns even where `resched` could
not, with every ready queue empty. -/
theorem sleep_zero_returns (L : Nat) (this : TaskId) (s : Kernel) :
    task_sleep L this 0 s = some s ∧
    ARTK_Sleep L 0 s = s.activeTask.map (fun _ => s) ∧
    task_sleep L this 0 Kernel.init = some Kernel.init ∧ resched L Kernel.init = none := by
  refine ⟨rfl, ?_, rfl, ?_⟩
  · unfold ARTK_Sleep
    cases s.activeTask <;> rfl
  · have hn : ∀ n, pickReady Kernel.init.readyList n = none := by
      intro n
      induction n with
      | zero => rfl
      | succ n ih =>
        unfold pickReady
        exact ih
    unfold resched
    rw [hn]

/-- C12: in every state that a run of the kernel from boot reaches, whatever
the calls (creations of tasks and semaphores, the start of multitasking,
`sleep`, `yield`, `wait()`, `wait(timeout)`, `signal()`, ticks with their
timeouts, task exits), a semaphore whose count is positive has an empty wait
list. -/
theorem count_positive_no_waiter (L : Nat) (calls : List KCall) (s : Kernel)
    (h : runCalls L calls Kernel.init = some s) (i : SemId) :
    0 < (s.semas i).count → (s.semas i).taskList = [] :=
  runCalls_noWaiter i calls Kernel.init s h (show INT_MIN ≤ (0 : Int) by decide)
    (show (0 : Int) ≤ INT_MAX by decide) (fun _ => rfl)

theorem semaRun_runs : runCalls 17 semaCalls Kernel.init = some semaRun := rfl

theorem count_positive_no_waiter_witness :
    runCalls 17 semaCalls Kernel.init = some semaRun ∧ (semaRun.semas 0).count = 1 ∧
    (0 < (semaRun.semas 0).count → (semaRun.semas 0).taskList = []) :=
  ⟨semaRun_runs, by decide, count_positive_no_waiter 17 semaCalls semaRun semaRun_runs 0⟩

/-! ## Preemption by a signal -/

theorem pickReady_of_front (rl : Nat → List TaskId) {p : Nat} {t : TaskId} {rest : List TaskId}
    (hrest : rl p = t :: rest) :
    ∀ (n : Nat), p < n → (∀ q, p < q → q < n → rl q = []) → pickReady rl n = some (p, t)
  | 0, hp, _ => absurd hp (Nat.not_lt_zero p)
  | n + 1, hp, hq => by
    unfold pickReady
    rcases Nat.lt_succ_iff_lt_or_eq.mp hp with h | h
    · rw [hq n h (Nat.lt_succ_self n)]
      exact pickReady_of_front rl hrest n h (fun q h1 h2 => hq q h1 (Nat.lt_succ_of_lt h2))
    · subst h
      rw [hrest]

/-- The call `resched` makes into the context-switch routines when it takes a
task other than the active one. -/
theorem resched_switches {L : Nat} {s s2 : Kernel} {old t : TaskId} {p : Nat}
    (h : resched L s = some s2) (hold : s.activeTask = some old)
    (hpick : pickReady s.readyList L = some (p, t)) (hne : t ≠ old) :
    s2.switches =
      SwitchCall.ContextSwitch old (s.tasks t).pStack (s.tasks t).firstRun :: s.switches := by
  unfold resched at h
  rw [hpick] at h
  have hact : ¬ s.activeTask = some t := by
    rw [hold]
    exact fun e => hne (Option.some.inj e).symm
  simp only [hact, if_false, Option.some.injEq] at h
  subst h
  simp [hold]

theorem resched_switches_same {L : Nat} {s s2 : Kernel} {t : TaskId} {p : Nat}
    (h : resched L s = some s2) (hpick : pickReady s.readyList L = some (p, t))
    (hact : s.activeTask = some t) : s2.switches = s.switches := by
  unfold resched at h
  rw [hpick] at h
  simp only [hact, if_true, Option.some.injEq] at h
  subst h
  rfl

theorem signalWake_readyList (t : TaskId) (s : Kernel) :
    (Semaphore.signalWake t s).readyList =
      Function.update s.readyList (s.tasks t).priority
        (s.readyList (s.tasks t).priority ++ [t]) := by
  unfold Semaphore.signalWake
  simp only
  split <;> simp

theorem signalWake_switches (t : TaskId) (s : Kernel) :
    (Semaphore.signalWake t s).switches = s.switches := by
  unfold Semaphore.signalWake
  simp only
  split <;> rfl

/-- When no task on a ready queue has a priority above that of the active
task, as in every state of a run without creations after the start, the ready
queues of the higher priorities are empty. -/
theorem above_empty_of_highestRuns {L : Nat} {s : Kernel} {A : TaskId} (hok : ReadyOk L s)
    (hr : HighestRuns s) (ha : s.activeTask = some A) (p : Nat)
    (hp : (s.tasks A).priority < p) : s.readyList p = [] := by
  obtain ⟨a, h1, h2⟩ := hr
  have haA : a = A := Option.some.inj (h1.symm.trans ha)
  subst haA
  cases hl : s.readyList p with
  | nil => rfl
  | cons x l =>
    have hx : x ∈ s.readyList p := by rw [hl]; exact List.mem_cons_self _ _
    have h3 := h2 p x hx
    rw [hok.2 p x hx] at h3
    omega

theorem bothWait_above_empty : ∀ p, 5 ≤ p → p < 17 → bothWait.readyList p = [] :=
  fun p h1 _ => above_empty_of_highestRuns (running_inv (by decide) bothWait_running).1
    (running_inv (by decide) bothWait_running).2 rfl p (lt_of_lt_of_le (by decide) h1)

/-! ## No preemption by a task of the same or a lower priority -/

theorem running_runCalls {L : Nat} :
    ∀ (ops : List KOp) (s s2 : Kernel), Running L s →
      runCalls L (ops.map KCall.op) s = some s2 → Running L s2
  | [], s, s2, hr, h => by
    cases h
    exact hr
  | op :: ops, s, s2, hr, h => by
    simp only [List.map_cons, runCalls, KCall.step, Option.bind_eq_some] at h
    obtain ⟨s1, h1, h2⟩ := h
    exact running_runCalls ops s1 s2 (Running.step op hr h1) h2

theorem wakeTask_readyList {x : TaskId} {s : Kernel} (hx : ∀ p, x ∉ s.readyList p) :
    (wakeTask x s).readyList =
      Function.update s.readyList (s.tasks x).priority
        (s.readyList (s.tasks x).priority ++ [x]) := by
  have hf : ∀ q, (s.readyList q).filter (fun z => decide (z ≠ x)) = s.readyList q :=
    fun q => filter_ne_eq_self (hx q)
  unfold wakeTask
  split
  · simp only [addready, makeTaskReady, Kernel.modifyTask, unlink, setTimedOut, hf,
      Function.update_same]
  · simp

theorem wakeTask_readyGrows {x : TaskId} {s : Kernel} (hx : ∀ p, x ∉ s.readyList p) (p : Nat) :
    ∃ l, (wakeTask x s).readyList p = s.readyList p ++ l := by
  rw [wakeTask_readyList hx]
  by_cases hp : p = (s.tasks x).priority
  · exact ⟨[x], by rw [hp, Function.update_same]⟩
  · exact ⟨[], by rw [Function.update_noteq hp, List.append_nil]⟩

theorem wakeTask_switches (x : TaskId) (s : Kernel) : (wakeTask x s).switches = s.switches := by
  unfold wakeTask
  split <;> rfl

theorem wakeLoop_switches (a : TaskId) :
    ∀ (q : List DQNode) (s : Kernel) (need : Bool),
      (wakeLoop a q s need).1.switches = s.switches
  | [], _, _ => rfl
  | n :: rest, s, need => by
    unfold wakeLoop
    split
    · rw [wakeLoop_switches a rest, wakeTask_switches]
    · rfl

/-- The tasks the loop of `timerISR` wakes go to the back of their ready
queues: no queue loses a member or changes the order of those it had. -/
theorem wakeLoop_readyGrows {L : Nat} (a : TaskId) :
    ∀ (q : List DQNode) (s : Kernel) (need : Bool),
      QueuesOk L { s with pSleepHead := q } →
      ∀ p, ∃ l, (wakeLoop a q s need).1.readyList p = s.readyList p ++ l
  | [], s, _, _, p => ⟨[], (List.append_nil _).symm⟩
  | n :: rest, s, need, h, p => by
    unfold wakeLoop
    split
    · have hle2 : nodeCount n.pTask (n :: rest) ≤ 1 := h.sleep_nodup n.pTask
      have hc1 : nodeCount n.pTask (n :: rest) = 1 + nodeCount n.pTask rest := by
        simp [nodeCount]
      have hx2 : (s.tasks n.pTask).state = SLEEP_BLOCKED ∨
          (s.tasks n.pTask).state = SEM_TIMED_BLOCKED :=
        h.sleep_mem n.pTask (by
          show nodeCount n.pTask (n :: rest) ≠ 0
          omega)
      have hnr : ∀ p, n.pTask ∉ s.readyList p := by
        intro p hm
        have := (h.ready_mem p n.pTask hm).2
        have h3 : (s.tasks n.pTask).state = TASK_READY := this
        rcases hx2 with e | e <;> rw [e] at h3 <;> cases h3
      have hk : QueuesOk L { s with pSleepHead := rest } := by
        refine queuesOk_shrink h rfl rfl (fun _ => List.Sublist.refl _) (fun y => ?_)
        show nodeCount y rest ≤ nodeCount y (n :: rest)
        simp only [nodeCount]
        omega
      have hw := wakeTask_ok (x := n.pTask) hk hx2 (by
        show nodeCount n.pTask rest = 0
        omega)
      rw [← wakeTask_sleepQueue] at hw
      obtain ⟨l1, e1⟩ := wakeTask_readyGrows hnr p
      obtain ⟨l2, e2⟩ := wakeLoop_readyGrows a rest (wakeTask n.pTask s)
        (need || decide ((s.tasks n.pTask).priority > (s.tasks a).priority)) hw p
      exact ⟨l1 ++ l2, by rw [e2, e1, List.append_assoc]⟩
    · exact ⟨[], (List.append_nil _).symm⟩

/-- The flag `contextSwitchNeeded` at the end of the loop of `timerISR`. -/
theorem wakeLoop_need (a : TaskId) :
    ∀ (q : List DQNode) (s : Kernel) (need : Bool),
      (wakeLoop a q s need).2 =
        (need || (wakers q).any (fun w => decide ((s.tasks w).priority > (s.tasks a).priority)))
  | [], _, need => by simp [wakeLoop, wakers]
  | n :: rest, s, need => by
    unfold wakeLoop wakers
    split
    · rw [wakeLoop_need a rest]
      simp only [wakeTask_priority, List.any_cons, Bool.or_assoc]
    · simp

/-- C15: in a kernel whose queues agree with the task states, with the active
task `A` in the Active state, a call of `signal` that finds no waiter, or
whose front waiter has a priority that is not above that of `A`, and a run of
the tick handler in which no task taken off the sleep queue has a priority
above that of `A`, both return with `A` still the active task, in the Active
state and on no ready queue; no context switch is made, and the ready queues
have only grown at the back: `resched` has not run. -/
theorem no_preemption_by_lower (L : Nat) (s : Kernel) (A : TaskId) (hq : QueuesOk L s)
    (ha : s.activeTask = some A) (hst : (s.tasks A).state = TASK_ACTIVE) :
    (∀ i, ((s.semas i).taskList = [] ∨ ∃ W rest, (s.semas i).taskList = W :: rest ∧
        (s.tasks W).priority ≤ (s.tasks A).priority) →
      ∃ s2, Semaphore.signal L i s = some s2 ∧ NotPreempted A s s2) ∧
    ((∀ w ∈ wakers (sleepDecrement s.pSleepHead), (s.tasks w).priority ≤ (s.tasks A).priority) →
      ∃ s2, timerISR L s = some s2 ∧ NotPreempted A s s2) := by
  have hd := detached_of_state hq hst
  refine ⟨fun i hi => ?_, fun hw => ?_⟩
  · rcases hi with hl | ⟨W, rest, hl, hle⟩
    · refine ⟨_, signal_nil hl, ha, hst, hd.1, rfl, fun p => ⟨[], (List.append_nil _).symm⟩⟩
    · have hWA : W ≠ A := by
        intro e
        have := hq.sema_mem i W (by rw [hl]; exact List.mem_cons_self _ _)
        rw [e, hst] at this
        rcases this with e2 | e2 <;> cases e2
      have hprio : ∀ x, ((Semaphore.signalWake W (Semaphore.granted i rest s)).tasks x).priority =
          (s.tasks x).priority := fun x => by
        rw [signalWake_priority]
        rfl
      rw [signal_cons ha hl, hprio, hprio, if_neg (Nat.not_lt.mpr hle)]
      refine ⟨_, rfl, ?_, ?_, fun p hm => ?_, ?_, fun p => ?_⟩
      · show (Semaphore.signalWake W (Semaphore.granted i rest s)).activeTask = some A
        rw [signalWake_activeTask]
        exact ha
      · show ((Semaphore.signalWake W (Semaphore.granted i rest s)).tasks A).state = TASK_ACTIVE
        rw [signalWake_tasks_other (Ne.symm hWA)]
        exact hst
      · have hm2 : A ∈ (Semaphore.signalWake W (Semaphore.granted i rest s)).readyList p := hm
        rcases signalWake_mem_ready hm2 with h1 | h1
        · exact hd.1 p h1
        · exact hWA h1.symm
      · show (Semaphore.signalWake W (Semaphore.granted i rest s)).switches = s.switches
        rw [signalWake_switches]
        rfl
      · show ∃ l, (Semaphore.signalWake W (Semaphore.granted i rest s)).readyList p = _
        rw [signalWake_readyList]
        show ∃ l, Function.update s.readyList (s.tasks W).priority
          (s.readyList (s.tasks W).priority ++ [W]) p = s.readyList p ++ l
        by_cases hp : p = (s.tasks W).priority
        · exact ⟨[W], by rw [hp, Function.update_same]⟩
        · exact ⟨[], by rw [Function.update_noteq hp, List.append_nil]⟩
  · have hdec : QueuesOk L { cli s with pSleepHead := sleepDecrement s.pSleepHead } :=
      queuesOk_shrink hq rfl rfl (fun _ => List.Sublist.refl _)
        (fun y => nodeCount_sleepDecrement_le _ y)
    obtain ⟨w1, w2⟩ := wakeLoop_ok (L := L) A (sleepDecrement s.pSleepHead) (cli s) false
      hdec hst
    have hneed : (wakeLoop A (sleepDecrement s.pSleepHead) (cli s) false).2 = false := by
      rw [wakeLoop_need]
      simp only [Bool.false_or, List.any_eq_false, decide_eq_true_eq, not_lt]
      exact hw
    rw [timerISR_unfold ha, hneed]
    refine ⟨_, rfl, ?_, w2, (detached_of_state w1 w2).1, ?_, ?_⟩
    · show (wakeLoop A (sleepDecrement s.pSleepHead) (cli s) false).1.activeTask = some A
      rw [wakeLoop_activeTask]
      exact ha
    · show (wakeLoop A (sleepDecrement s.pSleepHead) (cli s) false).1.switches = s.switches
      rw [wakeLoop_switches]
      rfl
    · exact wakeLoop_readyGrows (L := L) A (sleepDecrement s.pSleepHead) (cli s) false hdec

theorem lowWaits_running : Running 17 lowWaits :=
  running_runCalls [KOp.sleep 1, KOp.waitTimed 0 2, KOp.tick] threeStarted lowWaits
    threeStarted_running rfl

theorem no_preemption_by_lower_witness :
    QueuesOk 17 lowWaits ∧ lowWaits.activeTask = some 2 ∧
    (lowWaits.tasks 2).state = TASK_ACTIVE ∧ (lowWaits.semas 0).taskList = [1] ∧
    (lowWaits.tasks 1).priority ≤ (lowWaits.tasks 2).priority ∧
    (∃ s2, Semaphore.signal 17 0 lowWaits = some s2 ∧ NotPreempted 2 lowWaits s2) ∧
    wakers (sleepDecrement lowWaits.pSleepHead) = [1] ∧
    ∃ s2, timerISR 17 lowWaits = some s2 ∧ NotPreempted 2 lowWaits s2 :=
  ⟨(running_ok (by decide) lowWaits_running).1, rfl, rfl, rfl, by decide,
    (no_preemption_by_lower 17 lowWaits 2 (running_ok (by decide) lowWaits_running).1 rfl rfl).1
      0 (Or.inr ⟨1, [], rfl, by decide⟩),
    rfl,
    (no_preemption_by_lower 17 lowWaits 2 (running_ok (by decide) lowWaits_running).1 rfl rfl).2
      (by
        intro w hw
        have hw2 : w ∈ [1] := hw
        rw [List.mem_singleton] at hw2
        subst hw2
        decide)⟩

/-! ## Yielding -/

theorem takeWhile_ne_append {T : TaskId} :
    ∀ (l l2 : List TaskId), T ∈ l →
      (l ++ l2).takeWhile (fun x => decide (x ≠ T)) = l.takeWhile (fun x => decide (x ≠ T))
  | [], _, h => absurd h (List.not_mem_nil _)
  | x :: l, l2, h => by
    by_cases hx : x = T
    · subst hx
      simp [List.takeWhile]
    · have hT : T ∈ l := (List.mem_cons.mp h).resolve_left (Ne.symm hx)
      simp only [List.cons_append, List.takeWhile, hx, ne_eq, not_false_eq_true, decide_True]
      exact congrArg (List.cons x) (takeWhile_ne_append l l2 hT)

theorem takeWhile_ne_of_not_mem {T : TaskId} :
    ∀ (l l2 : List TaskId), T ∉ l →
      (l ++ T :: l2).takeWhile (fun x => decide (x ≠ T)) = l
  | [], _, _ => by simp [List.takeWhile]
  | x :: l, l2, h => by
    have hx : x ≠ T := fun e => h (e ▸ List.mem_cons_self _ _)
    have hl : T ∉ l := fun e => h (List.mem_cons_of_mem _ e)
    simp only [List.cons_append, List.takeWhile, hx, ne_eq, not_false_eq_true, decide_True]
    exact congrArg (List.cons x) (takeWhile_ne_of_not_mem l l2 hl)

theorem readyGrown_refl (s : Kernel) : ReadyGrown s s :=
  ⟨fun _ => rfl, fun _ => ⟨[], (List.append_nil _).symm⟩⟩

theorem readyGrown_of_eq {s m : Kernel} (hr : m.readyList = s.readyList)
    (hp : ∀ x, (m.tasks x).priority = (s.tasks x).priority) : ReadyGrown s m :=
  ⟨hp, fun p => ⟨[], by rw [hr, List.append_nil]⟩⟩

theorem readyGrown_trans {s m k : Kernel} (h1 : ReadyGrown s m) (h2 : ReadyGrown m k) :
    ReadyGrown s k := by
  refine ⟨fun x => (h2.1 x).trans (h1.1 x), fun p => ?_⟩
  obtain ⟨l1, e1⟩ := h1.2 p
  obtain ⟨l2, e2⟩ := h2.2 p
  exact ⟨l1 ++ l2, by rw [e2, e1, List.append_assoc]⟩

theorem readyGrown_addready (t : TaskId) (s : Kernel) :
    ReadyGrown s (addready t (makeTaskReady t s)) := by
  refine ⟨fun x => by simp, fun p => ?_⟩
  show ∃ l, Function.update s.readyList ((makeTaskReady t s).tasks t).priority
    (s.readyList ((makeTaskReady t s).tasks t).priority ++ [t]) p = s.readyList p ++ l
  by_cases hp : p = ((makeTaskReady t s).tasks t).priority
  · exact ⟨[t], by rw [hp, Function.update_same]⟩
  · exact ⟨[], by rw [Function.update_noteq hp, List.append_nil]⟩

/-- A task on its ready queue stays there, behind the same tasks, when the
queues grow at the back. -/
theorem ahead_grown {s m : Kernel} {T : TaskId} (h : ReadyGrown s m)
    (hT : T ∈ s.readyList (s.tasks T).priority) :
    T ∈ m.readyList (m.tasks T).priority ∧ ahead T m = ahead T s := by
  obtain ⟨l, e⟩ := h.2 (s.tasks T).priority
  unfold ahead
  rw [h.1 T, e]
  exact ⟨List.mem_append_left _ hT, takeWhile_ne_append _ _ hT⟩

/-- What `resched` does to a task on its ready queue: it takes the task when
no task is in front of it and no queue of a higher priority has a member, and
otherwise leaves it on its queue, with one task fewer in front of it when it
takes the front of that queue. -/
theorem resched_ahead {L : Nat} {m s3 : Kernel} {T : TaskId} (hok : ReadyOk L m)
    (hT : T ∈ m.readyList (m.tasks T).priority) (h : resched L m = some s3) :
    (T ∈ s3.readyList (s3.tasks T).priority ∧ ∃ gone, ahead T m = gone ++ ahead T s3) ∨
    (Runs T s3 ∧ ahead T m = [] ∧
      ∀ p x, x ∈ s3.readyList p → (s3.tasks x).priority ≤ (s3.tasks T).priority) := by
  obtain ⟨p, t, rest, hpick, hrest, hact, hrl, htasks, _⟩ := resched_spec h
  have hprio := resched_priority h
  by_cases ht : t = T
  · subst ht
    have hp : (m.tasks t).priority = p := hok.2 p t (by rw [hrest]; exact List.mem_cons_self _ _)
    refine Or.inr ⟨⟨hact, by rw [htasks]; simp⟩, ?_, ?_⟩
    · unfold ahead
      rw [hp, hrest]
      simp [List.takeWhile]
    · obtain ⟨a, h1, h2⟩ := (readyOk_resched h hok).2
      have : a = t := Option.some.inj (h1.symm.trans hact)
      subst this
      exact h2
  · refine Or.inl ?_
    unfold ahead
    rw [hprio T, hrl]
    by_cases hp : (m.tasks T).priority = p
    · rw [hp, Function.update_same, hrest]
      rw [hp, hrest] at hT
      have hT2 : T ∈ rest := (List.mem_cons.mp hT).resolve_left (Ne.symm ht)
      refine ⟨hT2, [t], ?_⟩
      simp [List.takeWhile, ht]
    · rw [Function.update_noteq hp]
      exact ⟨hT, [], rfl⟩

theorem readyOk_of_queuesOk {L : Nat} {s : Kernel} (h : QueuesOk L s) : ReadyOk L s :=
  ⟨h.prio, fun p x hx => (h.ready_mem p x hx).1⟩

/-- The shape of every operation of the running kernel: tasks join ready
queues at the back, and then the operation returns or it calls `resched`. -/
theorem step_shape {L : Nat} {s s2 : Kernel} (op : KOp) (hq : QueuesOk L s) (ha : ActiveOk s)
    (h : op.step L s = some s2) :
    ReadyGrown s s2 ∨
      ∃ m s3, ReadyGrown s m ∧ ReadyOk L m ∧ resched L m = some s3 ∧
        s2.readyList = s3.readyList ∧ s2.tasks = s3.tasks ∧ s2.activeTask = s3.activeTask := by
  have hok := readyOk_of_queuesOk hq
  cases op with
  | sleep ticks =>
    simp only [KOp.step, ARTK_Sleep] at h
    split at h
    · cases h
    · rename_i a _
      unfold task_sleep at h
      split at h
      · refine Or.inr ⟨_, s2, ?_, ?_, h, rfl, rfl, rfl⟩
        · exact readyGrown_of_eq rfl (fun x => by simp)
        · exact readyOk_same hok (fun y => by simp) (fun p y hy => hy)
      · cases h
        exact Or.inl (readyGrown_refl _)
  | yield =>
    simp only [KOp.step, ARTK_Yield, relinquish] at h
    split at h
    · cases h
    · rename_i a _
      refine Or.inr ⟨_, s2, ?_, ?_, h, rfl, rfl, rfl⟩
      · exact readyGrown_addready a s
      · exact readyOk_addready _ (readyOk_same hok (fun y => by simp) (fun p y hy => hy))
  | wait j =>
    simp only [KOp.step, Semaphore.wait] at h
    split at h
    · cases h
      exact Or.inl (readyGrown_of_eq rfl (fun _ => rfl))
    · split at h
      · cases h
      · refine Or.inr ⟨_, s2, ?_, ?_, h, rfl, rfl, rfl⟩
        · exact readyGrown_of_eq rfl (fun x => by simp)
        · exact readyOk_same hok (fun y => by simp) (fun p y hy => hy)
  | waitTimed j timeout =>
    simp only [KOp.step, Option.map_eq_some'] at h
    obtain ⟨r, hr, rfl⟩ := h
    unfold Semaphore.waitTimed at hr
    split at hr
    · cases hr
    · rename_i a _
      simp only at hr
      split at hr
      · cases hr
        exact Or.inl (readyGrown_of_eq rfl (fun x => by simp))
      · split at hr
        · cases hr
          exact Or.inl (readyGrown_of_eq rfl (fun x => by simp))
        · simp only [Option.map_eq_some'] at hr
          obtain ⟨s4, h4, rfl⟩ := hr
          refine Or.inr ⟨_, s4, ?_, ?_, h4, rfl, rfl, rfl⟩
          · exact readyGrown_of_eq rfl (fun x => by simp)
          · exact readyOk_same hok (fun y => by simp) (fun p y hy => hy)
  | signal j =>
    simp only [KOp.step] at h
    cases hl : (s.semas j).taskList with
    | nil =>
      rw [signal_nil hl] at h
      cases h
      exact Or.inl (readyGrown_of_eq rfl (fun _ => rfl))
    | cons t rest =>
      cases hact : s.activeTask with
      | none =>
        unfold Semaphore.signal at h
        simp only [cli, Kernel.modifySema, Function.update_same, hl] at h
        rw [signalWake_activeTask] at h
        simp [hact] at h
      | some a =>
        rw [signal_cons hact hl] at h
        have hg : ReadyGrown s (Semaphore.signalWake t (Semaphore.granted j rest s)) := by
          refine ⟨fun x => ?_, fun p => ?_⟩
          · rw [signalWake_priority]
            rfl
          · rw [signalWake_readyList]
            show ∃ l, Function.update s.readyList (s.tasks t).priority
              (s.readyList (s.tasks t).priority ++ [t]) p = s.readyList p ++ l
            by_cases hp : p = (s.tasks t).priority
            · exact ⟨[t], by rw [hp, Function.update_same]⟩
            · exact ⟨[], by rw [Function.update_noteq hp, List.append_nil]⟩
        have hok1 : ReadyOk L (Semaphore.signalWake t (Semaphore.granted j rest s)) :=
          readyOk_signalWake t (readyOk_same hok (fun y => rfl) (fun p y hy => hy))
        split at h
        · simp only [Option.map_eq_some'] at h
          obtain ⟨s4, h4, rfl⟩ := h
          refine Or.inr ⟨_, s4, ?_, ?_, h4, rfl, rfl, rfl⟩
          · exact readyGrown_trans hg (readyGrown_addready a _)
          · exact readyOk_addready a (readyOk_same hok1 (fun y => by simp) (fun p y hy => hy))
        · cases h
          exact Or.inl hg
  | tick =>
    simp only [KOp.step] at h
    cases hact : s.activeTask with
    | none =>
      unfold timerISR at h
      simp only [hact] at h
      split at h
      · cases h
        exact Or.inl (readyGrown_of_eq rfl (fun _ => rfl))
      · cases h
    | some a =>
      rw [timerISR_unfold hact] at h
      have hdec : QueuesOk L { cli s with pSleepHead := sleepDecrement s.pSleepHead } :=
        queuesOk_shrink hq rfl rfl (fun _ => List.Sublist.refl _)
          (fun y => nodeCount_sleepDecrement_le _ y)
      obtain ⟨w1, _⟩ := wakeLoop_ok (L := L) a (sleepDecrement s.pSleepHead) (cli s) false
        hdec (ha a hact)
      have hg : ReadyGrown s (wakeLoop a (sleepDecrement s.pSleepHead) (cli s) false).1 :=
        ⟨fun x => wakeLoop_priority a x _ _ _,
          wakeLoop_readyGrows (L := L) a (sleepDecrement s.pSleepHead) (cli s) false hdec⟩
      split at h
      · simp only [Option.map_eq_some'] at h
        obtain ⟨s4, h4, rfl⟩ := h
        refine Or.inr ⟨_, s4, ?_, ?_, h4, rfl, rfl, rfl⟩
        · exact readyGrown_trans hg (readyGrown_addready a _)
        · exact readyOk_addready a (readyOk_same (readyOk_of_queuesOk w1) (fun y => by simp)
            (fun p y hy => hy))
      · cases h
        exact Or.inl hg
  | exit =>
    simp only [KOp.step, taskDone] at h
    split at h
    · cases h
    · rename_i a hact
      have hd := detached_of_state hq (ha a hact)
      have hrl : (removeready a s).readyList = s.readyList := by
        funext p
        exact filter_ne_eq_self (hd.1 p)
      unfold removeTask at h
      simp only at h
      split at h
      · cases h
        exact Or.inl (readyGrown_of_eq hrl (fun _ => rfl))
      · refine Or.inr ⟨_, s2, ?_, ?_, h, rfl, rfl, rfl⟩
        · exact readyGrown_of_eq hrl (fun _ => rfl)
        · exact readyOk_same hok (fun y => rfl) (fun p y hy => by
            have hy2 : y ∈ (removeready a s).readyList p := hy
            rw [hrl] at hy2
            exact hy2)

/-- A task on its ready queue, across one operation of the kernel: either it
stays on the queue and no task has got in front of it (those in front of it
are still the same, less the ones taken off the front), or it has been made
the active task, and then no task was in front of it and no task of a higher
priority is ready. -/
theorem step_ahead {L : Nat} {k k2 : Kernel} {T : TaskId} (op : KOp) (hq : QueuesOk L k)
    (ha : ActiveOk k) (hT : T ∈ k.readyList (k.tasks T).priority)
    (h : op.step L k = some k2) :
    (T ∈ k2.readyList (k2.tasks T).priority ∧ ∃ gone, ahead T k = gone ++ ahead T k2) ∨
    (Runs T k2 ∧ ahead T k = [] ∧
      ∀ p x, x ∈ k2.readyList p → (k2.tasks x).priority ≤ (k2.tasks T).priority) := by
  rcases step_shape op hq ha h with hg | ⟨m, s3, hg, hok, hr, e1, e2, e3⟩
  · obtain ⟨h1, h2⟩ := ahead_grown hg hT
    exact Or.inl ⟨h1, [], by rw [h2]; rfl⟩
  · obtain ⟨h1, h2⟩ := ahead_grown hg hT
    have ea : ahead T k2 = ahead T s3 := by
      unfold ahead
      rw [e1, e2]
    rcases resched_ahead hok h1 hr with ⟨g1, g2⟩ | ⟨g1, g2, g3⟩
    · refine Or.inl ⟨by rw [e1, e2]; exact g1, ?_⟩
      rw [ea, ← h2]
      exact g2
    · refine Or.inr ⟨⟨by rw [e3]; exact g1.1, by rw [e2]; exact g1.2⟩, by rw [← h2]; exact g2, ?_⟩
      rw [e1, e2]
      exact g3

/-- C16: the active task `T` calls `relinquish` (behind `ARTK_Yield`) in a
kernel whose queues agree with the task states. Before `resched` runs, `T` is
in the Ready state and at the back of the ready queue of its priority. When
another task is on a ready queue of that priority or above, the call returns
with a task other than `T` active, and `T` Ready on its queue behind tasks
that were all on the queue before it. From then on, whatever the operation,
no task gets in front of `T`: they leave from the front; and an operation
makes `T` the active task only when no task is in front of it any more, and
then no ready task has a higher priority. -/
theorem yield_goes_behind (L : Nat) (s : Kernel) (T : TaskId) (hq : QueuesOk L s)
    (hact : ActiveOk s) (ha : s.activeTask = some T) :
    relinquish L s = resched L (addready T (makeTaskReady T s)) ∧
    ((addready T (makeTaskReady T s)).tasks T).state = TASK_READY ∧
    (addready T (makeTaskReady T s)).readyList (s.tasks T).priority =
      s.readyList (s.tasks T).priority ++ [T] ∧
    (∀ x p, x ≠ T → x ∈ s.readyList p → (s.tasks T).priority ≤ p →
      ∃ s2 b, relinquish L s = some s2 ∧ Runs b s2 ∧ b ≠ T ∧
        (s2.tasks T).state = TASK_READY ∧ T ∈ s2.readyList (s2.tasks T).priority ∧
        ∃ gone, s.readyList (s.tasks T).priority = gone ++ ahead T s2) ∧
    (∀ (k k2 : Kernel) (op : KOp), QueuesOk L k → ActiveOk k →
      T ∈ k.readyList (k.tasks T).priority → op.step L k = some k2 →
      (T ∈ k2.readyList (k2.tasks T).priority ∧ ∃ gone, ahead T k = gone ++ ahead T k2) ∨
      (Runs T k2 ∧ ahead T k = [] ∧
        ∀ p x, x ∈ k2.readyList p → (k2.tasks x).priority ≤ (k2.tasks T).priority)) := by
  have hd := detached_of_state hq (hact T ha)
  have hrel : relinquish L s = resched L (addready T (makeTaskReady T s)) := by
    unfold relinquish
    rw [ha]
  have hprio : ((makeTaskReady T s).tasks T).priority = (s.tasks T).priority := by simp
  have hrl : (addready T (makeTaskReady T s)).readyList (s.tasks T).priority =
      s.readyList (s.tasks T).priority ++ [T] := by
    show Function.update s.readyList ((makeTaskReady T s).tasks T).priority
      (s.readyList ((makeTaskReady T s).tasks T).priority ++ [T]) (s.tasks T).priority = _
    rw [hprio, Function.update_same]
  refine ⟨hrel, by simp, hrl, fun x p hx hm hp => ?_,
    fun k k2 op hk hka hT hs => step_ahead op hk hka hT hs⟩
  have hqm : QueuesOk L (addready T (makeTaskReady T s)) := queuesOk_addready hq hd
  have hokm := readyOk_of_queuesOk hqm
  have hTm : T ∈ (addready T (makeTaskReady T s)).readyList
      ((addready T (makeTaskReady T s)).tasks T).priority := by
    show T ∈ (addready T (makeTaskReady T s)).readyList ((makeTaskReady T s).tasks T).priority
    rw [hprio, hrl]
    simp
  have ham : ahead T (addready T (makeTaskReady T s)) = s.readyList (s.tasks T).priority := by
    unfold ahead
    show List.takeWhile _ ((addready T (makeTaskReady T s)).readyList
      ((makeTaskReady T s).tasks T).priority) = _
    rw [hprio, hrl]
    exact takeWhile_ne_of_not_mem _ [] (hd.1 _)
  have hpL : p < L := by
    rw [← (hq.ready_mem p x hm).1]
    exact hq.prio x
  obtain ⟨s2, h2⟩ := resched_isSome L (addready T (makeTaskReady T s))
    ⟨(s.tasks T).priority, hq.prio T, by rw [hrl]; simp⟩
  obtain ⟨q2, a2⟩ := queuesOk_resched hqm h2
  obtain ⟨p0, t, rest, hpick, hrest, hact2, hrl2, htasks, _⟩ := resched_spec h2
  obtain ⟨_, _, hhigh⟩ := pickReady_spec _ L p0 t hpick
  have htT : t ≠ T := by
    intro e
    subst e
    have hp0 : p0 = (s.tasks t).priority := by
      have := hokm.2 p0 t (by rw [hrest]; exact List.mem_cons_self _ _)
      rw [← this]
      exact hprio
    subst hp0
    rw [hrl] at hrest
    have hnil : s.readyList (s.tasks t).priority = [] := by
      cases hc : s.readyList (s.tasks t).priority with
      | nil => rfl
      | cons y l =>
        rw [hc] at hrest
        have hy : y = t := (List.cons.inj hrest).1
        exact absurd (by rw [hc, hy]; exact List.mem_cons_self _ _) (hd.1 (s.tasks t).priority)
    rcases Nat.lt_or_ge (s.tasks t).priority p with hlt | hge
    · have hx2 : x ∈ (addready t (makeTaskReady t s)).readyList p := by
        obtain ⟨l, e⟩ := (readyGrown_addready t s).2 p
        rw [e]
        exact List.mem_append_left _ hm
      rw [hhigh p hlt hpL] at hx2
      exact List.not_mem_nil _ hx2
    · have hpe : p = (s.tasks t).priority := Nat.le_antisymm hge hp
      rw [hpe, hnil] at hm
      exact List.not_mem_nil _ hm
  rcases resched_ahead hokm hTm h2 with ⟨g1, g2⟩ | ⟨g1, _, _⟩
  · refine ⟨s2, t, by rw [hrel]; exact h2, ⟨hact2, a2 t hact2⟩, htT,
      (q2.ready_mem _ T g1).2, g1, ?_⟩
    rw [← ham]
    exact g2
  · exact absurd (Option.some.inj (hact2.symm.trans g1.1)) htT

theorem twins_setup : Setup 17 twins := by
  refine Setup.createTask 0 true 0 256 true
    (Setup.createTask 2 false 3 256 true
      (Setup.createTask 1 false 3 256 true Setup.init ?_) ?_) ?_
  · exact ⟨fun p => by simp [Kernel.init], fun i => by simp [Kernel.init],
      fun n hn => by simp [Kernel.init] at hn, by simp [Kernel.init]⟩
  · exact ⟨fun p => not_mem_update (by decide) (fun p => List.not_mem_nil _),
      fun i => List.not_mem_nil _, fun n hn => absurd hn (List.not_mem_nil _), by decide⟩
  · exact ⟨fun p => not_mem_update (by decide)
        (fun p => not_mem_update (by decide) (fun p => List.not_mem_nil _)),
      fun i => List.not_mem_nil _, fun n hn => absurd hn (List.not_mem_nil _), by decide⟩

theorem twinsStarted_running : Running 17 twinsStarted :=
  Running.start twins_setup rfl

theorem yield_goes_behind_witness :
    QueuesOk 17 twinsStarted ∧ ActiveOk twinsStarted ∧ twinsStarted.activeTask = some 1 ∧
    twinsStarted.readyList 3 = [2] ∧ (twinsStarted.tasks 1).priority = 3 ∧
    ∃ s2 b, relinquish 17 twinsStarted = some s2 ∧ Runs b s2 ∧ b ≠ 1 ∧
      (s2.tasks 1).state = TASK_READY ∧ 1 ∈ s2.readyList (s2.tasks 1).priority ∧
      ∃ gone, twinsStarted.readyList (twinsStarted.tasks 1).priority = gone ++ ahead 1 s2 :=
  ⟨(running_ok (by decide) twinsStarted_running).1,
    (running_ok (by decide) twinsStarted_running).2, rfl, rfl, rfl,
    (yield_goes_behind 17 twinsStarted 1 (running_ok (by decide) twinsStarted_running).1
      (running_ok (by decide) twinsStarted_running).2 rfl).2.2.2.1 2 3 (by decide) (by decide)
      (by decide)⟩

/-! ## Creation and exit of tasks -/

/-- C17: with at least two priority levels, `ARTK_CreateTask` called for a
root function other than `Idle` with any requested priority `p` registers the
task (it is Ready, on the ready queue of its priority) with the priority
`max(1, min(p, L - 1))`: a value from 1 to `L - 1`, and `p` itself when `p` is
in that range; called for `Idle` it gives the priority 0. -/
theorem createTask_clamps_priority (L : Nat) (hL : 2 ≤ L) (t : TaskId) (p stacksize : Nat)
    (s : Kernel) :
    ((ARTK_CreateTask L t false p stacksize true s).tasks t).priority = max 1 (min p (L - 1)) ∧
    1 ≤ ((ARTK_CreateTask L t false p stacksize true s).tasks t).priority ∧
    ((ARTK_CreateTask L t false p stacksize true s).tasks t).priority ≤ L - 1 ∧
    (1 ≤ p → p ≤ L - 1 →
      ((ARTK_CreateTask L t false p stacksize true s).tasks t).priority = p) ∧
    ((ARTK_CreateTask L t false p stacksize true s).tasks t).state = TASK_READY ∧
    t ∈ (ARTK_CreateTask L t false p stacksize true s).readyList (max 1 (min p (L - 1))) ∧
    ((ARTK_CreateTask L t true p stacksize true s).tasks t).priority = 0 := by
  have h1 : ((ARTK_CreateTask L t false p stacksize true s).tasks t).priority =
      if (if p < 1 then 1 else p) ≥ L then L - 1 else (if p < 1 then 1 else p) := by
    simp [ARTK_CreateTask, Task.create, addNewTask]
  have h2 : (if (if p < 1 then 1 else p) ≥ L then L - 1 else (if p < 1 then 1 else p)) =
      max 1 (min p (L - 1)) := by
    split_ifs <;> omega
  have h3 : t ∈ (ARTK_CreateTask L t false p stacksize true s).readyList
      ((ARTK_CreateTask L t false p stacksize true s).tasks t).priority := by
    simp [ARTK_CreateTask, Task.create, addNewTask]
  rw [h1, h2] at h3
  rw [h1, h2]
  refine ⟨rfl, by omega, by omega, fun ha hb => by omega, ?_, h3, ?_⟩
  · simp [ARTK_CreateTask, Task.create, addNewTask]
  · simp [ARTK_CreateTask, Task.create, addNewTask]

theorem createTask_clamps_priority_witness :
    2 ≤ 17 ∧ ((ARTK_CreateTask 17 1 false 0 256 true Kernel.init).tasks 1).priority = 1 ∧
    ((ARTK_CreateTask 17 1 false 40 256 true Kernel.init).tasks 1).priority = 16 ∧
    ((ARTK_CreateTask 17 1 false 5 256 true Kernel.init).tasks 1).priority = 5 :=
  ⟨by decide, (createTask_clamps_priority 17 (by decide) 1 0 256 Kernel.init).1,
    (createTask_clamps_priority 17 (by decide) 1 40 256 Kernel.init).1,
    (createTask_clamps_priority 17 (by decide) 1 5 256 Kernel.init).2.2.2.1 (by decide)
      (by decide)⟩

/-- C18: a call of `ARTK_CreateTask` whose `malloc` fails leaves the kernel
as it was: the constructor returns before it reaches `addNewTask`, so every
ready queue, `numTasks`, the active task and every task descriptor the
scheduler knows are what they were, and the task is on no ready queue that it
was not on. -/
theorem failed_creation_unchanged (L : Nat) (t : TaskId) (isIdle : Bool)
    (priority stacksize : Nat) (s : Kernel) :
    ARTK_CreateTask L t isIdle priority stacksize false s = s ∧
    (ARTK_CreateTask L t isIdle priority stacksize false s).readyList = s.readyList ∧
    (ARTK_CreateTask L t isIdle priority stacksize false s).numTasks = s.numTasks ∧
    (ARTK_CreateTask L t isIdle priority stacksize false s).activeTask = s.activeTask ∧
    (ARTK_CreateTask L t isIdle priority stacksize false Kernel.init).numTasks = 0 ∧
    ∀ p, t ∉ (ARTK_CreateTask L t isIdle priority stacksize false Kernel.init).readyList p :=
  ⟨rfl, rfl, rfl, rfl, rfl, fun _ => List.not_mem_nil _⟩

/-- C19: a call of `ARTK_CreateTask` whose `malloc` succeeds leaves the new
task in the Ready state with `firstRun` set, at the back of the ready queue of
the priority it has been given; `numTasks` has gone up by exactly 1; the
active task, every other ready queue, the members of that queue in front of
the new task, every semaphore with its wait list, the sleep queue and every
other task descriptor are what they were. -/
theorem creation_registers (L : Nat) (t : TaskId) (isIdle : Bool) (priority stacksize : Nat)
    (s : Kernel) :
    ((ARTK_CreateTask L t isIdle priority stacksize true s).tasks t).state = TASK_READY ∧
    ((ARTK_CreateTask L t isIdle priority stacksize true s).tasks t).firstRun = true ∧
    (ARTK_CreateTask L t isIdle priority stacksize true s).readyList
        ((ARTK_CreateTask L t isIdle priority stacksize true s).tasks t).priority =
      s.readyList ((ARTK_CreateTask L t isIdle priority stacksize true s).tasks t).priority
        ++ [t] ∧
    ((ARTK_CreateTask L t isIdle priority stacksize true s).readyList
        ((ARTK_CreateTask L t isIdle priority stacksize true s).tasks t).priority).getLast? =
      some t ∧
    (ARTK_CreateTask L t isIdle priority stacksize true s).numTasks = s.numTasks + 1 ∧
    (ARTK_CreateTask L t isIdle priority stacksize true s).activeTask = s.activeTask ∧
    (∀ q, q ≠ ((ARTK_CreateTask L t isIdle priority stacksize true s).tasks t).priority →
      (ARTK_CreateTask L t isIdle priority stacksize true s).readyList q = s.readyList q) ∧
    (ARTK_CreateTask L t isIdle priority stacksize true s).semas = s.semas ∧
    (ARTK_CreateTask L t isIdle priority stacksize true s).pSleepHead = s.pSleepHead ∧
    ∀ x, x ≠ t → (ARTK_CreateTask L t isIdle priority stacksize true s).tasks x = s.tasks x := by
  have hrl : (ARTK_CreateTask L t isIdle priority stacksize true s).readyList
        ((ARTK_CreateTask L t isIdle priority stacksize true s).tasks t).priority =
      s.readyList ((ARTK_CreateTask L t isIdle priority stacksize true s).tasks t).priority
        ++ [t] := by
    simp [ARTK_CreateTask, Task.create, addNewTask]
  refine ⟨by simp [ARTK_CreateTask, Task.create, addNewTask],
    by simp [ARTK_CreateTask, Task.create, addNewTask], hrl, by rw [hrl]; simp, rfl, rfl,
    fun q hq => ?_, rfl, rfl, fun x hx => ?_⟩
  · have e : (ARTK_CreateTask L t isIdle priority stacksize true s).readyList =
        Function.update s.readyList
          ((ARTK_CreateTask L t isIdle priority stacksize true s).tasks t).priority
          (s.readyList ((ARTK_CreateTask L t isIdle priority stacksize true s).tasks t).priority
            ++ [t]) := by
      simp [ARTK_CreateTask, Task.create, addNewTask]
    rw [e, Function.update_noteq hq]
  · simp [ARTK_CreateTask, Task.create, addNewTask, Function.update_noteq hx]

/-! ## The queues of every reachable state -/

theorem live_of_running {L : Nat} {s : Kernel} (h : Running L s) : Live L s := by
  induction h with
  | start h0 hs => exact Live.start h0 hs
  | step op _ hs ih => exact Live.step op ih hs

theorem createTask_activeOk {L : Nat} {s : Kernel} (t : TaskId) (isIdle : Bool)
    (priority stacksize : Nat) (stackOk : Bool) (hf : Fresh t s) (ha : ActiveOk s) :
    ActiveOk (ARTK_CreateTask L t isIdle priority stacksize stackOk s) := by
  intro a hact
  cases stackOk with
  | false => exact ha a hact
  | true =>
    have hact2 : s.activeTask = some a := hact
    have hne : a ≠ t := fun e => hf.2.2.2 (e ▸ hact2)
    have e : (ARTK_CreateTask L t isIdle priority stacksize true s).tasks a = s.tasks a := by
      simp [ARTK_CreateTask, Task.create, addNewTask, Function.update_noteq hne]
    rw [e]
    exact ha a hact2

theorem createSema_ok {L : Nat} {s : Kernel} (i : SemId) (c : Int) (h : QueuesOk L s) :
    QueuesOk L (ARTK_CreateSema i c s) := by
  refine queuesOk_shrink h rfl rfl (fun j => ?_) (fun y => Nat.le_refl _)
  by_cases hj : j = i
  · subst hj
    simp [ARTK_CreateSema, Semaphore.create]
  · simp [ARTK_CreateSema, Semaphore.create, Function.update_noteq hj]

/-- In every state of a started kernel, creations included, the queues agree
with the task states and the active task is in the Active state. -/
theorem live_ok {L : Nat} (hL : 0 < L) {s : Kernel} (h : Live L s) :
    QueuesOk L s ∧ ActiveOk s := by
  induction h with
  | start h0 hs => exact queuesOk_resched (setup_ok hL h0).1 hs
  | step op _ hs ih => exact step_ok op ih.1 ih.2 hs
  | createTask t isIdle priority stacksize stackOk _ hf ih =>
    exact ⟨createTask_ok hL t isIdle priority stacksize stackOk hf ih.1,
      createTask_activeOk t isIdle priority stacksize stackOk hf ih.2⟩
  | createSema i c _ ih => exact ⟨createSema_ok i c ih.1, fun a ha => ih.2 a ha⟩

/-- C21: in every state of the kernel, in `setup` and after the start,
reached through the creation of tasks and semaphores, `sleep`, `yield`, the
two waits, `signal`, ticks and task exits, a task is in the Ready state if and
only if it is on the ready queue of its priority; it is on no other ready
queue, and on its own only once; a task on a ready queue is on no wait list,
and a task on a wait list is on no other wait list, and on its own only
once. -/
theorem ready_iff_on_own_queue (L : Nat) (hL : 0 < L) (s : Kernel)
    (h : Setup L s ∨ Live L s) :
    (∀ x, (s.tasks x).state = TASK_READY ↔ x ∈ s.readyList (s.tasks x).priority) ∧
    (∀ x p, x ∈ s.readyList p → p = (s.tasks x).priority) ∧
    (∀ p, (s.readyList p).Nodup) ∧
    (∀ x p i, x ∈ s.readyList p → x ∉ (s.semas i).taskList) ∧
    (∀ x i j, x ∈ (s.semas i).taskList → x ∈ (s.semas j).taskList → i = j) ∧
    (∀ i, (s.semas i).taskList.Nodup) := by
  have hq : QueuesOk L s := by
    rcases h with h | h
    · exact (setup_ok hL h).1
    · exact (live_ok hL h).1
  refine ⟨fun x => ⟨hq.ready_state x, fun hx => (hq.ready_mem _ x hx).2⟩,
    fun x p hx => (hq.ready_mem p x hx).1.symm, hq.ready_nodup, fun x p i hx hm => ?_,
    fun x i j => hq.sema_disj i j x, hq.sema_nodup⟩
  have h1 := (hq.ready_mem p x hx).2
  rcases hq.sema_mem i x hm with e | e <;> rw [h1] at e <;> cases e

theorem ready_iff_on_own_queue_witness :
    0 < 17 ∧ (Setup 17 lowWaits ∨ Live 17 lowWaits) ∧
    ((lowWaits.tasks 0).state = TASK_READY ↔ 0 ∈ lowWaits.readyList (lowWaits.tasks 0).priority) ∧
    (∀ p, (lowWaits.readyList p).Nodup) ∧
    (∀ x i j, x ∈ (lowWaits.semas i).taskList → x ∈ (lowWaits.semas j).taskList → i = j) :=
  ⟨by decide, Or.inr (live_of_running lowWaits_running),
    (ready_iff_on_own_queue 17 (by decide) lowWaits
      (Or.inr (live_of_running lowWaits_running))).1 0,
    (ready_iff_on_own_queue 17 (by decide) lowWaits
      (Or.inr (live_of_running lowWaits_running))).2.2.1,
    (ready_iff_on_own_queue 17 (by decide) lowWaits
      (Or.inr (live_of_running lowWaits_running))).2.2.2.2.1⟩

/-! ## Removal from a doubly-linked list, twice -/

theorem alone_ring (d : Nat) : Ring Links.alone d [] :=
  ⟨List.nodup_singleton d, rfl, rfl⟩

theorem sample_ring : Ring Links.sample 0 [1, 2, 3] :=
  insertBefore_ring (l := [1, 2])
    (insertBefore_ring (l := [1]) (insertBefore_ring (l := []) (alone_ring 0) (by decide))
      (by decide)) (by decide)

/-- C22: on a circular list with the head `d`, `remove` called on the member
`n` leaves the list with the members in front of `n` and those behind it, in
their order, and `n` pointing at itself, and writes to no node outside the
list, so that every other list is what it was. A second `remove` on `n` then
changes no field of any node. In the same way, the node that `removeNext`
returns points at itself, and a `remove` on it changes no field of any
node. -/
theorem remove_detaches_once (h : Links) (d n : Nat) (l1 l2 : List Nat)
    (hr : Ring h d (l1 ++ n :: l2)) :
    Ring (DNode.remove n h) d (l1 ++ l2) ∧
    (DNode.remove n h).pNext n = n ∧ (DNode.remove n h).pPrev n = n ∧
    (∀ z, z ∉ d :: (l1 ++ n :: l2) →
      (DNode.remove n h).pNext z = h.pNext z ∧ (DNode.remove n h).pPrev z = h.pPrev z) ∧
    (∀ d2 l, Ring h d2 l → (∀ z ∈ d2 :: l, z ∉ d :: (l1 ++ n :: l2)) →
      Ring (DNode.remove n h) d2 l) ∧
    DNode.remove n (DNode.remove n h) = DNode.remove n h ∧
    (∀ (k : Links) (e x : Nat) (l : List Nat), Ring k e (x :: l) →
      (DNode.removeNext e k).1 = some x ∧ Ring (DNode.removeNext e k).2 e l ∧
      (DNode.removeNext e k).2.pNext x = x ∧ (DNode.removeNext e k).2.pPrev x = x ∧
      DNode.remove x (DNode.removeNext e k).2 = (DNode.removeNext e k).2) := by
  obtain ⟨h1, h2⟩ := remove_ring hr
  refine ⟨h1, h2.2.1, h2.2.2, fun z hz => remove_frame hr z hz,
    fun d2 l hr2 hdis => ring_frame hr2 (fun z hz => remove_frame hr z (hdis z hz)),
    remove_self h2, fun k e x l hk => ?_⟩
  obtain ⟨k1, k2, k3⟩ := removeNext_ring hk
  exact ⟨k1, k2, k3.2.1, k3.2.2, remove_self k3⟩

theorem remove_detaches_once_witness :
    Ring Links.sample 0 ([1] ++ 2 :: [3]) ∧
    Ring (DNode.remove 2 Links.sample) 0 ([1] ++ [3]) ∧
    (DNode.remove 2 Links.sample).pNext 2 = 2 ∧ (DNode.remove 2 Links.sample).pPrev 2 = 2 ∧
    DNode.remove 2 (DNode.remove 2 Links.sample) = DNode.remove 2 Links.sample :=
  ⟨sample_ring, (remove_detaches_once Links.sample 0 2 [1] [3] sample_ring).1,
    (remove_detaches_once Links.sample 0 2 [1] [3] sample_ring).2.1,
    (remove_detaches_once Links.sample 0 2 [1] [3] sample_ring).2.2.1,
    (remove_detaches_once Links.sample 0 2 [1] [3] sample_ring).2.2.2.2.2.1⟩

/-! ## The stack of a new task -/

/-- C23: on a stack of `s` bytes, `s` at least `MIN_STACK`, the constructor
writes from the last byte downwards. In the small model: the low and the high
byte of the address `d` of `taskDone` at the indices `s - 1` and `s - 2`, the
low and the high byte of the address `e` of the root function at `s - 3` and
`s - 4`, no other byte, and the saved stack pointer is the index `s - 5`. In
the large model: the three bytes of `d` at `s - 1`, `s - 2`, `s - 3`, the
three bytes of `e` at `s - 4`, `s - 5`, `s - 6`, no other byte, and the saved
stack pointer is the index `s - 7`. In both, the bytes of `e` start right
above the saved stack pointer and the bytes of `d` right above them, and the
saved stack pointer is the one the constructor stores in the task. -/
theorem bootstrap_layout (s d e : Nat) (stack : Stack) (hs : MIN_STACK ≤ s) :
    ((Task.bootstrap false s d e stack).2 = s - 5 ∧
      (Task.bootstrap false s d e stack).1 (s - 1) = d % 256 ∧
      (Task.bootstrap false s d e stack).1 (s - 2) = (d / 256) % 256 ∧
      (Task.bootstrap false s d e stack).1 (s - 3) = e % 256 ∧
      (Task.bootstrap false s d e stack).1 (s - 4) = (e / 256) % 256 ∧
      (∀ j, j < s - 4 ∨ s ≤ j → (Task.bootstrap false s d e stack).1 j = stack j) ∧
      (Task.bootstrap false s d e stack).1 ((Task.bootstrap false s d e stack).2 + 1) =
        (e / 256) % 256 ∧
      (Task.bootstrap false s d e stack).1 ((Task.bootstrap false s d e stack).2 + 2) =
        e % 256 ∧
      (Task.bootstrap false s d e stack).1 ((Task.bootstrap false s d e stack).2 + 3) =
        (d / 256) % 256 ∧
      (Task.bootstrap false s d e stack).1 ((Task.bootstrap false s d e stack).2 + 4) =
        d % 256) ∧
    ((Task.bootstrap true s d e stack).2 = s - 7 ∧
      (Task.bootstrap true s d e stack).1 (s - 1) = d % 256 ∧
      (Task.bootstrap true s d e stack).1 (s - 2) = (d / 256) % 256 ∧
      (Task.bootstrap true s d e stack).1 (s - 3) = (d / 65536) % 256 ∧
      (Task.bootstrap true s d e stack).1 (s - 4) = e % 256 ∧
      (Task.bootstrap true s d e stack).1 (s - 5) = (e / 256) % 256 ∧
      (Task.bootstrap true s d e stack).1 (s - 6) = (e / 65536) % 256 ∧
      (∀ j, j < s - 6 ∨ s ≤ j → (Task.bootstrap true s d e stack).1 j = stack j) ∧
      (Task.bootstrap true s d e stack).1 ((Task.bootstrap true s d e stack).2 + 1) =
        (e / 65536) % 256 ∧
      (Task.bootstrap true s d e stack).1 ((Task.bootstrap true s d e stack).2 + 4) =
        (d / 65536) % 256) ∧
    ∀ (t : TaskId) (taskPriority : Nat) (k : Kernel),
      ((Task.create t taskPriority s true k).tasks t).pStack =
        (Task.bootstrap k.glargeModel s d e stack).2 := by
  have hs2 : 256 ≤ s := hs
  obtain ⟨m, rfl⟩ : ∃ m, s = m + 7 := ⟨s - 7, by omega⟩
  clear hs hs2
  have hsmall : Task.bootstrap false (m + 7) d e stack =
      (Function.update (Function.update (Function.update (Function.update stack
        (m + 6) (d % 256)) (m + 5) (d / 256 % 256)) (m + 4) (e % 256)) (m + 3) (e / 256 % 256),
        m + 2) := by
    simp [Task.bootstrap, pushByte]
  have hlarge : Task.bootstrap true (m + 7) d e stack =
      (Function.update (Function.update (Function.update (Function.update (Function.update
        (Function.update stack (m + 6) (d % 256)) (m + 5) (d / 256 % 256))
        (m + 4) (d / 65536 % 256)) (m + 3) (e % 256)) (m + 2) (e / 256 % 256))
        (m + 1) (e / 65536 % 256), m) := by
    simp [Task.bootstrap, pushByte]
  refine ⟨?_, ?_, fun t taskPriority k => ?_⟩
  · rw [hsmall]
    refine ⟨by simp, by simp [Function.update_apply], by simp [Function.update_apply],
      by simp [Function.update_apply], by simp [Function.update_apply], fun j hj => ?_,
      by simp [Function.update_apply], by simp [Function.update_apply],
      by simp [Function.update_apply], by simp [Function.update_apply]⟩
    have j1 : j ≠ m + 6 := by omega
    have j2 : j ≠ m + 5 := by omega
    have j3 : j ≠ m + 4 := by omega
    have j4 : j ≠ m + 3 := by omega
    simp [Function.update_apply, j1, j2, j3, j4]
  · rw [hlarge]
    refine ⟨by simp, by simp [Function.update_apply], by simp [Function.update_apply],
      by simp [Function.update_apply], by simp [Function.update_apply],
      by simp [Function.update_apply], by simp [Function.update_apply], fun j hj => ?_,
      by simp [Function.update_apply], by simp [Function.update_apply]⟩
    have j1 : j ≠ m + 6 := by omega
    have j2 : j ≠ m + 5 := by omega
    have j3 : j ≠ m + 4 := by omega
    have j4 : j ≠ m + 3 := by omega
    have j5 : j ≠ m + 2 := by omega
    have j6 : j ≠ m + 1 := by omega
    simp [Function.update_apply, j1, j2, j3, j4, j5, j6]
  · cases hg : k.glargeModel
    · rw [hsmall]
      simp [Task.create, addNewTask, hg]
    · rw [hlarge]
      simp [Task.create, addNewTask, hg]

theorem bootstrap_layout_witness :
    MIN_STACK ≤ 256 ∧ (Task.bootstrap false 256 0x1234 0x5678 (fun _ => 0)).2 = 251 ∧
    (Task.bootstrap false 256 0x1234 0x5678 (fun _ => 0)).1 255 = 0x34 ∧
    (Task.bootstrap false 256 0x1234 0x5678 (fun _ => 0)).1 252 = 0x56 :=
  ⟨by decide, (bootstrap_layout 256 0x1234 0x5678 (fun _ => 0) (by decide)).1.1,
    (bootstrap_layout 256 0x1234 0x5678 (fun _ => 0) (by decide)).1.2.1,
    (bootstrap_layout 256 0x1234 0x5678 (fun _ => 0) (by decide)).1.2.2.2.2.1⟩

/-! ## The context switch of `resched` -/

/-- C24: `resched` has chosen the task `t`, the front of the queue `p`. When
`t` is the active task, the call returns with `t` still active and in the
Active state, its saved stack pointer and its `firstRun` flag as they were,
and no call into the context-switch routines. Otherwise the call returns with
`t` active, in the Active state, with `firstRun` cleared, and one call into the
context-switch routines on top of those made before: `FirstSwitch` when there
was no active task, and else `ContextSwitch` with the task that was active;
both get the saved stack pointer of `t`, and `ContextSwitch` gets the value
`firstRun` had before the call. So a context switch is made if and only if
the chosen task is not the active task. -/
theorem resched_switches_iff_other (L : Nat) (s : Kernel) (p : Nat) (t : TaskId)
    (hpick : pickReady s.readyList L = some (p, t)) :
    ∃ s2, resched L s = some s2 ∧ s2.activeTask = some t ∧ (s2.tasks t).state = TASK_ACTIVE ∧
      (s2.tasks t).pStack = (s.tasks t).pStack ∧
      (s.activeTask = some t →
        (s2.tasks t).firstRun = (s.tasks t).firstRun ∧ s2.switches = s.switches ∧
        s2.interrupts = s.interrupts) ∧
      (s.activeTask ≠ some t →
        (s2.tasks t).firstRun = false ∧
        (s.activeTask = none →
          s2.switches = SwitchCall.FirstSwitch (s.tasks t).pStack :: s.switches) ∧
        (∀ old, s.activeTask = some old →
          s2.switches =
            SwitchCall.ContextSwitch old (s.tasks t).pStack (s.tasks t).firstRun ::
              s.switches)) ∧
      (s2.switches ≠ s.switches ↔ s.activeTask ≠ some t) := by
  unfold resched
  rw [hpick]
  simp only
  by_cases hact : s.activeTask = some t
  · rw [if_pos hact]
    refine ⟨_, rfl, hact, by simp, by simp, fun _ => ⟨by simp, rfl, rfl⟩,
      fun h => absurd hact h, ?_⟩
    exact ⟨fun h => absurd rfl h, fun h => absurd hact h⟩
  · rw [if_neg hact]
    refine ⟨_, rfl, rfl, by simp, by simp, fun h => absurd h hact,
      fun _ => ⟨by simp, fun hn => by simp [hn], fun old ho => by simp [ho]⟩, ?_⟩
    refine ⟨fun _ => hact, fun _ => ?_⟩
    intro e
    have := congrArg List.length e
    simp at this

theorem resched_switches_iff_other_witness :
    pickReady twoTasks.readyList 17 = some (3, 1) ∧ twoTasks.activeTask = none ∧
    ∃ s2, resched 17 twoTasks = some s2 ∧ s2.activeTask = some 1 ∧
      (s2.tasks 1).state = TASK_ACTIVE ∧ (s2.tasks 1).firstRun = false ∧
      s2.switches = SwitchCall.FirstSwitch (twoTasks.tasks 1).pStack :: twoTasks.switches := by
  obtain ⟨s2, h1, h2, h3, _, _, h6, _⟩ := resched_switches_iff_other 17 twoTasks 3 1 rfl
  have hne : twoTasks.activeTask ≠ some 1 := by decide
  exact ⟨rfl, rfl, s2, h1, h2, h3, (h6 hne).1, (h6 hne).2.1 rfl⟩

/-! ## The head of the sleep queue between ticks -/

theorem sleepBuilt_inv {q : List DQNode} (h : SleepBuilt q) :
    HeadNonzero q ∧ totalTicks q < UINT_MOD := by
  induction h with
  | empty => exact ⟨trivial, by decide⟩
  | insert t count _ hc hlt ih =>
    refine ⟨headNonzero_addSleeper t _ count hc ih.1, ?_⟩
    rw [totalTicks_addSleeper]
    exact max_lt hlt ih.2
  | tick _ ih =>
    refine ⟨headNonzero_afterWakers _, ?_⟩
    unfold tickQueue
    rw [totalTicks_afterWakers]
    exact lt_of_le_of_lt (totalTicks_sleepDecrement_le _ ih.1) ih.2
  | cancel t _ ih =>
    exact ⟨headNonzero_removeSleeper t _ ih.2 ih.1,
      lt_of_le_of_lt (totalTicks_removeSleeper_le t _ ih.2) ih.2⟩

/-- C25: a sleep queue built from the empty queue by `addSleeper` with
positive counts, `removeSleeper` and complete runs of the tick handler has,
when it is not empty, a head delta of at least 1, and its deltas add up to
less than 2^16. So the `sleepDecrement` of the next tick takes 1 from a delta
that is not 0: the new delta is the old one minus 1, as a number, and the
`unsigned int` does not wrap around. -/
theorem head_delta_positive (q : List DQNode) (h : SleepBuilt q) :
    HeadNonzero q ∧ totalTicks q < UINT_MOD ∧
    ∀ n rest, q = n :: rest →
      1 ≤ n.dcount ∧ uintDec n.dcount = n.dcount - 1 ∧ uintDec n.dcount < n.dcount ∧
      sleepDecrement q = { n with dcount := n.dcount - 1 } :: rest := by
  obtain ⟨h1, h2⟩ := sleepBuilt_inv h
  refine ⟨h1, h2, fun n rest hq => ?_⟩
  subst hq
  have hn : n.dcount ≠ 0 := h1
  have hd := uintDec_pos hn
  refine ⟨Nat.pos_of_ne_zero hn, hd, ?_, ?_⟩
  · rw [hd]
    omega
  · simp [sleepDecrement, hd]

theorem head_delta_positive_witness :
    SleepBuilt (removeSleeper 1 (tickQueue (addSleeper 2 3 (addSleeper 1 1 [])))) ∧
    removeSleeper 1 (tickQueue (addSleeper 2 3 (addSleeper 1 1 []))) = [⟨2, 2⟩] ∧
    HeadNonzero (removeSleeper 1 (tickQueue (addSleeper 2 3 (addSleeper 1 1 [])))) :=
  ⟨SleepBuilt.cancel 1 (SleepBuilt.tick (SleepBuilt.insert 2 3
      (SleepBuilt.insert 1 1 SleepBuilt.empty (by decide) (by decide)) (by decide) (by decide))),
    by decide,
    (head_delta_positive _ (SleepBuilt.cancel 1 (SleepBuilt.tick (SleepBuilt.insert 2 3
      (SleepBuilt.insert 1 1 SleepBuilt.empty (by decide) (by decide)) (by decide)
      (by decide))))).1⟩

/-! ## The interrupt flag when a semaphore call returns -/

/-- The calls on a semaphore that return with `sei()`: `wait()` that finds a
permit, `wait(0)` that finds none, and `signal()`, whether it finds the wait
list empty, wakes a task that does not preempt, or has been through `resched`.
All three return with interrupts enabled. -/
theorem semaphore_returns_enabled (L : Nat) (s : Kernel) (i : SemId) :
    (0 < (s.semas i).count → ∃ s2, Semaphore.wait L i s = some s2 ∧ s2.interrupts = true) ∧
    (∀ a, s.activeTask = some a → (s.semas i).count ≤ 0 →
      ∃ s2, Semaphore.waitTimed L i 0 s = some (s2, WaitOutcome.returned TIMED_OUT) ∧
        s2.interrupts = true) ∧
    (∀ s2, Semaphore.signal L i s = some s2 → s2.interrupts = true) := by
  refine ⟨fun hc => ?_, fun a ha hc => ?_, fun s2 h => ?_⟩
  · unfold Semaphore.wait
    simp only
    rw [if_pos (by simpa using hc)]
    exact ⟨_, rfl, rfl⟩
  · have hc2 : ¬ (s.semas i).count > 0 := by omega
    refine ⟨sei (cli (setTimedOut a false s)), ?_, rfl⟩
    unfold Semaphore.waitTimed
    simp only [ha]
    rw [if_neg (by simpa using hc2)]
    simp
  · unfold Semaphore.signal at h
    simp only at h
    split at h
    · cases h
      rfl
    · split at h
      · cases h
      · split at h
        · simp only [Option.map_eq_some'] at h
          obtain ⟨s4, _, rfl⟩ := h
          rfl
        · cases h
          rfl

/-- The call `wait(timeout)` that finds a permit returns `ACQUIRED_SEMA`
behind the `cli()` of its first lines, without a `sei()`: interrupts are
disabled when it returns, whatever they were. -/
theorem waitTimed_acquires_disabled (L : Nat) (s : Kernel) (i : SemId) (a : TaskId)
    (timeout : Nat) (ha : s.activeTask = some a) (hc : 0 < (s.semas i).count) :
    ∃ s2, Semaphore.waitTimed L i timeout s = some (s2, WaitOutcome.returned ACQUIRED_SEMA) ∧
      s2.interrupts = false ∧ (s2.semas i).count = intDec (s.semas i).count := by
  unfold Semaphore.waitTimed
  simp only [ha]
  rw [if_pos (by simpa using hc)]
  exact ⟨_, rfl, rfl, by simp⟩

/-- C26 fails for `wait(timeout)` on a semaphore with a permit. In the kernel
`semaRun` the task at address 1 is active, interrupts are enabled and the
semaphore has the count 1; the task calls `wait(5)`: the call returns
`ACQUIRED_SEMA`, the count is 0, and interrupts are disabled. The same task
calling `wait()` instead returns with interrupts enabled. -/
theorem waitTimed_returns_with_interrupts_off :
    semaRun.activeTask = some 1 ∧ semaRun.interrupts = true ∧ (semaRun.semas 0).count = 1 ∧
    (∃ s2, Semaphore.waitTimed 17 0 5 semaRun = some (s2, WaitOutcome.returned ACQUIRED_SEMA) ∧
      s2.interrupts = false ∧ (s2.semas 0).count = 0) ∧
    ∃ s2, Semaphore.wait 17 0 semaRun = some s2 ∧ s2.interrupts = true :=
  ⟨rfl, rfl, by decide, ⟨_, rfl, rfl, by decide⟩, ⟨_, rfl, rfl⟩⟩

/-! ## `resched` always finds a task -/

/-- The call `resched` finds no task exactly when every ready queue is
empty. -/
theorem resched_eq_none_iff (L : Nat) (m : Kernel) :
    resched L m = none ↔ ∀ p, p < L → m.readyList p = [] := by
  constructor
  · intro h p hp
    by_contra hne
    obtain ⟨s2, h2⟩ := resched_isSome L m ⟨p, hp, hne⟩
    rw [h] at h2
    cases h2
  · intro h
    cases hr : resched L m with
    | none => rfl
    | some s2 =>
      obtain ⟨p, t, rest, hpick, hrest, _⟩ := resched_spec hr
      obtain ⟨hp, _, _⟩ := pickReady_spec _ L p t hpick
      rw [h p hp] at hrest
      cases hrest

theorem ready_nonempty {L : Nat} {s : Kernel} {x : TaskId} (hq : QueuesOk L s)
    (hx : (s.tasks x).state = TASK_READY) : ∃ p, p < L ∧ s.readyList p ≠ [] :=
  ⟨(s.tasks x).priority, hq.prio x, List.ne_nil_of_mem (hq.ready_state x hx)⟩

theorem addready_nonempty {L : Nat} (a : TaskId) (s : Kernel) (hp : (s.tasks a).priority < L) :
    ∃ p, p < L ∧ (addready a s).readyList p ≠ [] := by
  refine ⟨(s.tasks a).priority, hp, ?_⟩
  show Function.update s.readyList (s.tasks a).priority _ (s.tasks a).priority ≠ []
  rw [Function.update_same]
  simp

theorem resched_active {L : Nat} {m s3 : Kernel} (h : resched L m = some s3) :
    ∃ b, s3.activeTask = some b := by
  obtain ⟨_, t, _, _, _, hact, _⟩ := resched_spec h
  exact ⟨t, hact⟩

/-- After `resched` has run on a state in which the task `a` is Ready on its
queue, `a` is the active task or is still Ready. -/
theorem resched_keeps {L : Nat} {m s3 : Kernel} {a : TaskId} (hok : ReadyOk L m)
    (ha : a ∈ m.readyList (m.tasks a).priority) (h : resched L m = some s3)
    (hq3 : QueuesOk L s3) :
    s3.activeTask = some a ∨ (s3.tasks a).state = TASK_READY := by
  rcases resched_ahead hok ha h with ⟨g1, _⟩ | ⟨g1, _, _⟩
  · exact Or.inr (hq3.ready_mem _ a g1).2
  · exact Or.inl g1.1

theorem mem_addready_self (a : TaskId) (s : Kernel) :
    a ∈ (addready a s).readyList ((addready a s).tasks a).priority := by
  show a ∈ Function.update s.readyList (s.tasks a).priority _ (s.tasks a).priority
  rw [Function.update_same]
  simp

/-- Across an operation there is still an active task; and across one that
does not block its caller, the task that was active is still active or has
been made Ready. -/
theorem step_keeps_active {L : Nat} {s s2 : Kernel} {a : TaskId} (op : KOp)
    (hq : QueuesOk L s) (hao : ActiveOk s) (ha : s.activeTask = some a)
    (h : op.step L s = some s2) :
    (∃ b, s2.activeTask = some b) ∧
      (op.blocks = false → s2.activeTask = some a ∨ (s2.tasks a).state = TASK_READY) := by
  have hq2 := (step_ok op hq hao h).1
  have hok := readyOk_of_queuesOk hq
  cases op with
  | sleep ticks =>
    refine ⟨?_, fun hb => by cases hb⟩
    simp only [KOp.step, ARTK_Sleep, ha] at h
    unfold task_sleep at h
    split at h
    · exact resched_active h
    · cases h
      exact ⟨a, ha⟩
  | yield =>
    simp only [KOp.step, ARTK_Yield, relinquish, ha] at h
    have hokm : ReadyOk L (addready a (makeTaskReady a s)) :=
      readyOk_addready _ (readyOk_same hok (fun y => by simp) (fun p y hy => hy))
    exact ⟨resched_active h, fun _ => resched_keeps hokm (mem_addready_self a _) h hq2⟩
  | wait j =>
    refine ⟨?_, fun hb => by cases hb⟩
    simp only [KOp.step, Semaphore.wait] at h
    split at h
    · cases h
      exact ⟨a, ha⟩
    · split at h
      · cases h
      · exact resched_active h
  | waitTimed j timeout =>
    refine ⟨?_, fun hb => by cases hb⟩
    simp only [KOp.step, Option.map_eq_some'] at h
    obtain ⟨r, hr, rfl⟩ := h
    unfold Semaphore.waitTimed at hr
    simp only [ha] at hr
    split at hr
    · cases hr
      exact ⟨a, ha⟩
    · split at hr
      · cases hr
        exact ⟨a, ha⟩
      · simp only [Option.map_eq_some'] at hr
        obtain ⟨s4, h4, rfl⟩ := hr
        exact resched_active h4
  | signal j =>
    simp only [KOp.step] at h
    cases hl : (s.semas j).taskList with
    | nil =>
      rw [signal_nil hl] at h
      cases h
      exact ⟨⟨a, ha⟩, fun _ => Or.inl ha⟩
    | cons t rest =>
      rw [signal_cons ha hl] at h
      have hga : (Semaphore.signalWake t (Semaphore.granted j rest s)).activeTask = some a := by
        rw [signalWake_activeTask]
        exact ha
      have hok1 : ReadyOk L (Semaphore.signalWake t (Semaphore.granted j rest s)) :=
        readyOk_signalWake t (readyOk_same hok (fun y => rfl) (fun p y hy => hy))
      split at h
      · simp only [Option.map_eq_some'] at h
        obtain ⟨s4, h4, rfl⟩ := h
        have hokr : ReadyOk L (makeTaskReady a
            (Semaphore.signalWake t (Semaphore.granted j rest s))) :=
          readyOk_same hok1 (fun y => by simp) (fun p y hy => hy)
        have hokm := readyOk_addready a hokr
        have hq4 : QueuesOk L s4 :=
          queuesOk_frame hq2 rfl (fun _ => rfl) rfl (fun _ => rfl) (fun _ => rfl)
        have r1 := resched_active h4
        have r2 := resched_keeps hokm (mem_addready_self a _) h4 hq4
        exact ⟨r1, fun _ => r2⟩
      · cases h
        exact ⟨⟨a, hga⟩, fun _ => Or.inl hga⟩
  | tick =>
    simp only [KOp.step] at h
    rw [timerISR_unfold ha] at h
    have hdec : QueuesOk L { cli s with pSleepHead := sleepDecrement s.pSleepHead } :=
      queuesOk_shrink hq rfl rfl (fun _ => List.Sublist.refl _)
        (fun y => nodeCount_sleepDecrement_le _ y)
    obtain ⟨w1, _⟩ := wakeLoop_ok (L := L) a (sleepDecrement s.pSleepHead) (cli s) false
      hdec (hao a ha)
    have hwa : (wakeLoop a (sleepDecrement s.pSleepHead) (cli s) false).1.activeTask =
        some a := by
      rw [wakeLoop_activeTask]
      exact ha
    split at h
    · simp only [Option.map_eq_some'] at h
      obtain ⟨s4, h4, rfl⟩ := h
      have hokr : ReadyOk L (makeTaskReady a
          (wakeLoop a (sleepDecrement s.pSleepHead) (cli s) false).1) :=
        readyOk_same (readyOk_of_queuesOk w1) (fun y => by simp) (fun p y hy => hy)
      have hokm := readyOk_addready a hokr
      have hq4 : QueuesOk L s4 :=
        queuesOk_frame hq2 rfl (fun _ => rfl) rfl (fun _ => rfl) (fun _ => rfl)
      have r1 := resched_active h4
      have r2 := resched_keeps hokm (mem_addready_self a _) h4 hq4
      exact ⟨r1, fun _ => r2⟩
    · cases h
      exact ⟨⟨a, hwa⟩, fun _ => Or.inl hwa⟩
  | exit =>
    refine ⟨?_, fun hb => by cases hb⟩
    simp only [KOp.step, taskDone, ha] at h
    unfold removeTask at h
    simp only at h
    split at h
    · cases h
      exact ⟨a, ha⟩
    · exact resched_active h

/-- The invariant of a run with an idle task goes through every operation
that the idle task may make. -/
theorem idleInv_step {L : Nat} {I : TaskId} {s s2 : Kernel} (op : KOp) (hi : IdleInv L I s)
    (hop : s.activeTask = some I → op.blocks = false) (h : op.step L s = some s2) :
    IdleInv L I s2 := by
  obtain ⟨a, ha⟩ := hi.running
  obtain ⟨q2, a2⟩ := step_ok op hi.queues hi.active h
  obtain ⟨k1, k2⟩ := step_keeps_active op hi.queues hi.active ha h
  refine ⟨q2, a2, k1, ?_⟩
  rcases hi.idle with hr | hr
  · rcases step_ahead op hi.queues hi.active (hi.queues.ready_state I hr) h with
      ⟨g1, _⟩ | ⟨g1, _, _⟩
    · exact Or.inl (q2.ready_mem _ I g1).2
    · exact Or.inr g1.1
  · have haI : a = I := Option.some.inj (ha.symm.trans hr)
    subst haI
    rcases k2 (hop hr) with g | g
    · exact Or.inr g
    · exact Or.inl g

theorem idleInv_createTask {L : Nat} (hL : 0 < L) {I : TaskId} {s : Kernel} (t : TaskId)
    (isIdle : Bool) (priority stacksize : Nat) (stackOk : Bool) (hf : Fresh t s)
    (hi : IdleInv L I s) : IdleInv L I (ARTK_CreateTask L t isIdle priority stacksize stackOk s) := by
  have hact : (ARTK_CreateTask L t isIdle priority stacksize stackOk s).activeTask =
      s.activeTask := by
    cases stackOk <;> rfl
  refine ⟨createTask_ok hL t isIdle priority stacksize stackOk hf hi.queues,
    createTask_activeOk t isIdle priority stacksize stackOk hf hi.active, ?_, ?_⟩
  · rw [hact]
    exact hi.running
  · rcases hi.idle with hr | hr
    · have hne : I ≠ t := fun e => hf.1 _ (e ▸ hi.queues.ready_state I hr)
      refine Or.inl ?_
      cases stackOk with
      | false => exact hr
      | true =>
        have e : (ARTK_CreateTask L t isIdle priority stacksize true s).tasks I = s.tasks I := by
          simp [ARTK_CreateTask, Task.create, addNewTask, Function.update_noteq hne]
        rw [e]
        exact hr
    · exact Or.inr (hact.trans hr)

theorem idleInv_start {L : Nat} (hL : 0 < L) {I : TaskId} {s0 s : Kernel} (h0 : Setup L s0)
    (hI : (s0.tasks I).state = TASK_READY) (h : startMultiTasking L s0 = some s) :
    IdleInv L I s := by
  have hq0 := (setup_ok hL h0).1
  obtain ⟨q2, a2⟩ := queuesOk_resched hq0 h
  exact ⟨q2, a2, resched_active h, Or.symm
    (resched_keeps (readyOk_of_queuesOk hq0) (hq0.ready_state I hI) h q2)⟩

theorem idleRun_inv {L : Nat} (hL : 0 < L) {I : TaskId} {s : Kernel} (h : IdleRun L I s) :
    IdleInv L I s := by
  induction h with
  | start h0 hI hs => exact idleInv_start hL h0 hI hs
  | step op _ hop hs ih => exact idleInv_step op ih hop hs
  | createTask t isIdle priority stacksize stackOk _ hf ih =>
    exact idleInv_createTask hL t isIdle priority stacksize stackOk hf ih
  | createSema i c _ ih =>
    exact ⟨createSema_ok i c ih.queues, fun a ha => ih.active a ha, ih.running, ih.idle⟩

/-- With an idle task that is Ready or active, every operation that the idle
task may make returns: where it calls `resched`, a ready queue is not
empty. -/
theorem idleInv_total {L : Nat} {I : TaskId} {s : Kernel} (op : KOp) (hi : IdleInv L I s)
    (hop : s.activeTask = some I → op.blocks = false) : ∃ s2, op.step L s = some s2 := by
  obtain ⟨a, ha⟩ := hi.running
  have hq := hi.queues
  have hidle : op.blocks = true → ∃ p, p < L ∧ s.readyList p ≠ [] := by
    intro hb
    rcases hi.idle with hr | hr
    · exact ready_nonempty hq hr
    · rw [hop hr] at hb
      cases hb
  cases op with
  | sleep ticks =>
    simp only [KOp.step, ARTK_Sleep, ha]
    unfold task_sleep
    split
    · exact resched_isSome L _ (hidle rfl)
    · exact ⟨s, rfl⟩
  | yield =>
    simp only [KOp.step, ARTK_Yield, relinquish, ha]
    exact resched_isSome L _ (addready_nonempty a _ (by simpa using hq.prio a))
  | wait j =>
    simp only [KOp.step, Semaphore.wait]
    split
    · exact ⟨_, rfl⟩
    · have ha2 : (cli s).activeTask = some a := ha
      rw [ha2]
      exact resched_isSome L _ (hidle rfl)
  | waitTimed j timeout =>
    simp only [KOp.step]
    unfold Semaphore.waitTimed
    simp only [ha]
    split
    · exact ⟨_, rfl⟩
    · split
      · exact ⟨_, rfl⟩
      · obtain ⟨s4, h4⟩ := resched_isSome L
          (Semaphore.timedBlocked j a timeout s) (hidle rfl)
        refine ⟨s4, ?_⟩
        have h5 : resched L ((makeTaskSemaphoreTimedBlocked a
            { cli (setTimedOut a false s) with
              pSleepHead := addSleeper a timeout (cli (setTimedOut a false s)).pSleepHead
            }).modifySema j (fun m => { m with taskList := m.taskList ++ [a] })) = some s4 := h4
        rw [h5]
        rfl
  | signal j =>
    simp only [KOp.step]
    cases hl : (s.semas j).taskList with
    | nil => exact ⟨_, signal_nil hl⟩
    | cons t rest =>
      rw [signal_cons ha hl]
      split
      · obtain ⟨s4, h4⟩ := resched_isSome L (addready a (makeTaskReady a
            (Semaphore.signalWake t (Semaphore.granted j rest s))))
          (addready_nonempty a _ (by
            show ((makeTaskReady a (Semaphore.signalWake t
              (Semaphore.granted j rest s))).tasks a).priority < L
            have e : ((makeTaskReady a (Semaphore.signalWake t
                (Semaphore.granted j rest s))).tasks a).priority =
                ((Semaphore.signalWake t (Semaphore.granted j rest s)).tasks a).priority := by
              simp
            rw [e, signalWake_priority]
            exact hq.prio a))
        exact ⟨sei s4, by rw [h4]; rfl⟩
      · exact ⟨_, rfl⟩
  | tick =>
    simp only [KOp.step]
    rw [timerISR_unfold ha]
    split
    · obtain ⟨s4, h4⟩ := resched_isSome L (addready a (makeTaskReady a
          (wakeLoop a (sleepDecrement s.pSleepHead) (cli s) false).1))
        (addready_nonempty a _ (by
          have e : ((makeTaskReady a
              (wakeLoop a (sleepDecrement s.pSleepHead) (cli s) false).1).tasks a).priority =
              ((wakeLoop a (sleepDecrement s.pSleepHead) (cli s) false).1.tasks a).priority := by
            simp
          rw [e, wakeLoop_priority]
          exact hq.prio a))
      exact ⟨sei s4, by rw [h4]; rfl⟩
    · exact ⟨_, rfl⟩
  | exit =>
    simp only [KOp.step, taskDone, ha]
    unfold removeTask
    simp only
    split
    · exact ⟨_, rfl⟩
    · obtain ⟨p, hp, hne⟩ := hidle rfl
      have hI : (s.tasks I).state = TASK_READY := by
        rcases hi.idle with hr | hr
        · exact hr
        · have := hop hr
          cases this
      have haI : I ≠ a := by
        intro e
        have := hi.active a ha
        rw [← e, hI] at this
        cases this
      refine resched_isSome L _ ⟨(s.tasks I).priority, hq.prio I, ?_⟩
      apply List.ne_nil_of_mem (a := I)
      show I ∈ (removeready a s).readyList (s.tasks I).priority
      simp only [removeready, unlink, List.mem_filter, decide_eq_true_eq]
      exact ⟨hq.ready_state I hI, haI⟩

/-- C27: a kernel with at least one priority level is started with the idle
task `I` created, and `I` never sleeps, waits on a semaphore or exits. Then
`startMultiTasking` returns: its `resched` finds a task. In every state of the
run, the idle task is Ready or is the active task, and every operation
returns, `sleep`, `yield`, the two waits, `signal`, a tick and a task exit:
whenever one of them calls `resched`, the chosen task is defined. For
`resched` finds no task exactly when every ready queue is empty. -/
theorem resched_finds_task (L : Nat) (hL : 0 < L) (I : TaskId) :
    (∀ s0, Setup L s0 → (s0.tasks I).state = TASK_READY →
      ∃ s, startMultiTasking L s0 = some s) ∧
    (∀ s, IdleRun L I s →
      ((s.tasks I).state = TASK_READY ∨ s.activeTask = some I) ∧
      ∀ op : KOp, (s.activeTask = some I → op.blocks = false) →
        ∃ s2, op.step L s = some s2) ∧
    (∀ m : Kernel, resched L m = none ↔ ∀ p, p < L → m.readyList p = []) := by
  refine ⟨fun s0 h0 hI => ?_, fun s hs => ?_, resched_eq_none_iff L⟩
  · exact resched_isSome L s0 (ready_nonempty (setup_ok hL h0).1 hI)
  · have hi := idleRun_inv hL hs
    exact ⟨hi.idle, fun op hop => idleInv_total op hi hop⟩

theorem threeStarted_idleRun : IdleRun 17 0 threeStarted :=
  IdleRun.start threeTasks_setup (by decide) rfl

theorem resched_finds_task_witness :
    0 < 17 ∧ Setup 17 threeTasks ∧ (threeTasks.tasks 0).state = TASK_READY ∧
    (∃ s, startMultiTasking 17 threeTasks = some s) ∧ IdleRun 17 0 threeStarted ∧
    (∃ s2, (KOp.wait 0).step 17 threeStarted = some s2) ∧
    ∃ s2, KOp.exit.step 17 threeStarted = some s2 :=
  ⟨by decide, threeTasks_setup, by decide,
    (resched_finds_task 17 (by decide) 0).1 threeTasks threeTasks_setup (by decide),
    threeStarted_idleRun,
    ((resched_finds_task 17 (by decide) 0).2.1 threeStarted threeStarted_idleRun).2 (KOp.wait 0)
      (fun h => absurd h (by decide)),
    ((resched_finds_task 17 (by decide) 0).2.1 threeStarted threeStarted_idleRun).2 KOp.exit
      (fun h => absurd h (by decide))⟩

/-- C5: on every sleep queue that the kernel can build (from the empty queue
by insertions with a positive `unsigned int` count, removals and complete runs
of the tick handler), `removeSleeper(t)` leaves a queue without a node of `t`
as it is; otherwise it takes out the first node of `t`, adds that node's delta
to the delta of the node behind it (when there is one), keeps all other nodes
in their order, and keeps the prefix sum of every other node. -/
theorem removeSleeper_folds_delta (t : TaskId) (q : List DQNode) (hq : SleepBuilt q) :
    ((∀ n ∈ q, n.pTask ≠ t) → removeSleeper t q = q) ∧
    (∀ (pre post : List DQNode) (n : DQNode), q = pre ++ n :: post → n.pTask = t →
      (∀ m ∈ pre, m.pTask ≠ t) →
        (post = [] → removeSleeper t q = pre) ∧
        (∀ (nxt : DQNode) (rest : List DQNode), post = nxt :: rest →
          removeSleeper t q = pre ++ ⟨nxt.pTask, nxt.dcount + n.dcount⟩ :: rest) ∧
        (removeSleeper t q).map DQNode.pTask = (pre ++ post).map DQNode.pTask ∧
        (∀ k, k < pre.length → prefixSum (removeSleeper t q) k = prefixSum q k) ∧
        (∀ k, pre.length ≤ k → k < (removeSleeper t q).length →
          prefixSum (removeSleeper t q) k = prefixSum q (k + 1))) := by
  have hb : totalTicks q < UINT_MOD := (sleepBuilt_inv hq).2
  refine ⟨removeSleeper_absent t q, ?_⟩
  intro pre post n hq hn hpre
  subst hq
  rw [removeSleeper_append t n post hn pre hpre]
  cases post with
  | nil =>
    refine ⟨fun _ => (by simp [removeSleeper, hn]), fun nxt rest h => (by cases h), ?_, ?_, ?_⟩
    · simp [removeSleeper, hn]
    · intro k hk
      simp only [removeSleeper, hn, if_true, List.append_nil]
      rw [prefixSum_append_left _ pre k hk]
    · intro k h1 h2
      simp [removeSleeper, hn] at h2
      omega
  | cons m rest2 =>
    have hsmall : m.dcount + n.dcount < UINT_MOD := by
      rw [totalTicks_append, totalTicks_cons, totalTicks_cons] at hb
      omega
    have hrs : removeSleeper t (n :: m :: rest2) = ⟨m.pTask, m.dcount + n.dcount⟩ :: rest2 := by
      simp [removeSleeper, hn, uintAdd_small hsmall]
    rw [hrs]
    refine ⟨fun h => (by cases h), ?_, (by simp), ?_, ?_⟩
    · intro nxt rest h
      cases h
      rfl
    · intro k hk
      rw [prefixSum_append_left _ pre k hk, prefixSum_append_left _ pre k hk]
    · intro k h1 _
      obtain ⟨j, rfl⟩ := Nat.exists_eq_add_of_le h1
      rw [prefixSum_append_right, show pre.length + j + 1 = pre.length + (j + 1) by omega,
        prefixSum_append_right, prefixSum_cons_succ]
      cases j with
      | zero =>
        rw [prefixSum_cons_zero, prefixSum_cons_zero]
        show _ + (m.dcount + n.dcount) = _
        omega
      | succ j =>
        rw [prefixSum_cons_succ, prefixSum_cons_succ]
        show _ + (m.dcount + n.dcount + _) = _
        omega

theorem removeSleeper_folds_delta_witness :
    SleepBuilt (addSleeper 3 9 (addSleeper 2 5 (addSleeper 1 2 []))) ∧
      addSleeper 3 9 (addSleeper 2 5 (addSleeper 1 2 [])) = [⟨1, 2⟩, ⟨2, 3⟩, ⟨3, 4⟩] ∧
      removeSleeper 2 (addSleeper 3 9 (addSleeper 2 5 (addSleeper 1 2 []))) =
        [⟨1, 2⟩, ⟨3, 7⟩] :=
  ⟨SleepBuilt.insert 3 9 (SleepBuilt.insert 2 5
      (SleepBuilt.insert 1 2 SleepBuilt.empty (by decide) (by decide)) (by decide) (by decide))
      (by decide) (by decide),
    by decide,
    ((removeSleeper_folds_delta 2 (addSleeper 3 9 (addSleeper 2 5 (addSleeper 1 2 [])))
      (SleepBuilt.insert 3 9 (SleepBuilt.insert 2 5
        (SleepBuilt.insert 1 2 SleepBuilt.empty (by decide) (by decide)) (by decide) (by decide))
        (by decide) (by decide))).2
      [⟨1, 2⟩] [⟨3, 4⟩] ⟨2, 3⟩ (by decide) rfl (by decide)).2.1 ⟨3, 4⟩ [] rfl⟩

/-- C4: on a sleep queue whose head delta is not 0, the task `t` is inserted
with a count `n > 0`, in a kernel whose queues agree with the task states;
nothing else touches the queue. Then before each of the first `n` runs of the
tick handler `t` is what it was: in the blocked state it was put in, not the
active task, on no ready queue, and on the sleep queue with one tick less for
every run so far; none of the first `n - 1` runs wakes it. The `n`-th run
takes it off the queue, together with every task that had one tick left, and
each of these tasks is made Ready and put on the ready queue of its priority
(where it waits, unless `resched` has dispatched it by the end of the
handler); after that run `t` has no node on the sleep queue. -/
theorem sleeper_wakes_at_nth_tick (L : Nat) (s : Kernel) (t a : TaskId) (n : Nat)
    (q0 : List DQNode) (hn : 0 < n) (hq0 : HeadNonzero q0)
    (hq : s.pSleepHead = addSleeper t n q0) (ha : s.activeTask = some a)
    (hok : QueuesOk L s) (hact : ActiveOk s) :
    (∀ j, j < n → ∃ sj, ticks L j s = some sj ∧
      remainingOf t sj.pSleepHead = some (n - j) ∧
      ((sj.tasks t).state = SLEEP_BLOCKED ∨ (sj.tasks t).state = SEM_TIMED_BLOCKED) ∧
      sj.tasks t = s.tasks t ∧ sj.activeTask ≠ some t ∧ (∀ p, t ∉ sj.readyList p) ∧
      (j + 1 < n → t ∉ wakers (sleepDecrement sj.pSleepHead))) ∧
    ∃ s1 s2, ticks L (n - 1) s = some s1 ∧ timerISR L s1 = some s2 ∧ ticks L n s = some s2 ∧
      t ∈ wakers (sleepDecrement s1.pSleepHead) ∧
      (∀ x, remainingOf x s1.pSleepHead = some 1 → x ∈ wakers (sleepDecrement s1.pSleepHead)) ∧
      (∀ x, x ∈ wakers (sleepDecrement s1.pSleepHead) → ReadyOn x s2 ∨ Runs x s2) ∧
      ((s1.tasks t).state = SLEEP_BLOCKED ∨ (s1.tasks t).state = SEM_TIMED_BLOCKED) ∧
      ((s2.tasks t).state = TASK_READY ∨ (s2.tasks t).state = TASK_ACTIVE) ∧
      (∀ m ∈ s2.pSleepHead, m.pTask ≠ t) := by
  have hp := hok.prio
  have hc : nodeCount t s.pSleepHead = 1 := by
    have h1 := hok.sleep_nodup t
    rw [hq, nodeCount_addSleeper] at h1 ⊢
    simp only [if_true] at h1 ⊢
    omega
  have hfresh : ∀ m ∈ q0, m.pTask ≠ t := by
    apply nodeCount_eq_zero.mp
    rw [hq, nodeCount_addSleeper] at hc
    simp only [if_true] at hc
    omega
  have hst : (s.tasks t).state = SLEEP_BLOCKED ∨ (s.tasks t).state = SEM_TIMED_BLOCKED :=
    hok.sleep_mem t (by omega)
  have hpk : Parked t s := by
    refine ⟨fun h => ?_, fun p hm => ?_⟩
    · have := hact t h
      rcases hst with h1 | h1 <;> rw [h1] at this <;> cases this
    · have := (hok.ready_mem p t hm).2
      rcases hst with h1 | h1 <;> rw [h1] at this <;> cases this
  have hh : HeadNonzero s.pSleepHead := by
    rw [hq]
    exact headNonzero_addSleeper t q0 n hn hq0
  have hr : remainingOf t s.pSleepHead = some n := by
    rw [hq]
    exact remainingOf_addSleeper_self t q0 n hfresh
  have hcd := ticks_blocked ha hp hh hr hc hpk
  refine ⟨fun j hj => ?_, ?_⟩
  · obtain ⟨sj, h1, _, _, _, h5, h6, _, h8, h9, _⟩ := hcd j hj
    refine ⟨sj, h1, h6, by rw [h9]; exact hst, h9, h8.1, h8.2, fun hlt => ?_⟩
    have hrem : remainingOf t sj.pSleepHead = some ((n - j - 1) + 1) := by
      rw [h6]
      congr 1
      omega
    exact ((tickQueue_remaining t sj.pSleepHead (n - j - 1) h5 hrem).2 (by omega)).1
  · obtain ⟨s1, h1, ⟨b, h2⟩, h3, _, h5, h6, h7, _, h9, _⟩ := hcd (n - 1) (by omega)
    have hp1 : ∀ x, (s1.tasks x).priority < L := fun x => by rw [h3]; exact hp x
    obtain ⟨s2, k1, k2, _, _, _, k6⟩ := timerISR_spec h2 hp1
    have hrem : remainingOf t s1.pSleepHead = some (0 + 1) := by
      rw [h6]
      congr 1
      omega
    have hw : t ∈ wakers (sleepDecrement s1.pSleepHead) :=
      (tickQueue_remaining t s1.pSleepHead 0 h5 hrem).1 rfl
    refine ⟨s1, s2, h1, k1, ?_, hw, fun x hx => ?_, k6, by rw [h9]; exact hst, ?_, ?_⟩
    · have := ticks_succ L (n - 1) s
      rw [show n - 1 + 1 = n by omega, h1] at this
      rw [this]
      exact k1
    · exact (tickQueue_remaining x s1.pSleepHead 0 h5 hx).1 rfl
    · rcases k6 t hw with h | h
      · exact Or.inl h.1
      · exact Or.inr h.2
    · rw [k2]
      exact tickQueue_no_node_of_waker t _ hw h7

theorem sleeper_wakes_at_nth_tick_witness :
    0 < 2 ∧ HeadNonzero [] ∧ oneSleeping.pSleepHead = addSleeper 1 2 [] ∧
    oneSleeping.activeTask = some 0 ∧ QueuesOk 17 oneSleeping ∧ ActiveOk oneSleeping ∧
    ∃ s1 s2, ticks 17 1 oneSleeping = some s1 ∧ timerISR 17 s1 = some s2 ∧
      ticks 17 2 oneSleeping = some s2 ∧
      1 ∈ wakers (sleepDecrement s1.pSleepHead) ∧
      (∀ x, remainingOf x s1.pSleepHead = some 1 → x ∈ wakers (sleepDecrement s1.pSleepHead)) ∧
      (∀ x, x ∈ wakers (sleepDecrement s1.pSleepHead) → ReadyOn x s2 ∨ Runs x s2) ∧
      ((s1.tasks 1).state = SLEEP_BLOCKED ∨ (s1.tasks 1).state = SEM_TIMED_BLOCKED) ∧
      ((s2.tasks 1).state = TASK_READY ∨ (s2.tasks 1).state = TASK_ACTIVE) ∧
      (∀ m ∈ s2.pSleepHead, m.pTask ≠ 1) :=
  ⟨by decide, trivial, rfl, rfl, (running_ok (by decide) oneSleeping_running).1,
    (running_ok (by decide) oneSleeping_running).2,
    (sleeper_wakes_at_nth_tick 17 oneSleeping 1 0 2 [] (by decide) trivial rfl rfl
      (running_ok (by decide) oneSleeping_running).1
      (running_ok (by decide) oneSleeping_running).2).2⟩

/-- A call of `signal` that finds a waiter leaves every blocked task but the
front waiter as it is. -/
theorem signal_frame {L : Nat} {s s2 : Kernel} {i : SemId} {a t : TaskId} {rest : List TaskId}
    (hok : QueuesOk L s) (hact : ActiveOk s) (ha : s.activeTask = some a)
    (hl : (s.semas i).taskList = t :: rest) (h : Semaphore.signal L i s = some s2)
    (x : TaskId) (hxt : x ≠ t) (h1 : (s.tasks x).state ≠ TASK_READY)
    (h2 : (s.tasks x).state ≠ TASK_ACTIVE) : s2.tasks x = s.tasks x := by
  have hxa : x ≠ a := by
    intro e
    rw [e] at h2
    exact h2 (hact a ha)
  have hw : (Semaphore.signalWake t (Semaphore.granted i rest s)).tasks x = s.tasks x := by
    rw [signalWake_tasks_other hxt]
    rfl
  rw [signal_cons ha hl] at h
  split at h
  · simp only [Option.map_eq_some'] at h
    obtain ⟨s4, h4, rfl⟩ := h
    obtain ⟨p, u, rest2, _, hrest, _, _, htasks, _⟩ := resched_spec h4
    have hu : u ∈ (addready a (makeTaskReady a
        (Semaphore.signalWake t (Semaphore.granted i rest s)))).readyList p := by
      rw [hrest]
      exact List.mem_cons_self _ _
    have hxu : x ≠ u := by
      intro e
      subst e
      simp only [addready] at hu
      rcases mem_update_append.mp hu with h5 | ⟨_, h5⟩
      · rcases signalWake_mem_ready h5 with h6 | h6
        · exact h1 (hok.ready_mem p x h6).2
        · exact hxt h6
      · exact hxa h5
    show s4.tasks x = _
    rw [htasks, Function.update_noteq hxu]
    show (Function.update _ a _) x = _
    rw [Function.update_noteq hxa]
    exact hw
  · cases h
    exact hw

theorem setup_countsOk {L : Nat} {s : Kernel} (h : Setup L s) : CountsOk s := by
  induction h with
  | init =>
    exact fun _ => ⟨show INT_MIN ≤ (0 : Int) by decide, show (0 : Int) ≤ INT_MAX by decide⟩
  | createTask t isIdle priority stacksize stackOk _ _ ih =>
    exact fun i => call_range (KCall.createTask t isIdle priority stacksize stackOk) rfl i
      (ih i).1 (ih i).2
  | createSema j c0 _ ih =>
    exact fun i => call_range (L := L) (KCall.createSema j c0) rfl i (ih i).1 (ih i).2

/-- The counts of a kernel are `int`s in every state of a run. -/
theorem live_countsOk {L : Nat} {s : Kernel} (h : Live L s) : CountsOk s := by
  induction h with
  | start h0 hs =>
    exact fun i => call_range KCall.start hs i (setup_countsOk h0 i).1 (setup_countsOk h0 i).2
  | step op _ hs ih => exact fun i => call_range (KCall.op op) hs i (ih i).1 (ih i).2
  | createTask t isIdle priority stacksize stackOk _ _ ih =>
    exact fun i => call_range (KCall.createTask t isIdle priority stacksize stackOk) rfl i
      (ih i).1 (ih i).2
  | createSema j c0 _ ih =>
    exact fun i => call_range (L := L) (KCall.createSema j c0) rfl i (ih i).1 (ih i).2

theorem bothWait_countsOk : CountsOk bothWait :=
  live_countsOk (live_of_running bothWait_running)

theorem brim_runs : runCalls 17 brimCalls Kernel.init = some brim := rfl

/-- C6, as amended: in a kernel whose queues agree with the task states and
whose counts are `int`s, a call of `signal` on a semaphore that no task is in
a timed wait on does one of two things. With an empty wait list, the count
goes up by exactly 1 when it is below the largest `int` (and wraps to the
least `int` when it is the largest), and no task, queue or sleep-queue node
changes. With a waiter, the call returns, the count is what it was, the front
waiter and no other leaves the wait list, and it is made Ready: it is on the
ready queue of its priority in the Ready state, unless `resched` has
dispatched it by the end of the call; every other blocked task is what it
was, the waiters left on the list are blocked, not active and on no ready
queue; no other semaphore and no sleep-queue node changes. -/
theorem signal_conserves_permits (L : Nat) (s : Kernel) (i : SemId) (a : TaskId)
    (ha : s.activeTask = some a) (hok : QueuesOk L s) (hact : ActiveOk s) (hc : CountsOk s)
    (hnt : ∀ x ∈ (s.semas i).taskList, (s.tasks x).state ≠ SEM_TIMED_BLOCKED) :
    ((s.semas i).taskList = [] →
      ∃ s2, Semaphore.signal L i s = some s2 ∧
        ((s.semas i).count < INT_MAX → (s2.semas i).count = (s.semas i).count + 1) ∧
        ((s.semas i).count = INT_MAX → (s2.semas i).count = INT_MIN) ∧
        (s2.semas i).taskList = [] ∧ s2.tasks = s.tasks ∧ s2.readyList = s.readyList ∧
        s2.activeTask = s.activeTask ∧ (∀ j, j ≠ i → s2.semas j = s.semas j) ∧
        s2.pSleepHead = s.pSleepHead) ∧
    (∀ t rest, (s.semas i).taskList = t :: rest →
      ∃ s2, Semaphore.signal L i s = some s2 ∧ (s2.semas i).count = (s.semas i).count ∧
        (s2.semas i).taskList = rest ∧ (ReadyOn t s2 ∨ Runs t s2) ∧
        (∀ x, x ≠ t → (s.tasks x).state ≠ TASK_READY → (s.tasks x).state ≠ TASK_ACTIVE →
          s2.tasks x = s.tasks x) ∧
        (∀ x ∈ rest, (s2.tasks x).state = TASK_BLOCKED ∧ s2.activeTask ≠ some x ∧
          ∀ p, x ∉ s2.readyList p) ∧
        (∀ j, j ≠ i → s2.semas j = s.semas j) ∧ s2.pSleepHead = s.pSleepHead) := by
  refine ⟨fun hl => ?_, fun t rest hl => ?_⟩
  · refine ⟨_, signal_nil hl, fun h => ?_, fun h => ?_, ?_, rfl, rfl, rfl, fun j hj => ?_, rfl⟩
    · show (Function.update s.semas i _ i).count = _
      rw [Function.update_same]
      exact intInc_of_lt (hc i).1 h
    · show (Function.update s.semas i _ i).count = _
      rw [Function.update_same]
      show intInc (s.semas i).count = _
      rw [h]
      exact intInc_max
    · show (Function.update s.semas i _ i).taskList = _
      rw [Function.update_same]
      exact hl
    · show Function.update s.semas i _ j = _
      rw [Function.update_noteq hj]
  · obtain ⟨s2, h1, h2, h3, h4, h5, _, _, _, h9⟩ := signal_spec ha hok.prio hl
    obtain ⟨q1, q2⟩ := signal_ok i hok hact h1
    have hfr := signal_frame hok hact ha hl h1
    refine ⟨s2, h1, ?_, h3, h5, hfr, fun x hx => ?_, h4, ?_⟩
    · rw [h2]
      exact intDec_intInc (hc i).1 (hc i).2
    · have hxl : x ∈ (s.semas i).taskList := by
        rw [hl]
        exact List.mem_cons_of_mem _ hx
      have hst : (s.tasks x).state = TASK_BLOCKED := by
        rcases hok.sema_mem i x hxl with h | h
        · exact h
        · exact absurd h (hnt x hxl)
      have hnd := hok.sema_nodup i
      rw [hl] at hnd
      have hne : x ≠ t := by
        intro e
        rw [e] at hx
        exact (List.nodup_cons.mp hnd).1 hx
      have e4 : s2.tasks x = s.tasks x :=
        hfr x hne (by rw [hst]; decide) (by rw [hst]; decide)
      refine ⟨by rw [e4]; exact hst, fun e => ?_, fun p hm => ?_⟩
      · have := q2 x e
        rw [e4, hst] at this
        cases this
      · have := (q1.ready_mem p x hm).2
        rw [e4, hst] at this
        cases this
    · rw [h9, if_neg (hnt t (by rw [hl]; exact List.mem_cons_self _ _))]

theorem signal_conserves_permits_witness :
    bothWait.activeTask = some 0 ∧ QueuesOk 17 bothWait ∧ ActiveOk bothWait ∧
    CountsOk bothWait ∧
    (∀ x ∈ (bothWait.semas 0).taskList, (bothWait.tasks x).state ≠ SEM_TIMED_BLOCKED) ∧
    (bothWait.semas 0).taskList = [2, 1] ∧
    ∃ s2, Semaphore.signal 17 0 bothWait = some s2 ∧
      (s2.semas 0).count = (bothWait.semas 0).count ∧
      (s2.semas 0).taskList = [1] ∧ (ReadyOn 2 s2 ∨ Runs 2 s2) ∧
      (∀ x, x ≠ 2 → (bothWait.tasks x).state ≠ TASK_READY →
        (bothWait.tasks x).state ≠ TASK_ACTIVE → s2.tasks x = bothWait.tasks x) ∧
      (∀ x ∈ [1], (s2.tasks x).state = TASK_BLOCKED ∧ s2.activeTask ≠ some x ∧
        ∀ p, x ∉ s2.readyList p) ∧
      (∀ j, j ≠ 0 → s2.semas j = bothWait.semas j) ∧ s2.pSleepHead = bothWait.pSleepHead :=
  ⟨rfl, (running_ok (by decide) bothWait_running).1, (running_ok (by decide) bothWait_running).2,
    bothWait_countsOk, by decide, rfl,
    (signal_conserves_permits 17 bothWait 0 0 rfl (running_ok (by decide) bothWait_running).1
      (running_ok (by decide) bothWait_running).2 bothWait_countsOk (by decide)).2 2 [1] rfl⟩

/-- C6 as stated fails at the largest `int`. A semaphore is created with the
count 32767; no task waits on it; the active task calls `signal`: the call
finds the wait list empty and wakes no task, and `count++` leaves the count
-32768, not 32768. -/
theorem signal_wraps_count :
    runCalls 17 brimCalls Kernel.init = some brim ∧ brim.activeTask = some 1 ∧
    (brim.semas 0).count = 32767 ∧ (brim.semas 0).taskList = [] ∧
    ∃ s2, Semaphore.signal 17 0 brim = some s2 ∧ (s2.semas 0).count = -32768 ∧
      (s2.semas 0).count ≠ (brim.semas 0).count + 1 ∧ (s2.semas 0).taskList = [] ∧
      s2.tasks = brim.tasks ∧ s2.readyList = brim.readyList := by
  refine ⟨rfl, rfl, by decide, rfl, _, signal_nil rfl, by decide, by decide, rfl, rfl, rfl⟩

theorem runCalls_nonneg {L : Nat} (i : SemId) :
    ∀ (calls : List KCall) (s0 : Kernel),
      INT_MIN ≤ (s0.semas i).count → (s0.semas i).count ≤ INT_MAX → 0 ≤ (s0.semas i).count →
      (∀ c0, KCall.createSema i c0 ∈ calls → 0 ≤ c0 ∧ c0 ≤ INT_MAX) →
      (∀ k sp, calls.get? k = some (KCall.op (KOp.signal i)) →
        runCalls L (calls.take k) s0 = some sp → (sp.semas i).count ≠ INT_MAX) →
      ∀ k sp, runCalls L (calls.take k) s0 = some sp → 0 ≤ (sp.semas i).count
  | [], s0, _, _, h0, _, _, k, sp, h => by
    rw [List.take_nil] at h
    cases h
    exact h0
  | c :: cs, s0, hr1, hr2, h0, hc, hs, k, sp, h => by
    cases k with
    | zero =>
      cases h
      exact h0
    | succ k =>
      simp only [List.take_succ_cons, runCalls, Option.bind_eq_some] at h
      obtain ⟨s1, h1, h2⟩ := h
      obtain ⟨k1, k2⟩ := call_range c h1 i hr1 hr2
      refine runCalls_nonneg i cs s1 k1 k2 ?_
        (fun c0 hm => hc c0 (List.mem_cons_of_mem _ hm)) (fun k3 sp3 hk hr => ?_) k sp h2
      · rcases call_sema c h1 i hr1 hr2 with hst | ⟨hcc, _, hst, _⟩ | ⟨c0, hcc, hst⟩
        · exact semaStep_nonneg hst h0
        · have hne : (s0.semas i).count ≠ INT_MAX := hs 0 s0 (by rw [hcc]; rfl) rfl
          rw [hst, intInc_of_lt hr1 (lt_of_le_of_ne hr2 hne)]
          omega
        · obtain ⟨e1, e2⟩ := hc c0 (hcc ▸ List.mem_cons_self _ _)
          rw [hst]
          show 0 ≤ intWrap c0
          rw [intWrap_of_range (le_trans (by decide) e1) e2]
          exact e1
      · refine hs (k3 + 1) sp3 (by simpa using hk) ?_
        simp only [List.take_succ_cons, runCalls, Option.bind_eq_some]
        exact ⟨s1, h1, hr⟩

/-- C13, as amended: a semaphore created with an initial count that is an
`int` and not negative never has a negative count, as long as no call of
`signal` finds it with the largest `int`, 32767, as its count. In a run of the
kernel from boot, whatever the calls (creations, `wait()`, `wait(timeout)`,
`signal()`, ticks with their timeouts, task exits), the count is at least 0
after every call of the run: after the creation and after every operation. -/
theorem count_never_negative (L : Nat) (calls : List KCall) (i : SemId)
    (hc : ∀ c0, KCall.createSema i c0 ∈ calls → 0 ≤ c0 ∧ c0 ≤ INT_MAX)
    (hs : ∀ k sp, calls.get? k = some (KCall.op (KOp.signal i)) →
      runCalls L (calls.take k) Kernel.init = some sp → (sp.semas i).count ≠ INT_MAX)
    (k : Nat) (sp : Kernel) (h : runCalls L (calls.take k) Kernel.init = some sp) :
    0 ≤ (sp.semas i).count :=
  runCalls_nonneg i calls Kernel.init (show INT_MIN ≤ (0 : Int) by decide)
    (show (0 : Int) ≤ INT_MAX by decide) (le_refl _) hc hs k sp h

theorem count_never_negative_witness :
    (∀ c0, KCall.createSema 0 c0 ∈ semaCalls → 0 ≤ c0 ∧ c0 ≤ INT_MAX) ∧
    (∀ k sp, semaCalls.get? k = some (KCall.op (KOp.signal 0)) →
      runCalls 17 (semaCalls.take k) Kernel.init = some sp → (sp.semas 0).count ≠ INT_MAX) ∧
    semaCalls.get? 6 = some (KCall.op (KOp.signal 0)) ∧
    runCalls 17 (semaCalls.take 7) Kernel.init = some semaRun ∧
    0 ≤ (semaRun.semas 0).count := by
  have hc : ∀ c0, KCall.createSema 0 c0 ∈ semaCalls → 0 ≤ c0 ∧ c0 ≤ INT_MAX := by
    intro c0 hm
    simp only [semaCalls, List.mem_cons, List.mem_singleton, KCall.createSema.injEq,
      reduceCtorEq, false_or, or_false, List.mem_nil_iff, true_and] at hm
    rw [hm]
    decide
  have hs : ∀ k sp, semaCalls.get? k = some (KCall.op (KOp.signal 0)) →
      runCalls 17 (semaCalls.take k) Kernel.init = some sp → (sp.semas 0).count ≠ INT_MAX := by
    intro k sp hk hr
    have hlt : k < 7 := by
      by_contra hge
      have : semaCalls.get? k = none := List.get?_eq_none.mpr (by
        show semaCalls.length ≤ k
        simp only [semaCalls, List.length_cons, List.length_nil]
        omega)
      rw [this] at hk
      cases hk
    interval_cases k
    · exact absurd hk (by decide)
    · exact absurd hk (by decide)
    · exact absurd hk (by decide)
    · exact absurd hk (by decide)
    · exact absurd hk (by decide)
    · have e : runCalls 17 (semaCalls.take 5) Kernel.init =
          some ((runCalls 17 (semaCalls.take 5) Kernel.init).getD Kernel.init) := rfl
      rw [e] at hr
      cases hr
      decide
    · have e : runCalls 17 (semaCalls.take 6) Kernel.init =
          some ((runCalls 17 (semaCalls.take 6) Kernel.init).getD Kernel.init) := rfl
      rw [e] at hr
      cases hr
      decide
  exact ⟨hc, hs, rfl, semaRun_runs, count_never_negative 17 semaCalls 0 hc hs 7 semaRun semaRun_runs⟩

/-- C13 as stated fails, in two ways. `ARTK_CreateSema` takes any `int`, a
negative one too, and the constructor stores it: a semaphore created with the
initial count -1 has the count -1 after its creation. And a semaphore created with
the initial count 32767, which is not negative, has the count -32768 after a
call of `signal` that finds no waiter. -/
theorem negative_initial_count :
    ((ARTK_CreateSema 0 (-1) Kernel.init).semas 0).count = -1 ∧
    ¬ 0 ≤ ((ARTK_CreateSema 0 (-1) Kernel.init).semas 0).count ∧
    runCalls 17 [KCall.createSema 0 (-1)] Kernel.init =
      some (ARTK_CreateSema 0 (-1) Kernel.init) ∧
    runCalls 17 brimCalls Kernel.init = some brim ∧ (brim.semas 0).count = 32767 ∧
    ∃ s2, runCalls 17 (brimCalls ++ [KCall.op (KOp.signal 0)]) Kernel.init = some s2 ∧
      (s2.semas 0).count = -32768 ∧ ¬ 0 ≤ (s2.semas 0).count := by
  refine ⟨by decide, by decide, rfl, rfl, by decide,
    (runCalls 17 (brimCalls ++ [KCall.op (KOp.signal 0)]) Kernel.init).getD Kernel.init,
    rfl, by decide, by decide⟩

/-- C14, as amended: in a kernel whose queues agree with the task states,
`signal` is called on a semaphore whose front waiter `W` has a priority above
that of the active task `A`. Then the call returns; `A` has been demoted to
Ready and put at the back of the ready queue of its priority; `resched` has
run and switched from `A` to another task `b`, the front of the highest ready
queue that was not empty, whose priority is at least that of `W`: `b` is the
active task, in the Active state, and no task on a ready queue has a higher
priority; `W` is Ready on the queue of its priority unless it is `b`. When no
task was on a ready queue of the priority of `W` or above, `b` is `W`: when
`signal` completes, `W` is the active task. -/
theorem signal_preempts (L : Nat) (s : Kernel) (i : SemId) (A W : TaskId) (rest : List TaskId)
    (hok : QueuesOk L s) (ha : s.activeTask = some A) (hl : (s.semas i).taskList = W :: rest)
    (hp : (s.tasks A).priority < (s.tasks W).priority) :
    ∃ s2 b, Semaphore.signal L i s = some s2 ∧
      (s2.tasks A).state = TASK_READY ∧
      s2.readyList (s2.tasks A).priority = s.readyList (s.tasks A).priority ++ [A] ∧
      Runs b s2 ∧ b ≠ A ∧ (s.tasks W).priority ≤ (s.tasks b).priority ∧
      (∀ q x, x ∈ s2.readyList q → q ≤ (s.tasks b).priority) ∧
      s2.switches =
        SwitchCall.ContextSwitch A (s.tasks b).pStack (s.tasks b).firstRun :: s.switches ∧
      (ReadyOn W s2 ∨ Runs W s2) ∧
      ((∀ p, (s.tasks W).priority ≤ p → p < L → s.readyList p = []) →
        b = W ∧ Runs W s2 ∧ s2.readyList (s2.tasks W).priority = []) := by
  have hL : (s.tasks W).priority < L := hok.prio W
  have hWA : W ≠ A := by
    intro e
    rw [e] at hp
    exact Nat.lt_irrefl _ hp
  have hAW : A ≠ W := fun e => hWA e.symm
  have hpne : (s.tasks A).priority ≠ (s.tasks W).priority := Nat.ne_of_lt hp
  rw [signal_cons ha hl]
  have hprio : ∀ x, ((Semaphore.signalWake W (Semaphore.granted i rest s)).tasks x).priority =
      (s.tasks x).priority := fun x => by
    rw [signalWake_priority]
    rfl
  rw [hprio, hprio, if_pos hp]
  have hrl : (addready A (makeTaskReady A
      (Semaphore.signalWake W (Semaphore.granted i rest s)))).readyList =
      Function.update (Function.update s.readyList (s.tasks W).priority
          (s.readyList (s.tasks W).priority ++ [W]))
        (s.tasks A).priority (s.readyList (s.tasks A).priority ++ [A]) := by
    have h1 : (Semaphore.signalWake W (Semaphore.granted i rest s)).readyList =
        Function.update s.readyList (s.tasks W).priority
          (s.readyList (s.tasks W).priority ++ [W]) := by
      rw [signalWake_readyList]
      rfl
    have h2 : ((makeTaskReady A
        (Semaphore.signalWake W (Semaphore.granted i rest s))).tasks A).priority =
        (s.tasks A).priority := by
      rw [← hprio A]
      simp
    show Function.update (Semaphore.signalWake W (Semaphore.granted i rest s)).readyList
      ((makeTaskReady A (Semaphore.signalWake W (Semaphore.granted i rest s))).tasks A).priority
      ((Semaphore.signalWake W (Semaphore.granted i rest s)).readyList
        ((makeTaskReady A (Semaphore.signalWake W (Semaphore.granted i rest s))).tasks A).priority
          ++ [A]) = _
    rw [h2, h1, Function.update_noteq hpne]
  have hmem : ∀ q x, x ∈ (addready A (makeTaskReady A
      (Semaphore.signalWake W (Semaphore.granted i rest s)))).readyList q →
      (s.tasks x).priority = q := by
    intro q x hx
    rw [hrl] at hx
    by_cases hqA : q = (s.tasks A).priority
    · subst hqA
      rw [Function.update_same] at hx
      rcases List.mem_append.mp hx with h | h
      · exact (hok.ready_mem _ x h).1
      · rw [List.mem_singleton.mp h]
    · rw [Function.update_noteq hqA] at hx
      by_cases hqW : q = (s.tasks W).priority
      · subst hqW
        rw [Function.update_same] at hx
        rcases List.mem_append.mp hx with h | h
        · exact (hok.ready_mem _ x h).1
        · rw [List.mem_singleton.mp h]
      · rw [Function.update_noteq hqW] at hx
        exact (hok.ready_mem _ x hx).1
  have hWin : W ∈ (addready A (makeTaskReady A
      (Semaphore.signalWake W (Semaphore.granted i rest s)))).readyList (s.tasks W).priority := by
    rw [hrl, Function.update_noteq hpne.symm, Function.update_same]
    exact List.mem_append_right _ (List.mem_singleton_self W)
  obtain ⟨s3, h3⟩ := resched_isSome L (addready A (makeTaskReady A
      (Semaphore.signalWake W (Semaphore.granted i rest s))))
    ⟨(s.tasks W).priority, hL, List.ne_nil_of_mem hWin⟩
  obtain ⟨p, b, rest2, hpick, hrest2, hact, hrl2, htasks, _⟩ := resched_spec h3
  obtain ⟨hpL, _, habove⟩ := pickReady_spec _ L p b hpick
  have hbin : b ∈ (addready A (makeTaskReady A
      (Semaphore.signalWake W (Semaphore.granted i rest s)))).readyList p := by
    rw [hrest2]
    exact List.mem_cons_self _ _
  have hbp : (s.tasks b).priority = p := hmem p b hbin
  have hWp : (s.tasks W).priority ≤ p := by
    by_contra hlt
    have := habove (s.tasks W).priority (by omega) hL
    rw [this] at hWin
    exact List.not_mem_nil _ hWin
  have hbA : b ≠ A := by
    intro e
    rw [e] at hbp
    omega
  have hmact : (addready A (makeTaskReady A
      (Semaphore.signalWake W (Semaphore.granted i rest s)))).activeTask = some A := by
    show (Semaphore.signalWake W (Semaphore.granted i rest s)).activeTask = some A
    rw [signalWake_activeTask]
    exact ha
  have hsw := resched_switches h3 hmact hpick hbA
  have hW3 : ∀ x, (s3.tasks x).priority = (s.tasks x).priority := fun x => by
    rw [resched_priority h3]
    show ((makeTaskReady A (Semaphore.signalWake W (Semaphore.granted i rest s))).tasks x).priority = _
    rw [← hprio x]
    simp
  have hWtask : (Semaphore.signalWake W (Semaphore.granted i rest s)).tasks W =
      { s.tasks W with timedOut := false, state := TASK_READY } := by
    unfold Semaphore.signalWake
    simp only
    split <;> simp [Semaphore.granted]
  have hbtask : ((addready A (makeTaskReady A
      (Semaphore.signalWake W (Semaphore.granted i rest s)))).tasks b).pStack =
        (s.tasks b).pStack ∧
      ((addready A (makeTaskReady A
      (Semaphore.signalWake W (Semaphore.granted i rest s)))).tasks b).firstRun =
        (s.tasks b).firstRun := by
    have hmb : (addready A (makeTaskReady A
        (Semaphore.signalWake W (Semaphore.granted i rest s)))).tasks b =
        (Semaphore.signalWake W (Semaphore.granted i rest s)).tasks b :=
      Function.update_noteq hbA _ _
    rw [hmb]
    by_cases hbW : b = W
    · subst hbW
      rw [hWtask]
      exact ⟨rfl, rfl⟩
    · rw [signalWake_tasks_other hbW]
      exact ⟨rfl, rfl⟩
  have hrun : Runs b (sei s3) := by
    refine ⟨hact, ?_⟩
    show (s3.tasks b).state = TASK_ACTIVE
    rw [htasks]
    simp
  have hWr : ReadyOn W (sei s3) ∨ Runs W (sei s3) := by
    rcases resched_readyOn h3 (readyOn_demote A (signalWake_readyOn_self W _)) with h5 | h5
    · exact Or.inl h5
    · exact Or.inr h5
  refine ⟨sei s3, b, by rw [h3]; rfl, ?_, ?_, hrun, hbA, by rw [hbp]; exact hWp,
    fun q x hx => ?_, ?_, hWr, fun hnone => ?_⟩
  · show (s3.tasks A).state = TASK_READY
    rw [htasks, Function.update_noteq (fun e => hbA e.symm)]
    simp
  · show s3.readyList (s3.tasks A).priority = _
    rw [hW3, hrl2, Function.update_noteq (by omega), hrl, Function.update_same]
  · rw [hbp]
    by_contra hlt
    have hx2 : x ∈ s3.readyList q := hx
    rw [hrl2, Function.update_noteq (by omega)] at hx2
    have hq := hmem q x hx2
    have hqL : q < L := by
      rw [← hq]
      exact hok.prio x
    rw [habove q (by omega) hqL] at hx2
    exact List.not_mem_nil _ hx2
  · show s3.switches = _
    rw [hsw, hbtask.1, hbtask.2]
    show _ :: (Semaphore.signalWake W (Semaphore.granted i rest s)).switches = _
    rw [signalWake_switches]
    rfl
  · have hpW : p = (s.tasks W).priority := by
      by_contra hne
      have h0 := hnone p hWp hpL
      rw [hrl, Function.update_noteq (by omega), Function.update_noteq hne, h0] at hbin
      exact List.not_mem_nil _ hbin
    have hbW : b = W := by
      have h0 := hnone _ (le_refl _) hL
      rw [hpW, hrl, Function.update_noteq hpne.symm, Function.update_same, h0] at hbin
      exact List.mem_singleton.mp hbin
    subst hbW
    refine ⟨rfl, hrun, ?_⟩
    show s3.readyList (s3.tasks b).priority = _
    have h0 := hnone _ (le_refl _) hL
    rw [hrl, hpW, Function.update_noteq hpne.symm, Function.update_same, h0] at hrest2
    rw [hW3, hrl2, hpW, Function.update_same]
    exact (List.cons.inj hrest2).2.symm

theorem signal_preempts_witness :
    QueuesOk 17 bothWait ∧ bothWait.activeTask = some 0 ∧
    (bothWait.semas 0).taskList = [2, 1] ∧
    (bothWait.tasks 0).priority < (bothWait.tasks 2).priority ∧
    (∀ p, (bothWait.tasks 2).priority ≤ p → p < 17 → bothWait.readyList p = []) ∧
    ∃ s2, Semaphore.signal 17 0 bothWait = some s2 ∧
      (s2.tasks 0).state = TASK_READY ∧
      s2.readyList (s2.tasks 0).priority = bothWait.readyList (bothWait.tasks 0).priority ++ [0] ∧
      Runs 2 s2 ∧ s2.readyList (s2.tasks 2).priority = [] ∧
      s2.switches =
        SwitchCall.ContextSwitch 0 (bothWait.tasks 2).pStack (bothWait.tasks 2).firstRun ::
          bothWait.switches := by
  obtain ⟨s2, b, h1, h2, h3, _, _, _, _, h8, _, h10⟩ :=
    signal_preempts 17 bothWait 0 0 2 [1] (running_ok (by decide) bothWait_running).1 rfl rfl
      (by decide)
  obtain ⟨hb, k2, k3⟩ := h10 bothWait_above_empty
  subst hb
  exact ⟨(running_ok (by decide) bothWait_running).1, rfl, rfl, by decide, bothWait_above_empty,
    s2, h1, h2, h3, k2, k3, h8⟩

/-- C14 as stated fails when a task of a higher priority than the waiter is
Ready. The task of priority 5 (at address 2) is blocked in `wait()`; the
active task, of priority 3 (at address 1), creates a task of priority 7 (at
address 3), which does not reschedule, and calls `signal`. The front waiter
has a priority above that of the active task, which is demoted; `resched`
takes the task of priority 7: when `signal` completes, the woken task is not
the active task, it is Ready on the queue of priority 5. -/
theorem signal_wakes_but_newcomer_runs :
    highWaits.activeTask = some 1 ∧ (highWaits.tasks 1).priority = 3 ∧
    (highWaits.semas 0).taskList = [2] ∧ (highWaits.tasks 2).priority = 5 ∧
    newcomerCreated.activeTask = some 1 ∧ (newcomerCreated.semas 0).taskList = [2] ∧
    (newcomerCreated.tasks 1).priority < (newcomerCreated.tasks 2).priority ∧
    Semaphore.signal 17 0 newcomerCreated = some newcomerRuns ∧
    newcomerRuns.activeTask = some 3 ∧ ¬ Runs 2 newcomerRuns ∧
    (newcomerRuns.tasks 2).state = TASK_READY ∧ newcomerRuns.readyList 5 = [2] ∧
    (newcomerRuns.tasks 1).state = TASK_READY ∧ newcomerRuns.readyList 3 = [1] := by
  refine ⟨rfl, rfl, rfl, rfl, rfl, rfl, by decide, rfl, rfl, ?_, rfl, rfl, rfl, rfl⟩
  intro h
  have h1 : newcomerRuns.activeTask = some 2 := h.1
  revert h1
  decide

theorem loneTask_setup : Setup 17 loneTask := by
  refine Setup.createTask 0 true 0 256 false (Setup.createTask 1 false 3 256 true Setup.init ?_) ?_
  · exact ⟨fun p => by simp [Kernel.init], fun i => by simp [Kernel.init],
      fun n hn => by simp [Kernel.init] at hn, by simp [Kernel.init]⟩
  · refine ⟨fun p => ?_, fun i => by simp [ARTK_CreateTask, Task.create, addNewTask, Kernel.init],
      fun n hn => by simp [ARTK_CreateTask, Task.create, addNewTask, Kernel.init] at hn,
      by simp [ARTK_CreateTask, Task.create, addNewTask, Kernel.init]⟩
    show 0 ∉ Function.update (fun _ => ([] : List TaskId)) 3 [1] p
    by_cases hp : p = 3
    · subst hp
      simp
    · simp [Function.update_noteq hp]

theorem loneStarted_live : Live 17 loneStarted := Live.start loneTask_setup rfl

/-- C20, as amended: the active task `A` returns from its root function into
`taskDone`, in a kernel that has not shut down. The exit routine takes `A`
off the ready queues and makes `numTasks` one less than it was. When the new
`numTasks` is 1, and only then, it shuts the kernel down: the call returns
with `A` on no ready queue and no context switch made. Otherwise it calls
`resched`, on a kernel that has `A` on no ready queue: when some other task is
on a ready queue (as the idle task is whenever another task runs) the call
returns, and whenever it returns the kernel has not shut down, `A` is on no
ready queue, a task other than `A` is the active task, in the Active state,
and the context switch from `A` to it has been made; when every ready queue
is empty but for `A`, `resched` finds no task to run. -/
theorem exit_routine (L : Nat) (s : Kernel) (A : TaskId) (ha : s.activeTask = some A)
    (hterm : s.terminated = false) :
    (s.numTasks - 1 = 1 →
      ∃ s2, taskDone L s = some s2 ∧ s2.numTasks = s.numTasks - 1 ∧
        (∀ p, A ∉ s2.readyList p) ∧ s2.terminated = true ∧ s2.switches = s.switches ∧
        s2.activeTask = some A) ∧
    (s.numTasks - 1 ≠ 1 →
      taskDone L s = resched L { removeready A s with numTasks := s.numTasks - 1 } ∧
      (∀ p, A ∉ (removeready A s).readyList p) ∧
      (∀ s2, taskDone L s = some s2 →
        s2.numTasks = s.numTasks - 1 ∧ (∀ p, A ∉ s2.readyList p) ∧ s2.terminated = false ∧
        ∃ b, b ≠ A ∧ Runs b s2 ∧
          s2.switches =
            SwitchCall.ContextSwitch A (s.tasks b).pStack (s.tasks b).firstRun :: s.switches) ∧
      ((∃ p x, p < L ∧ x ∈ s.readyList p ∧ x ≠ A) → ∃ s2, taskDone L s = some s2) ∧
      ((∀ p x, p < L → x ∈ s.readyList p → x = A) → taskDone L s = none)) := by
  have hnot : ∀ p, A ∉ (removeready A s).readyList p := by
    intro p hm
    simp only [removeready, unlink, List.mem_filter, decide_eq_true_eq] at hm
    exact hm.2 rfl
  have hdone : taskDone L s = removeTask L (removeready A s) := by
    unfold taskDone
    rw [ha]
  refine ⟨fun h1 => ?_, fun h1 => ?_⟩
  · rw [hdone]
    unfold removeTask
    simp only
    have h1b : (removeready A s).numTasks - 1 = 1 := h1
    rw [if_pos h1b]
    exact ⟨_, rfl, rfl, hnot, rfl, rfl, ha⟩
  · have hres : taskDone L s =
        resched L { removeready A s with numTasks := s.numTasks - 1 } := by
      rw [hdone]
      unfold removeTask
      simp only
      have h1b : ¬ (removeready A s).numTasks - 1 = 1 := h1
      rw [if_neg h1b]
      rfl
    refine ⟨hres, hnot, fun s2 h2 => ?_, fun hr => ?_, fun hr => ?_⟩
    · rw [hres] at h2
      obtain ⟨p0, t, rest, hpick, hrest, hact, hrl, htasks, _, _, hnum, hte, _⟩ :=
        resched_spec h2
      have htA : t ≠ A := by
        intro e
        exact hnot p0 (by
          show A ∈ ({ removeready A s with numTasks := s.numTasks - 1 } : Kernel).readyList p0
          rw [hrest, e]
          exact List.mem_cons_self _ _)
      have hsw := resched_switches h2 ha hpick htA
      refine ⟨hnum, fun q hm => ?_, ?_, t, htA, ⟨hact, ?_⟩, hsw⟩
      · rw [hrl] at hm
        by_cases hq : q = p0
        · subst hq
          rw [Function.update_same] at hm
          exact hnot q (by
            show A ∈ ({ removeready A s with numTasks := s.numTasks - 1 } : Kernel).readyList q
            rw [hrest]
            exact List.mem_cons_of_mem _ hm)
        · rw [Function.update_noteq hq] at hm
          exact hnot q hm
      · rw [hte]
        exact hterm
      · rw [htasks]
        simp
    · obtain ⟨p, x, hp, hx, hxA⟩ := hr
      rw [hres]
      refine resched_isSome L _ ⟨p, hp, ?_⟩
      apply List.ne_nil_of_mem (a := x)
      simp only [removeready, unlink, List.mem_filter, decide_eq_true_eq]
      exact ⟨hx, hxA⟩
    · rw [hres]
      refine (resched_eq_none_iff L _).mpr (fun p hp => ?_)
      apply List.eq_nil_iff_forall_not_mem.mpr
      intro x hx
      simp only [removeready, unlink, List.mem_filter, decide_eq_true_eq] at hx
      exact hx.2 (hr p x hp hx.1)

theorem exit_routine_witness :
    threeStarted.activeTask = some 2 ∧ threeStarted.terminated = false ∧
    threeStarted.numTasks = 3 ∧ (∃ p x, p < 17 ∧ x ∈ threeStarted.readyList p ∧ x ≠ 2) ∧
    ∃ s2, taskDone 17 threeStarted = some s2 ∧
      s2.numTasks = threeStarted.numTasks - 1 ∧ (∀ p, 2 ∉ s2.readyList p) ∧
      s2.terminated = false ∧
      ∃ b, b ≠ 2 ∧ Runs b s2 ∧
        s2.switches =
          SwitchCall.ContextSwitch 2 (threeStarted.tasks b).pStack
            (threeStarted.tasks b).firstRun :: threeStarted.switches := by
  have h := (exit_routine 17 threeStarted 2 rfl rfl).2 (by decide)
  obtain ⟨s2, h2⟩ := h.2.2.2.1 ⟨3, 1, by decide, by decide, by decide⟩
  exact ⟨rfl, rfl, rfl, ⟨3, 1, by decide, by decide, by decide⟩, s2, h2, h.2.2.1 s2 h2⟩

/-- C20 as stated fails in a kernel without an idle task. `setup` creates a
task of priority 3 (at address 1) and gets no stack for the idle task;
multitasking starts and the task runs, with every ready queue empty. The task
returns from its root function: `numTasks` goes from 1 to 0, which is not 1,
so the kernel is not shut down and `resched` is called; it finds no task on
any ready queue, and no other task becomes active. -/
theorem exit_without_other_task :
    Live 17 loneStarted ∧ loneStarted.activeTask = some 1 ∧ loneStarted.numTasks = 1 ∧
    loneStarted.terminated = false ∧ (∀ p, loneStarted.readyList p = []) ∧
    loneStarted.numTasks - 1 ≠ 1 ∧
    taskDone 17 loneStarted = resched 17 { removeready 1 loneStarted with numTasks := 0 } ∧
    taskDone 17 loneStarted = none ∧
    ¬ ∃ s2 b, taskDone 17 loneStarted = some s2 ∧ b ≠ 1 ∧ s2.activeTask = some b := by
  have hnone : taskDone 17 loneStarted = none := rfl
  refine ⟨loneStarted_live, rfl, rfl, rfl, fun p => ?_, by decide, rfl, hnone, ?_⟩
  · show Function.update (Function.update (fun _ => ([] : List TaskId)) 3 [1]) 3 [] p = []
    by_cases hp : p = 3
    · subst hp
      simp
    · simp [Function.update_noteq hp]
  · rintro ⟨s2, b, h, _⟩
    rw [hnone] at h
    cases h

end ARTK
